import Mathlib

/-!
# repo_server: the repository metadata engine

A shallow embedding of `repo.go`, `utils.go`, `deb/deb.go` and
`opgp/opgp.go` of the Debian repository server, and theorems about its
package index, pool paths and metadata regeneration.

Conventions of the embedding:

* a Go `string` is the list of its bytes (`GoString`);
* a Go `map[string]V` is an association list (`GoMap V`); the order of the
  list stands for the iteration order, which Go leaves unspecified;
* a method with a pointer receiver returns the receiver's new value, and the
  file system is an explicit value (`Disk`) threaded through the calls;
* library primitives whose results are not computed here (digests, gzip,
  JSON, signatures, Unicode case mapping) and the outcome of each system call
  are read from an explicit environment (`Env`).
-/

namespace RepoServer

/-! ## Strings -/

/-- A Go string: a sequence of bytes. -/
abbrev GoString := List Nat

/-- The bytes of an ASCII literal. -/
def lit (s : String) : GoString := s.toList.map Char.toNat

/-! ## Maps -/

/-- A Go `map[string]V`. -/
def GoMap (V : Type) : Type := List (GoString × V)

namespace GoMap

variable {V : Type}

instance [DecidableEq V] : DecidableEq (GoMap V) :=
  inferInstanceAs (DecidableEq (List (GoString × V)))

/-- The value of `make(map[string]V)`. -/
def empty : GoMap V := []

/-- The lookup `v, found := m[k]`. -/
def get : GoMap V → GoString → Option V
  | [], _ => none
  | (k', v) :: t, k => if k' = k then some v else get t k

/-- The statement `delete(m, k)`. -/
def delete : GoMap V → GoString → GoMap V
  | [], _ => []
  | (k', v) :: t, k => if k' = k then delete t k else (k', v) :: delete t k

/-- The statement `m[k] = v`. -/
def set : GoMap V → GoString → V → GoMap V
  | [], k, v => [(k, v)]
  | (k', v') :: t, k, v => if k' = k then (k, v) :: t else (k', v') :: set t k v

/-- The value of `len(m)`. -/
def len (m : GoMap V) : Nat := List.length m

/-- The keys of the map, in iteration order. -/
def keys (m : GoMap V) : List GoString := List.map Prod.fst m

end GoMap

/-! ## Strings and formatting (`strings`, `fmt`) -/

/-- The function `strings.HasPrefix`. -/
def HasPrefix (s p : GoString) : Bool := List.isPrefixOf p s

/-- The function `strings.TrimPrefix`. -/
def TrimPrefix (s p : GoString) : GoString :=
  if HasPrefix s p then List.drop p.length s else s

/-- The call `strings.Trim(s, "/")`: leading and trailing slashes removed. -/
def TrimSlashes (s : GoString) : GoString :=
  ((s.dropWhile (· = 47)).reverse.dropWhile (· = 47)).reverse

/-- An ASCII white-space byte: tab, line feed, vertical tab, form feed,
carriage return, space. -/
def isAsciiSpace (c : Nat) : Bool :=
  c = 9 ∨ c = 10 ∨ c = 11 ∨ c = 12 ∨ c = 13 ∨ c = 32

/-- The lower-case form of an ASCII byte. -/
def asciiLower (c : Nat) : Nat := if 65 ≤ c ∧ c ≤ 90 then c + 32 else c

/-- The verb `%d` of an unsigned number. -/
def decimal (n : Nat) : GoString := (Nat.toDigits 10 n).map Char.toNat

/-! ## Paths (`path/filepath`, Unix) -/

/-- The elements of a path between its separators (`/`, byte 47). -/
def splitSlash : GoString → List GoString
  | [] => [[]]
  | c :: t =>
    if c = 47 then [] :: splitSlash t
    else
      match splitSlash t with
      | [] => [[c]]
      | h :: r => (c :: h) :: r

/-- The call `strings.Join(elems, "/")`. -/
def joinSlash : List GoString → GoString
  | [] => []
  | [a] => a
  | a :: b :: t => a ++ 47 :: joinSlash (b :: t)

/-- One element scanned by `filepath.Clean`; `out` holds the elements kept so
far, the last one first. An empty element and `.` are dropped, `..` removes
the element before it unless there is none or it is `..` itself, in which
case `..` is kept when the path is not rooted. -/
def cleanStep (rooted : Bool) (out : List GoString) (c : GoString) : List GoString :=
  if c = [] ∨ c = [46] then out
  else if c = [46, 46] then
    match out with
    | top :: rest => if top = [46, 46] then c :: out else rest
    | [] => if rooted then [] else [c]
  else c :: out

/-- Whether a path begins with the separator. -/
def isRooted (path : GoString) : Bool := path.head? = some 47

/-- The elements `filepath.Clean` keeps, in path order. -/
def cleanElems (rooted : Bool) (path : GoString) : List GoString :=
  ((splitSlash path).foldl (cleanStep rooted) []).reverse

/-- A cleaned path written out from its elements. -/
def render (rooted : Bool) (es : List GoString) : GoString :=
  if rooted then 47 :: joinSlash es
  else if es = [] then [46] else joinSlash es

namespace filepath

/-- The function `filepath.Clean`. -/
def Clean (path : GoString) : GoString :=
  render (isRooted path) (cleanElems (isRooted path) path)

/-- The function `filepath.Join`: empty leading elements are skipped, the
rest is joined with separators and cleaned. -/
def Join : List GoString → GoString
  | [] => []
  | e :: t => if e = [] then Join t else Clean (joinSlash (e :: t))

/-- The function `filepath.Dir`: the path up to its last separator, cleaned. -/
def Dir (path : GoString) : GoString :=
  Clean (path.reverse.dropWhile (· ≠ 47)).reverse

/-- The elements `filepath.Rel` walks over in a cleaned path. -/
def relElems (p : GoString) : List GoString :=
  if p = [] then [] else if p = [47] then [[]] else splitSlash p

/-- The scan of `filepath.Rel` for the first differing elements: what is left
of the base and of the target, and whether the scan stopped on a difference. -/
def relScan : List GoString → List GoString → List GoString × List GoString × Bool
  | b :: bs, t :: ts => if t = b then relScan bs ts else (b :: bs, t :: ts, true)
  | bs, ts => (bs, ts, false)

/-- The function `filepath.Rel`; `none` is its error. -/
def Rel (basepath targpath : GoString) : Option GoString :=
  let base := Clean basepath
  let targ := Clean targpath
  if targ = base then some [46]
  else
    let base := if base = [46] then [] else base
    if isRooted base ≠ isRooted targ then none
    else
      match relScan (relElems base) (relElems targ) with
      | (bs, ts, differ) =>
        if differ ∧ bs.head? = some [46, 46] then none
        else if bs ≠ [] then some (joinSlash (bs.map (fun _ => [46, 46]) ++ ts))
        else some (joinSlash ts)

end filepath

/-! ## Data model (`repo.go`) -/

/-- The struct `RepoConfig`. -/
structure RepoConfig where
  Origin : GoString
  Label : GoString
  Description : GoString
  Codename : GoString
  Component : GoString
  Sign : Bool
  GpgKey : GoString
deriving DecidableEq

/-- The struct `RepoFile`. -/
structure RepoFile where
  Size : Nat
  Sha1 : GoString
  Sha256 : GoString
  Md5 : GoString
deriving DecidableEq

/-- The struct `Package`. -/
structure Package where
  Control : GoMap GoString
  Description : GoString
  Filename : GoString
  Size : Nat
  Sha1 : GoString
  Sha256 : GoString
  Md5 : GoString
deriving DecidableEq

/-- The type `PackageSet`: version to package. -/
abbrev PackageSet := GoMap Package

/-- The type `PackageGroup`: name to version map. -/
abbrev PackageGroup := GoMap PackageSet

/-- The struct `RepoPackages`. -/
structure RepoPackages where
  I386 : PackageGroup
  Amd64 : PackageGroup
  Source : PackageGroup
deriving DecidableEq

/-- The struct `Repo`. -/
structure Repo where
  Name : GoString
  Config : RepoConfig
  Packages : RepoPackages
  Files : GoMap RepoFile
deriving DecidableEq

/-- The function `newRepo`. -/
def newRepo (name : GoString) : Repo :=
  { Name := name
    Config :=
      { Origin := lit "<origin>"
        Label := lit "<label>"
        Description := lit "<description>"
        Codename := lit "<codename>"
        Component := lit "main"
        Sign := false
        GpgKey := lit "" }
    Packages := { I386 := GoMap.empty, Amd64 := GoMap.empty, Source := GoMap.empty }
    Files := GoMap.empty }

/-- The method `PackageGroup.remove`. The version map found under `name` is
shared with the group (Go maps are references), so the deletion from `set`
is visible through `pg[name]`. -/
def PackageGroup.remove (pg : PackageGroup) (name version : GoString) : PackageGroup :=
  match GoMap.get pg name with
  | none => pg
  | some set =>
    let set' := GoMap.delete set version
    let pg' := GoMap.set pg name set'
    if GoMap.len set' = 0 then GoMap.delete pg' name else pg'

/-! ## Environment -/

/-- The errors the program returns, by kind. -/
inductive Error where
  /-- A system call failed. -/
  | io
  /-- The value `io.EOF`. -/
  | eof
  /-- The type `*deb.InvalidDeb`. -/
  | invalidDeb
  /-- The type `*deb.NotFound`. -/
  | notFound
  /-- The error "already signed" of `Deb.Sign`. -/
  | alreadySigned
  /-- The type `*opgp.UnknownKey`, or the keyring could not be read. -/
  | unknownKey
  /-- The type `*opgp.TooManyIdentities`. -/
  | tooManyIdentities
  /-- The type `*opgp.NoIdentities`. -/
  | noIdentities
  /-- The OpenPGP library failed to sign. -/
  | signing
  /-- The error "paragraphs in control" of `parseDeb`. -/
  | paragraphs
  /-- The error "no version in" of `parseDeb`. -/
  | noVersion
  /-- The error "no package name in" of `parseDeb`. -/
  | noPackage
  /-- The error "no architecture in" of `parseDeb`. -/
  | noArchitecture
  /-- The error "Unsupported arch" of `parseDeb`. -/
  | unsupportedArch
  /-- The run-time panic "slice bounds out of range". -/
  | sliceBounds
  /-- The error of `json.Decoder.Decode`. -/
  | json
  /-- The error of `cfg.Get`. -/
  | config
  /-- The error "default-key not set" of `getDefaultKey`. -/
  | noDefaultKey
  /-- The type `*strconv.NumError` of `strconv.ParseBool`. -/
  | parseBool
deriving DecidableEq

deriving instance DecidableEq for Except

/-- The system calls whose failure is decided by the environment. -/
inductive Syscall where
  | mkdirAll
  | create
  | openFile
  | remove
deriving DecidableEq

/-- What `os.Stat` reports for a path: it is there, it does not exist, or
the call fails otherwise. -/
inductive StatResult where
  | found
  | notExist
  | failed
deriving DecidableEq

/-- A member of an `ar` archive as `ar.Reader` delivers it: the header's name
and size fields and the bytes of the body. -/
structure ArEntry where
  Name : GoString
  Size : Nat
  Data : GoString
deriving DecidableEq

/-- The header `Deb.Sign` hands to `ar.Writer`. -/
structure ArHeader where
  Name : GoString
  ModTime : GoString
  Uid : Nat
  Gid : Nat
  Mode : Nat
  Size : Nat
deriving DecidableEq

/-- A member of a tar stream as `tar.Reader` delivers it. -/
structure TarEntry where
  Name : GoString
  IsDir : Bool
  Data : GoString
deriving DecidableEq

/-- What a sequential reader yields: the members it returns, and whether the
reading then ends with an error other than `io.EOF`. -/
structure Stream (α : Type) where
  entries : List α
  broken : Bool

/-- An OpenPGP entity of the keyring: its identity names. -/
structure Entity where
  Id : GoString
  Identities : List GoString
deriving DecidableEq

/-- The files on disk, by path. Directories are not recorded: `os.MkdirAll`
only succeeds or fails. -/
abbrev Disk := GoMap GoString

/-- The environment of a run: configuration globals, the library
primitives that are not computed here, and the outcome of system calls. A
write to a file the program has just created is taken to succeed. -/
structure Env where
  /-- The global `repoPath`. -/
  repoPath : GoString
  /-- Lower-case hex MD5 of a byte sequence (`crypto/md5`, `encoding/hex`). -/
  md5 : GoString → GoString
  /-- Lower-case hex SHA-1 of a byte sequence. -/
  sha1 : GoString → GoString
  /-- Lower-case hex SHA-256 of a byte sequence. -/
  sha256 : GoString → GoString
  /-- The stream `compress/gzip` writes for the data written to it. -/
  gzip : GoString → GoString
  /-- The function `strings.ToLower` on a string with a non-ASCII byte. -/
  unicodeLower : GoString → GoString
  /-- The function `strings.TrimSpace` on a string with a non-ASCII byte. -/
  unicodeTrimSpace : GoString → GoString
  /-- The encoding `encoding/json` writes for the repository state. -/
  jsonEncode : Repo → GoString
  /-- The formatted current time of the top-level Release file. -/
  releaseDate : GoString
  /-- The `Date:` line of a package signature. -/
  signDate : GoString
  /-- The modification time put in an `ar` header. -/
  modTime : GoString
  /-- Whether the system call on the path returns an error (for
  `os.Remove`: an error other than "does not exist"). -/
  fails : Syscall → GoString → Bool
  /-- The members `ar.Reader` reads from the bytes of a file. -/
  arRead : GoString → Stream ArEntry
  /-- The bytes `ar.Writer` emits for a header and body. -/
  arWrite : ArHeader → GoString → GoString
  /-- The members `tar.Reader` over `gzip.Reader` reads; `none` when
  `gzip.NewReader` fails. -/
  tarGzRead : GoString → Option (Stream TarEntry)
  /-- The paragraphs `godebiancontrol.Parse` reads; `none` is its error. -/
  parseControl : GoString → Option (List (GoMap GoString))
  /-- The entity `opgp.findKey` returns for a key id; `none` is its error. -/
  findKey : GoString → Option Entity
  /-- The armored detached signature of the data; `none` is an error. -/
  detachSign : Entity → GoString → Option GoString
  /-- The clearsigned form of the text; `none` is an error. -/
  clearsign : Entity → GoString → Option GoString
  /-- The result of `os.Stat` on the path. -/
  stat : GoString → StatResult
  /-- The repository `json.Decoder.Decode` leaves when it decodes the bytes
  into the given one; `none` is its error. -/
  jsonDecode : Repo → GoString → Option Repo
  /-- The value `cfg.Get("default-key", "")` returns; `none` is its error. -/
  defaultKey : Option GoString

/-- The function `strings.ToLower`. -/
def ToLower (E : Env) (s : GoString) : GoString :=
  if s.all (· < 128) then s.map asciiLower else E.unicodeLower s

/-- The function `strings.TrimSpace`. -/
def TrimSpace (E : Env) (s : GoString) : GoString :=
  if s.all (· < 128) then
    ((s.dropWhile isAsciiSpace).reverse.dropWhile isAsciiSpace).reverse
  else E.unicodeTrimSpace s

/-! ## The hashing writer (`utils.go`) -/

/-- The struct `HashWriter`. Each digest state is the bytes written into it;
`out` is what the wrapped writer has received. -/
structure HashWriter where
  h1 : GoString
  h256 : GoString
  h5 : GoString
  bytes : Nat
  out : GoString
deriving DecidableEq

/-- The function `NewHashWriter`. -/
def NewHashWriter : HashWriter := { h1 := [], h256 := [], h5 := [], bytes := 0, out := [] }

/-- The method `HashWriter.Write`, on a write that succeeds. -/
def HashWriter.Write (hw : HashWriter) (p : GoString) : HashWriter :=
  { h1 := hw.h1 ++ p, h256 := hw.h256 ++ p, h5 := hw.h5 ++ p,
    bytes := hw.bytes + p.length, out := hw.out ++ p }

/-- The method `HashWriter.Written`. -/
def HashWriter.Written (hw : HashWriter) : Nat := hw.bytes

/-- The method `HashWriter.Sha1`. -/
def HashWriter.Sha1 (E : Env) (hw : HashWriter) : GoString := E.sha1 hw.h1

/-- The method `HashWriter.Sha256`. -/
def HashWriter.Sha256 (E : Env) (hw : HashWriter) : GoString := E.sha256 hw.h256

/-- The method `HashWriter.Md5`. -/
def HashWriter.Md5 (E : Env) (hw : HashWriter) : GoString := E.md5 hw.h5

/-! ## Signing (`opgp/opgp.go`) -/

namespace opgp

/-- The function `opgp.GetSignerName`. -/
def GetSignerName (E : Env) (key : GoString) : Except Error GoString :=
  match E.findKey key with
  | none => .error .unknownKey
  | some entity =>
    if entity.Identities.length > 1 then .error .tooManyIdentities
    else
      match entity.Identities with
      | name :: _ => .ok name
      | [] => .error .noIdentities

/-- The function `opgp.Clearsign`, as the text written to the output. -/
def Clearsign (E : Env) (input key : GoString) : Except Error GoString :=
  match E.findKey key with
  | none => .error .unknownKey
  | some entity =>
    match E.clearsign entity input with
    | none => .error .signing
    | some text => .ok text

/-- The function `opgp.SignFile`. -/
def SignFile (E : Env) (disk : Disk) (filename output key : GoString) :
    Option Error × Disk :=
  match E.findKey key with
  | none => (some .unknownKey, disk)
  | some entity =>
    if E.fails .openFile filename ∨ GoMap.get disk filename = none then (some .io, disk)
    else if E.fails .create output then (some .io, disk)
    else
      let disk1 := GoMap.set disk output []
      match E.detachSign entity ((GoMap.get disk1 filename).getD []) with
      | none => (some .signing, disk1)
      | some sig => (none, GoMap.set disk1 output sig)

/-- The function `opgp.ClearsignFile`. -/
def ClearsignFile (E : Env) (disk : Disk) (filename output key : GoString) :
    Option Error × Disk :=
  if E.fails .openFile filename ∨ GoMap.get disk filename = none then (some .io, disk)
  else if E.fails .create output then (some .io, disk)
  else
    let disk1 := GoMap.set disk output []
    match Clearsign E ((GoMap.get disk1 filename).getD []) key with
    | .error e => (some e, disk1)
    | .ok text => (none, GoMap.set disk1 output text)

end opgp

/-! ## The package archive (`deb/deb.go`) -/

namespace Deb

/-- The method `Deb.validate`, on the bytes of the file. -/
def validate (E : Env) (file : GoString) : Option Error :=
  match (E.arRead file).entries with
  | [] => some .invalidDeb
  | hdr :: _ =>
    if TrimSlashes hdr.Name ≠ lit "debian-binary" then some .invalidDeb
    else if hdr.Data = [] then some .invalidDeb
    else if TrimSpace E (hdr.Data.take 10) ≠ lit "2.0" then some .invalidDeb
    else none

/-- The loop of `Deb.findSection` over the members still to be read. -/
def scanSections (name : GoString) (broken : Bool) : List ArEntry → Except Error GoString
  | [] => if broken then .error .invalidDeb else .error .notFound
  | hdr :: rest =>
    if TrimSlashes hdr.Name = name then .ok hdr.Data else scanSections name broken rest

/-- The method `Deb.findSection`, as the bytes the returned reader yields. -/
def findSection (E : Env) (file name : GoString) : Except Error GoString :=
  if name = [] then .ok []
  else scanSections name (E.arRead file).broken (E.arRead file).entries

/-- The loop of `Deb.Control` over the members of the tar stream, as the
bytes of the member it stops on. -/
def scanTar (name : GoString) (broken : Bool) : List TarEntry → Except Error GoString
  | [] => if broken then .error .invalidDeb else .error .eof
  | hdr :: rest =>
    if hdr.IsDir then scanTar name broken rest
    else if TrimPrefix hdr.Name (lit "./") = name then .ok hdr.Data
    else scanTar name broken rest

/-- The method `Deb.Control`. -/
def Control (E : Env) (file name : GoString) : Except Error (List (GoMap GoString)) :=
  match findSection E file (lit "control.tar.gz") with
  | .error e => .error e
  | .ok sect =>
    match E.tarGzRead sect with
    | none => .error .invalidDeb
    | some t =>
      match (if name = [] then .ok [] else scanTar name t.broken t.entries) with
      | .error e => .error e
      | .ok member =>
        match E.parseControl member with
        | none => .error .invalidDeb
        | some paras => .ok paras

/-- The method `hash.Hash.Reset`, on the bytes a digest holds. -/
def Reset (_ : GoString) : GoString := []

/-- The method `hash.Hash.Write`, on the bytes a digest holds. -/
def Write (h p : GoString) : GoString := h ++ p

/-- The loop of `Deb.hashSections` over the members still to be read. The
arguments `h1` and `h5` are the bytes the two digests hold when an iteration
starts, `s` is the text built so far. An iteration resets both digests,
reads the next header, copies the member into both digests and adds the
line `"\t%s %s %d %s\n"`. -/
def hashLoop (E : Env) (broken : Bool) :
    List ArEntry → GoString → GoString → GoString → Except Error GoString
  | [], _, _, s => if broken then .error .invalidDeb else .ok s
  | hdr :: rest, h1, h5, s =>
    let h1 := Write (Reset h1) hdr.Data
    let h5 := Write (Reset h5) hdr.Data
    let h1x := E.sha1 h1
    let h5x := E.md5 h5
    hashLoop E broken rest h1 h5
      (s ++ ([9] ++ h5x ++ [32] ++ h1x ++ [32] ++ decimal hdr.Size ++ [32] ++ hdr.Name ++ [10]))

/-- The method `Deb.hashSections`. -/
def hashSections (E : Env) (file : GoString) : Except Error GoString :=
  hashLoop E (E.arRead file).broken (E.arRead file).entries [] [] []

/-- The method `Deb.Sign`, as the new bytes of the file. -/
def Sign (E : Env) (file key : GoString) : Except Error GoString :=
  match findSection E file (lit "_gpgbuilder") with
  | .ok _ => .error .alreadySigned
  | .error .notFound =>
    match opgp.GetSignerName E key with
    | .error e => .error e
    | .ok signer =>
      let s := lit "Version: 4\n" ++ (lit "Signer: " ++ signer ++ [10]) ++ E.signDate
        ++ lit "Role: builder\n" ++ lit "Files:\n"
      match hashSections E file with
      | .error e => .error e
      | .ok s2 =>
        match opgp.Clearsign E (s ++ s2) key with
        | .error e => .error e
        | .ok buf =>
          let hdr : ArHeader :=
            { Name := lit "_gpgbuilder", ModTime := E.modTime, Uid := 0, Gid := 0,
              Mode := 0o644, Size := buf.length }
          .ok (file ++ E.arWrite hdr buf)
  | .error e => .error e

/-- The function `deb.Open`: the file is created when missing, then
validated. The result is the bytes of the open file. -/
def Open (E : Env) (disk : Disk) (filename : GoString) : Except Error GoString × Disk :=
  if E.fails .openFile filename then (.error .io, disk)
  else
    let disk1 := if GoMap.get disk filename = none then GoMap.set disk filename [] else disk
    let file := (GoMap.get disk1 filename).getD []
    match validate E file with
    | some e => (.error e, disk1)
    | none => (.ok file, disk1)

end Deb

/-! ## The repository store (`repo.go`) -/

/-- What a call leaves behind: the error it returns, the repository value
and the disk. The repository is updated in place in the source, so it is
part of the outcome also when an error is returned. -/
structure Outcome where
  err : Option Error
  repo : Repo
  disk : Disk
deriving DecidableEq

/-- The lookup `m[key]` in a map of strings: the empty string when the key
is absent. -/
def field (m : GoMap GoString) (key : GoString) : GoString := (GoMap.get m key).getD []

/-- The method `Package.appendTo`, as the bytes of its single write. -/
def Package.appendTo (p : Package) : GoString :=
  (List.map (fun e : GoString × GoString => e.1 ++ lit ": " ++ e.2 ++ [10]) p.Control).flatten
    ++ (lit "Filename: " ++ p.Filename ++ [10])
    ++ (lit "Size: " ++ decimal p.Size ++ [10])
    ++ (lit "SHA1: " ++ p.Sha1 ++ [10])
    ++ (lit "SHA256: " ++ p.Sha256 ++ [10])
    ++ (lit "MD5Sum: " ++ p.Md5 ++ [10])
    ++ (lit "Description: " ++ p.Description ++ [10])
    ++ [10]

/-- The writes of the loop of `PackageGroup.writePackages`: one stanza for
each `pg[name][version]`, names and versions in iteration order. -/
def PackageGroup.stanzas (pg : PackageGroup) : List GoString :=
  ((GoMap.keys pg).map fun name =>
    (GoMap.keys ((GoMap.get pg name).getD [])).filterMap fun version =>
      (GoMap.get ((GoMap.get pg name).getD []) version).map Package.appendTo).flatten

/-- The lines 324 to 329 of `Repo.parseDeb`: the record is put under
`pkgs[pkgName][version]`, in a new version map when the name has none. -/
def PackageGroup.insert (pkgs : PackageGroup) (pkgName version : GoString) (pkg : Package) :
    PackageGroup :=
  GoMap.set pkgs pkgName (GoMap.set ((GoMap.get pkgs pkgName).getD GoMap.empty) version pkg)

namespace Repo

/-- The method `Repo.storeHashes`. -/
def storeHashes (E : Env) (r : Repo) (path : GoString) (hw : HashWriter) : Repo :=
  let base := filepath.Join [E.repoPath, r.Name, lit "dists", r.Config.Codename]
  match filepath.Rel base path with
  | none => r
  | some rel =>
    if HasPrefix rel (lit "..") then r
    else
      { r with
        Files := GoMap.set r.Files rel
          { Size := hw.Written, Sha1 := hw.Sha1 E, Sha256 := hw.Sha256 E, Md5 := hw.Md5 E } }

end Repo

/-- The method `PackageGroup.writePackages`, for the group `pg` of `r`. The
writer `w` feeds both hashing writers the same stanzas; the second one
wraps the gzip writer, whose output goes to the `.gz` file. -/
def PackageGroup.writePackages (E : Env) (pg : PackageGroup) (r : Repo) (disk : Disk) (name : GoString) :
    Outcome :=
  let path := filepath.Join
    [E.repoPath, r.Name, lit "dists", r.Config.Codename, r.Config.Component, name]
  if E.fails .mkdirAll path then ⟨some .io, r, disk⟩
  else
    let file := if name = lit "source" then lit "Sources" else lit "Packages"
    let filename := filepath.Join [path, file]
    let gzFilename := filepath.Join [path, file] ++ lit ".gz"
    if E.fails .create filename then ⟨some .io, r, disk⟩
    else
      let disk1 := GoMap.set disk filename []
      if E.fails .create gzFilename then ⟨some .io, r, disk1⟩
      else
        let hw := (PackageGroup.stanzas pg).foldl HashWriter.Write NewHashWriter
        let gzHw := (PackageGroup.stanzas pg).foldl HashWriter.Write NewHashWriter
        let disk2 := GoMap.set (GoMap.set disk1 filename hw.out) gzFilename (E.gzip gzHw.out)
        ⟨none, Repo.storeHashes E (Repo.storeHashes E r filename hw) gzFilename gzHw, disk2⟩

namespace Repo

/-- The method `Repo.writeDeepRelease`. -/
def writeDeepRelease (E : Env) (r : Repo) (disk : Disk) (name arch : GoString) : Outcome :=
  let path := filepath.Join
    [E.repoPath, r.Name, lit "dists", r.Config.Codename, r.Config.Component, name]
  if E.fails .mkdirAll path then ⟨some .io, r, disk⟩
  else
    let filename := filepath.Join [path, lit "Release"]
    if E.fails .create filename then ⟨some .io, r, disk⟩
    else
      let s := (lit "Component: " ++ r.Config.Component ++ [10])
        ++ (lit "Origin: " ++ r.Config.Origin ++ [10])
        ++ (lit "Label: " ++ r.Config.Label ++ [10])
        ++ (lit "Architecture: " ++ arch ++ [10])
        ++ (lit "Description: " ++ r.Config.Description ++ [10])
      let hw := NewHashWriter.Write s
      ⟨none, storeHashes E r filename hw, GoMap.set disk filename hw.out⟩

/-- The method `Repo.writePackages`. -/
def writePackages (E : Env) (r : Repo) (disk : Disk) : Outcome :=
  let o1 := PackageGroup.writePackages E r.Packages.I386 r disk (lit "binary-i386")
  if o1.err.isSome then o1
  else
    let o2 := writeDeepRelease E o1.repo o1.disk (lit "binary-i386") (lit "i386")
    if o2.err.isSome then o2
    else
      let o3 := PackageGroup.writePackages E o2.repo.Packages.Amd64 o2.repo o2.disk (lit "binary-amd64")
      if o3.err.isSome then o3
      else
        let o4 := writeDeepRelease E o3.repo o3.disk (lit "binary-amd64") (lit "amd64")
        if o4.err.isSome then o4
        else
          let o5 := PackageGroup.writePackages E o4.repo.Packages.Source o4.repo o4.disk (lit "source")
          if o5.err.isSome then o5
          else writeDeepRelease E o5.repo o5.disk (lit "source") (lit "source")

/-- One line of a checksum block of the top-level Release file. -/
def checksumLine (digest : GoString) (size : Nat) (name : GoString) : GoString :=
  [32] ++ digest ++ [32] ++ decimal size ++ [32] ++ name ++ [10]

/-- A checksum block of `Repo.writeRelease`, after its heading: one line
for each `r.Files[name]`, names in iteration order. -/
def checksumBlock (r : Repo) (digest : RepoFile → GoString) : GoString :=
  ((GoMap.keys r.Files).filterMap fun name =>
    (GoMap.get r.Files name).map fun file => checksumLine (digest file) file.Size name).flatten

/-- The text `Repo.writeRelease` writes to the top-level Release file. -/
def releaseText (E : Env) (r : Repo) : GoString :=
  let md5 := lit "MD5Sum:\n" ++ checksumBlock r RepoFile.Md5
  let sha1 := lit "SHA1:\n" ++ checksumBlock r RepoFile.Sha1
  let sha256 := lit "SHA256:\n" ++ checksumBlock r RepoFile.Sha256
  let s := (lit "Origin: " ++ r.Config.Origin ++ [10])
    ++ (lit "Label: " ++ r.Config.Label ++ [10])
    ++ (lit "Codename: " ++ r.Config.Codename ++ [10])
    ++ (lit "Date: " ++ E.releaseDate ++ [10])
    ++ lit "Architectures: i386 amd64\n"
    ++ (lit "Components: " ++ r.Config.Component ++ [10])
    ++ (lit "Description: " ++ r.Config.Description ++ [10])
  s ++ md5 ++ sha1 ++ sha256

/-- The method `Repo.writeRelease`. -/
def writeRelease (E : Env) (r : Repo) (disk : Disk) : Outcome :=
  let path := filepath.Join [E.repoPath, r.Name, lit "dists", r.Config.Codename]
  if E.fails .mkdirAll path then ⟨some .io, r, disk⟩
  else
    let filename := filepath.Join [path, lit "Release"]
    if E.fails .create filename then ⟨some .io, r, disk⟩
    else
      let disk1 := GoMap.set disk filename (releaseText E r)
      if !r.Config.Sign then ⟨none, r, disk1⟩
      else
        let gpgFilename := filepath.Join [path, lit "Release.gpg"]
        match opgp.SignFile E disk1 filename gpgFilename r.Config.GpgKey with
        | (some e, disk2) => ⟨some e, r, disk2⟩
        | (none, disk2) =>
          let inFilename := filepath.Join [path, lit "InRelease"]
          match opgp.ClearsignFile E disk2 filename inFilename r.Config.GpgKey with
          | (e, disk3) => ⟨e, r, disk3⟩

/-- The method `Repo.Save`. The state file is encoded from the repository
as it stands when `Save` is entered. -/
def Save (E : Env) (r : Repo) (disk : Disk) : Outcome :=
  let path := filepath.Join [E.repoPath, r.Name]
  if E.fails .mkdirAll path then ⟨some .io, r, disk⟩
  else
    let metaPath := filepath.Join [path, lit ".meta"]
    if E.fails .create metaPath then ⟨some .io, r, disk⟩
    else
      let o := writePackages E r (GoMap.set disk metaPath (E.jsonEncode r))
      if o.err.isSome then o else writeRelease E o.repo o.disk

/-- The method `Repo.signDeb`. -/
def signDeb (E : Env) (r : Repo) (disk : Disk) (debPath : GoString) : Option Error × Disk :=
  if !r.Config.Sign then (none, disk)
  else
    match Deb.Open E disk debPath with
    | (.error e, disk1) => (some e, disk1)
    | (.ok file, disk1) =>
      match Deb.Sign E file r.Config.GpgKey with
      | .error e => (some e, disk1)
      | .ok signed => (none, GoMap.set disk1 debPath signed)

/-- The pool-relative file name `Repo.parseDeb` computes (lines 276 to 278). -/
def poolFilename (component pkgName version arch : GoString) : GoString :=
  let base := lit "pool/" ++ component ++ [47] ++ pkgName.take 1 ++ [47] ++ pkgName ++ [47]
  let debName := pkgName ++ [95] ++ version ++ [95] ++ arch ++ lit ".deb"
  filepath.Join [base, debName]

/-- The three package groups of the index. -/
inductive Group where
  | i386
  | amd64
  | source
deriving DecidableEq

/-- The switch of `Repo.parseDeb` on the lower-cased architecture (lines 311
to 322); `none` is its default case. -/
def classify (E : Env) (arch : GoString) : Option Group :=
  if ToLower E arch = lit "i386" then some .i386
  else if ToLower E arch = lit "amd64" then some .amd64
  else if ToLower E arch = lit "source" then some .source
  else none

/-- The package group of the index behind a selection. -/
def group (r : Repo) : Group → PackageGroup
  | .i386 => r.Packages.I386
  | .amd64 => r.Packages.Amd64
  | .source => r.Packages.Source

/-- The repository with one package group replaced. -/
def setGroup (r : Repo) (g : Group) (pg : PackageGroup) : Repo :=
  match g with
  | .i386 => { r with Packages := { r.Packages with I386 := pg } }
  | .amd64 => { r with Packages := { r.Packages with Amd64 := pg } }
  | .source => { r with Packages := { r.Packages with Source := pg } }

/-- The body of `Repo.parseDeb` from line 256 on, given the single control
paragraph `info[0]`. -/
def ingest (E : Env) (r : Repo) (disk : Disk) (debPath : GoString) (para : GoMap GoString) :
    Outcome :=
  let version := field para (lit "Version")
  let pkgName := field para (lit "Package")
  let arch := field para (lit "Architecture")
  if version = [] then ⟨some .noVersion, r, disk⟩
  else if pkgName = [] then ⟨some .noPackage, r, disk⟩
  else if arch = [] then ⟨some .noArchitecture, r, disk⟩
  else
    let pkgFilename := poolFilename r.Config.Component pkgName version arch
    let filename := filepath.Join [E.repoPath, r.Name, pkgFilename]
    if E.fails .openFile debPath ∨ GoMap.get disk debPath = none then ⟨some .io, r, disk⟩
    else if filepath.Dir filename ≠ [46] ∧ E.fails .mkdirAll (filepath.Dir filename) then
      ⟨some .io, r, disk⟩
    else if E.fails .create filename then ⟨some .io, r, disk⟩
    else
      let disk1 := GoMap.set disk filename []
      let hw := NewHashWriter.Write ((GoMap.get disk1 debPath).getD [])
      let disk2 := GoMap.set disk1 filename hw.out
      let pkg : Package :=
        { Control := GoMap.delete para (lit "Description")
          Description := field para (lit "Description")
          Filename := pkgFilename
          Size := hw.Written
          Sha1 := hw.Sha1 E
          Sha256 := hw.Sha256 E
          Md5 := hw.Md5 E }
      match classify E arch with
      | none => ⟨some .unsupportedArch, r, disk2⟩
      | some g => Save E (setGroup r g (PackageGroup.insert (group r g) pkgName version pkg)) disk2

/-- The method `Repo.parseDeb`. -/
def parseDeb (E : Env) (r : Repo) (disk : Disk) (debPath : GoString) : Outcome :=
  match Deb.Open E disk debPath with
  | (.error e, disk1) => ⟨some e, r, disk1⟩
  | (.ok file, disk1) =>
    match Deb.Control E file (lit "control") with
    | .error e => ⟨some e, r, disk1⟩
    | .ok [para] => ingest E r disk1 debPath para
    | .ok _ => ⟨some .paragraphs, r, disk1⟩

/-- The method `Repo.Add`. -/
def Add (E : Env) (r : Repo) (disk : Disk) (debPath : GoString) : Outcome :=
  match signDeb E r disk debPath with
  | (some e, disk1) => ⟨some e, r, disk1⟩
  | (none, disk1) => parseDeb E r disk1 debPath

/-- The path of the pool file `Repo.Remove` deletes (lines 370 and 371). -/
def removePath (E : Env) (r : Repo) (name version arch : GoString) : GoString :=
  let debName := name ++ [95] ++ version ++ [95] ++ arch ++ lit ".deb"
  filepath.Join
    [E.repoPath, r.Name, lit "pool", r.Config.Component, name.take 1, name, debName]

/-- The group `Repo.Remove` selects for its architecture tag. -/
def removeGroup (arch : GoString) : Option Group :=
  if arch = lit "i386" then some .i386
  else if arch = lit "amd64" then some .amd64
  else if arch = lit "source" then some .source
  else none

/-- The method `Repo.Remove`. The slice `name[0:1]` panics on an empty
name. -/
def Remove (E : Env) (r : Repo) (disk : Disk) (name version arch : GoString) : Outcome :=
  match removeGroup arch with
  | none => ⟨none, r, disk⟩
  | some g =>
    let r1 := setGroup r g (PackageGroup.remove (group r g) name version)
    if name = [] then ⟨some .sliceBounds, r1, disk⟩
    else if E.fails .remove (removePath E r name version arch) then ⟨some .io, r1, disk⟩
    else ⟨none, r1, GoMap.delete disk (removePath E r name version arch)⟩

end Repo

/-! ## Shared repositories (`repo.go`, `utils.go`) -/

/-- The function `strconv.ParseBool`. -/
def ParseBool (s : GoString) : Except Error Bool :=
  if s = lit "1" ∨ s = lit "t" ∨ s = lit "T" ∨ s = lit "TRUE" ∨ s = lit "true"
      ∨ s = lit "True" then .ok true
  else if s = lit "0" ∨ s = lit "f" ∨ s = lit "F" ∨ s = lit "FALSE" ∨ s = lit "false"
      ∨ s = lit "False" then .ok false
  else .error .parseBool

/-- The function `getDefaultKey` (`utils.go`). -/
def getDefaultKey (E : Env) : Except Error GoString :=
  match E.defaultKey with
  | none => .error .config
  | some key => if key = [] then .error .noDefaultKey else .ok key

/-- The method `Repo.Load`. -/
def Repo.Load (E : Env) (r : Repo) (disk : Disk) : Except Error Repo :=
  let metaPath := filepath.Join [filepath.Join [E.repoPath, r.Name], lit ".meta"]
  if E.fails .openFile metaPath ∨ GoMap.get disk metaPath = none then .error .io
  else
    match E.jsonDecode r ((GoMap.get disk metaPath).getD []) with
    | none => .error .json
    | some r1 => .ok r1

/-- The function `LoadRepo`. -/
def LoadRepo (E : Env) (disk : Disk) (name : GoString) : Except Error Repo :=
  Repo.Load E (newRepo name) disk

/-- The lines 104 to 117 of `UpdateSharedRepo`: the repository the settings
are applied to. -/
def Repo.prior (E : Env) (disk : Disk) (name : GoString) : Except Error Repo :=
  match E.stat (filepath.Join [E.repoPath, name]) with
  | .notExist => .ok (newRepo name)
  | .failed => .error .io
  | .found => LoadRepo E disk name

/-- The statements `val, ok := settings[key]; if ok { repo.Config.F = val }`
of `UpdateSharedRepo`, for a field the function `put` assigns. -/
def Repo.setting (settings : GoMap GoString) (key : GoString)
    (put : RepoConfig → GoString → RepoConfig) (repo : Repo) : Repo :=
  match GoMap.get settings key with
  | some val => { repo with Config := put repo.Config val }
  | none => repo

/-- The lines 118 to 155 of `UpdateSharedRepo`: the settings are applied to
the repository. -/
def Repo.applySettings (E : Env) (repo : Repo) (settings : GoMap GoString) : Except Error Repo :=
  let repo := Repo.setting settings (lit "origin") (fun c val => { c with Origin := val }) repo
  let repo := Repo.setting settings (lit "label") (fun c val => { c with Label := val }) repo
  let repo := Repo.setting settings (lit "description")
    (fun c val => { c with Description := val }) repo
  let repo := Repo.setting settings (lit "codename") (fun c val => { c with Codename := val }) repo
  let repo := Repo.setting settings (lit "component") (fun c val => { c with Component := val }) repo
  let parsed : Except Error Repo :=
    match GoMap.get settings (lit "sign") with
    | some val =>
      match ParseBool val with
      | .error e => .error e
      | .ok b => .ok { repo with Config := { repo.Config with Sign := b } }
    | none => .ok repo
  match parsed with
  | .error e => .error e
  | .ok repo =>
    if repo.Config.Sign then
      match GoMap.get settings (lit "signing-key") with
      | some val => .ok { repo with Config := { repo.Config with GpgKey := val } }
      | none =>
        match getDefaultKey E with
        | .error e => .error e
        | .ok key => .ok { repo with Config := { repo.Config with GpgKey := key } }
    else .ok repo

/-- The function `UpdateSharedRepo`: the error it returns and the disk it
leaves. -/
def UpdateSharedRepo (E : Env) (disk : Disk) (name : GoString) (settings : GoMap GoString) :
    Option Error × Disk :=
  match Repo.prior E disk name with
  | .error e => (some e, disk)
  | .ok repo =>
    match Repo.applySettings E repo settings with
    | .error e => (some e, disk)
    | .ok repo1 => ((Repo.Save E repo1 disk).err, (Repo.Save E repo1 disk).disk)

/-! ## The name generator (`utils.go`) -/

/-- The constant `maxNum`. -/
def maxNum : Nat := 3656158440062976

/-- The constant `alphabet`. -/
def alphabet : GoString :=
  lit "abcdefghijklmnopqrstuvwxyz0123456789ABCDEFGHIJKLMNOPQRSTUVWXYZ"

/-- The loop of `base36` when `i + 1` is the first argument: while
`i >= 0 && n > 0`, the byte `res[i]` is set and `n` is divided. -/
def base36Loop : Nat → Nat → GoString → GoString
  | 0, _, res => res
  | i + 1, n, res =>
    if n > 0 then base36Loop i (n / 36) (res.set i (alphabet.getD (n % 36) 0)) else res

/-- The function `base36`, on a number that is not negative. -/
def base36 (n : Nat) : GoString := base36Loop 10 n (lit "==========")

/-- A line as `bufio.ScanLines` returns it: without a trailing carriage
return. -/
def dropCR (l : GoString) : GoString := if l.getLast? = some 13 then l.dropLast else l

/-- The tokens `bufio.Scanner` returns for the bytes still to be read, when
the bytes of the current line read so far are `cur`, last byte first. -/
def scanFrom : GoString → GoString → List GoString
  | [], cur => if cur = [] then [] else [dropCR cur.reverse]
  | c :: rest, cur =>
    if c = 10 then dropCR cur.reverse :: scanFrom rest [] else scanFrom rest (c :: cur)

/-- The lines `scanner.Scan()` and `scanner.Text()` deliver for a file. -/
def scanLines (b : GoString) : List GoString := scanFrom b []

/-- The loop `for { ... }` of `randNameGen` over the numbers `rand.Int63n`
returns: the names sent on the channel, in order. The map `used` is the one
filled from the log; the loop does not add to it. -/
def nameLoop (used : List GoString) : List Nat → List GoString
  | [] => []
  | num :: rest =>
    if base36 num ∈ used then nameLoop used rest else base36 num :: nameLoop used rest

/-- The names handed out in one run and the disk the run leaves. -/
structure NameRun where
  names : List GoString
  disk : Disk
deriving DecidableEq

/-- The function `randNameGen`, run over the numbers drawn: `none` is
`os.Exit(1)`. The flag `scanErr` tells whether `scanner.Err()` reports an
error. Every name sent is appended to the log as a line. -/
def randNameGen (E : Env) (scanErr : Bool) (disk : Disk) (draws : List Nat) : Option NameRun :=
  let path := filepath.Join [E.repoPath, lit "names.dat"]
  if E.fails .openFile path then none
  else
    let log := (GoMap.get disk path).getD []
    let used := scanLines log
    if scanErr then none
    else
      some { names := nameLoop used draws,
             disk := GoMap.set disk path
               (log ++ ((nameLoop used draws).map fun name => name ++ [10]).flatten) }

/-! ## Notions used in the statements -/

/-- The record at a (name, version) pair of a package group. -/
def PackageGroup.lookup (pg : PackageGroup) (name version : GoString) : Option Package :=
  (GoMap.get pg name).bind fun set => GoMap.get set version

/-- `Add` on `debPath` gets as far as the control data: signing (when
configured) and `deb.Open` succeed and `d.Control("control")` returns `info`,
the disk then being `disk'`. -/
def Repo.Extracts (E : Env) (r : Repo) (disk : Disk) (debPath : GoString)
    (info : List (GoMap GoString)) (disk' : Disk) : Prop :=
  ∃ disk1 file, Repo.signDeb E r disk debPath = (none, disk1) ∧
    Deb.Open E disk1 debPath = (.ok file, disk') ∧
    Deb.Control E file (lit "control") = .ok info

/-- The pool copy of `parseDeb` (lines 280 to 309) goes through: the
package file can be opened and the directory and file of the pool can be
created. -/
def Repo.PoolCopyOk (E : Env) (r : Repo) (disk : Disk) (debPath : GoString)
    (para : GoMap GoString) : Prop :=
  let filename := filepath.Join [E.repoPath, r.Name,
    Repo.poolFilename r.Config.Component (field para (lit "Package"))
      (field para (lit "Version")) (field para (lit "Architecture"))]
  E.fails .openFile debPath = false ∧ GoMap.get disk debPath ≠ none ∧
    (filepath.Dir filename = [46] ∨ E.fails .mkdirAll (filepath.Dir filename) = false) ∧
    E.fails .create filename = false

/-- The file name the specification gives for a pool file:
`pool/<component>/<first letter of name>/<name>/<name>_<version>_<arch>.deb`,
the first letter being the first byte of the name. -/
def poolFormula (component name version arch : GoString) : GoString :=
  lit "pool/" ++ component ++ [47] ++ name.take 1 ++ [47] ++ name ++ [47]
    ++ name ++ [95] ++ version ++ [95] ++ arch ++ lit ".deb"

/-- A name that is one path element and is kept as it is by
`filepath.Clean`: not empty, without a separator, and not `.` or `..`. -/
def plainElem (s : GoString) : Prop := s ≠ [] ∧ 47 ∉ s ∧ s ≠ [46] ∧ s ≠ [46, 46]

instance (s : GoString) : Decidable (plainElem s) := by
  unfold plainElem
  infer_instance

/-- The stacks of elements `filepath.Clean` can hold (last element first):
plain elements, over a run of `..` that is only there when the path is not
rooted. -/
def keptStack (rooted : Bool) : List GoString → Prop
  | [] => True
  | c :: out =>
    (plainElem c ∧ keptStack rooted out) ∨
      (c = [46, 46] ∧ rooted = false ∧ ∀ e ∈ out, e = [46, 46])

/-- The repository `r'` is `r` with another file-digest registry: name,
configuration and package index are the same. -/
def sameIndex (r r' : Repo) : Prop :=
  r'.Name = r.Name ∧ r'.Config = r.Config ∧ r'.Packages = r.Packages

/-- The registry of `r'` holds the keys `ks` and the keys of the registry of
`r`, and no other; the rest of the repository is the same. -/
def filesExtend (ks : List GoString) (r r' : Repo) : Prop :=
  sameIndex r r' ∧
    ∀ k, (GoMap.get r'.Files k).isSome ↔ (k ∈ ks ∨ (GoMap.get r.Files k).isSome)

/-- The registry key of a metadata file: component, directory of the
architecture group and file name, joined by separators. -/
def registryKey (component dir file : GoString) : GoString :=
  component ++ 47 :: (dir ++ 47 :: file)

/-- The registry keys of the metadata files `Save` regenerates under a
component: per architecture group the index, its `.gz` and the Release
stanza. -/
def regenerated (component : GoString) : List GoString :=
  [registryKey component (lit "binary-i386") (lit "Packages"),
   registryKey component (lit "binary-i386") (lit "Packages.gz"),
   registryKey component (lit "binary-i386") (lit "Release"),
   registryKey component (lit "binary-amd64") (lit "Packages"),
   registryKey component (lit "binary-amd64") (lit "Packages.gz"),
   registryKey component (lit "binary-amd64") (lit "Release"),
   registryKey component (lit "source") (lit "Sources"),
   registryKey component (lit "source") (lit "Sources.gz"),
   registryKey component (lit "source") (lit "Release")]

/-- The directory of an architecture group's metadata files. -/
def groupDir (E : Env) (r : Repo) (name : GoString) : GoString :=
  filepath.Join
    [E.repoPath, r.Name, lit "dists", r.Config.Codename, r.Config.Component, name]

/-- The name of the index file of an architecture group's directory. -/
def indexFile (name : GoString) : GoString :=
  if name = lit "source" then lit "Sources" else lit "Packages"

/-- A sample environment: the repositories are under `repos`, no system
call fails, every package file reads as a valid version 2.0 archive whose
control file has the paragraphs `info`, digests are the data's length under
the digest's name, the gzip stream is the data in brackets, and there is
no signing key. -/
def sampleEnv (info : List (GoMap GoString)) : Env :=
  { repoPath := lit "repos"
    md5 := fun b => lit "md5-" ++ decimal b.length
    sha1 := fun b => lit "sha1-" ++ decimal b.length
    sha256 := fun b => lit "sha256-" ++ decimal b.length
    gzip := fun b => lit "gzip[" ++ b ++ lit "]"
    unicodeLower := fun s => s
    unicodeTrimSpace := fun s => s
    jsonEncode := fun _ => lit "{}"
    releaseDate := lit "Thu, 01 Jan 1970 00:00:00 UTC"
    signDate := lit "Date: Thu Jan 01 00:00:00 1970\n"
    modTime := lit "0"
    fails := fun _ _ => false
    arRead := fun b =>
      { entries := [⟨lit "debian-binary", 4, lit "2.0\n"⟩,
          ⟨lit "control.tar.gz", b.length, b⟩],
        broken := false }
    arWrite := fun h d => h.Name ++ d
    tarGzRead := fun b => some { entries := [⟨lit "./control", false, b⟩], broken := false }
    parseControl := fun _ => some info
    findKey := fun _ => none
    detachSign := fun _ _ => none
    clearsign := fun _ _ => none
    stat := fun _ => .notExist
    jsonDecode := fun _ _ => none
    defaultKey := none }

/-- A control paragraph with the three required fields and a description. -/
def samplePara (name version arch : GoString) : GoMap GoString :=
  [(lit "Package", name), (lit "Version", version), (lit "Architecture", arch),
    (lit "Description", lit "a package")]

/-- A repository named `r` with codename `c`, otherwise as `newRepo` makes it. -/
def sampleRepo : Repo :=
  { newRepo (lit "r") with
    Config := { (newRepo (lit "r")).Config with Codename := lit "c" } }

/-- A disk that holds one uploaded package file. -/
def sampleDisk : Disk := [(lit "tmp/x.deb", lit "0123456789")]

/-- The sample repository under the component name `..x`, with the empty
registry a new or newly loaded repository has. -/
def dotdotRepo : Repo :=
  { sampleRepo with Config := { sampleRepo.Config with Component := lit "..x" } }

/-- The path of the pool file `parseDeb` writes for a control paragraph. -/
def Repo.poolPath (E : Env) (r : Repo) (para : GoMap GoString) : GoString :=
  filepath.Join [E.repoPath, r.Name,
    Repo.poolFilename r.Config.Component (field para (lit "Package"))
      (field para (lit "Version")) (field para (lit "Architecture"))]

/-- The bytes `parseDeb` copies into the pool: those of the package file
once the pool file has been created. -/
def Repo.copied (E : Env) (r : Repo) (disk : Disk) (debPath : GoString)
    (para : GoMap GoString) : GoString :=
  (GoMap.get (GoMap.set disk (Repo.poolPath E r para) []) debPath).getD []

/-- The disk after the pool copy of `parseDeb`. -/
def Repo.pooled (E : Env) (r : Repo) (disk : Disk) (debPath : GoString)
    (para : GoMap GoString) : Disk :=
  GoMap.set (GoMap.set disk (Repo.poolPath E r para) []) (Repo.poolPath E r para)
    (Repo.copied E r disk debPath para)

/-- The record `parseDeb` builds for a control paragraph (lines 256 to 309). -/
def Repo.record (E : Env) (r : Repo) (disk : Disk) (debPath : GoString)
    (para : GoMap GoString) : Package :=
  { Control := GoMap.delete para (lit "Description")
    Description := field para (lit "Description")
    Filename := Repo.poolFilename r.Config.Component (field para (lit "Package"))
      (field para (lit "Version")) (field para (lit "Architecture"))
    Size := (Repo.copied E r disk debPath para).length
    Sha1 := E.sha1 (Repo.copied E r disk debPath para)
    Sha256 := E.sha256 (Repo.copied E r disk debPath para)
    Md5 := E.md5 (Repo.copied E r disk debPath para) }

/-- The results `Save` can return: no error, or the error of a system call
or of signing. -/
def saveError (e : Option Error) : Prop :=
  e = none ∨ e = some .io ∨ e = some .unknownKey ∨ e = some .signing

/-- The errors by which `parseDeb` rejects the control data (lines 251 to
275). -/
def validationError (e : Option Error) : Prop :=
  e = some .paragraphs ∨ e = some .noVersion ∨ e = some .noPackage ∨
    e = some .noArchitecture

/-- The architecture tag of a package group. -/
def Repo.Group.tag : Repo.Group → GoString
  | .i386 => lit "i386"
  | .amd64 => lit "amd64"
  | .source => lit "source"

/-- The sample environment for the package `foo` 1.0 of an architecture. -/
def fooEnv (arch : GoString) : Env := sampleEnv [samplePara (lit "foo") (lit "1.0") arch]

/-- The sample repository with an empty component name. -/
def noComponentRepo : Repo :=
  { sampleRepo with Config := { sampleRepo.Config with Component := [] } }

/-! ## Package listing (`repo.go`) -/

/-- The type `PackageDetails`: name to version to the groups that hold it. -/
abbrev PackageDetails := GoMap (GoMap (List GoString))

/-- The statement `packages[name][version] = append(packages[name][version],
group)` of `PackageGroup.packages`; the map under `name` is shared with
`packages`. -/
def PackageDetails.note (packages : PackageDetails) (group name version : GoString) :
    PackageDetails :=
  GoMap.set packages name
    (GoMap.set ((GoMap.get packages name).getD GoMap.empty) version
      (((GoMap.get ((GoMap.get packages name).getD GoMap.empty) version).getD []) ++ [group]))

/-- The body of the outer loop of `PackageGroup.packages` for one name. -/
def PackageGroup.packagesOf (pg : PackageGroup) (group : GoString)
    (packages : PackageDetails) (name : GoString) : PackageDetails :=
  (GoMap.keys ((GoMap.get pg name).getD GoMap.empty)).foldl
    (fun acc version => PackageDetails.note acc group name version)
    (if (GoMap.get packages name).isSome then packages
      else GoMap.set packages name GoMap.empty)

/-- The method `PackageGroup.packages`. -/
def PackageGroup.packages (pg : PackageGroup) (group : GoString)
    (packages : PackageDetails) : PackageDetails :=
  (GoMap.keys pg).foldl (PackageGroup.packagesOf pg group) packages

/-- The method `Repo.ListPackages`: the listing, and the repository as the
call leaves it. -/
def Repo.ListPackages (r : Repo) : PackageDetails × Repo :=
  (PackageGroup.packages r.Packages.Source (lit "source")
    (PackageGroup.packages r.Packages.Amd64 (lit "amd64")
      (PackageGroup.packages r.Packages.I386 (lit "i386") GoMap.empty)), r)

/-- The value of `packages[name][version]`: the empty list when the name
or the version is absent. -/
def PackageDetails.tags (packages : PackageDetails) (name version : GoString) :
    List GoString :=
  ((GoMap.get packages name).bind fun vs => GoMap.get vs version).getD []

/-- Whether `packages[name]` has the key `version`. -/
def PackageDetails.hasVersion (packages : PackageDetails) (name version : GoString) : Bool :=
  ((GoMap.get packages name).bind fun vs => GoMap.get vs version).isSome

/-- A Go map holds each key once. -/
def GoMap.uniqueKeys {V : Type} (m : GoMap V) : Prop := (GoMap.keys m).Nodup

/-- A package group as a Go value: each name once, and under every name
each version once. -/
def PackageGroup.wellFormed (pg : PackageGroup) : Prop :=
  GoMap.uniqueKeys pg ∧ ∀ n set, GoMap.get pg n = some set → GoMap.uniqueKeys set

/-- The entries of a registry in iteration order: each key with the value
`files[name]` found under it. -/
def registryEntries (files : GoMap RepoFile) : List (GoString × RepoFile) :=
  (GoMap.keys files).filterMap fun name => (GoMap.get files name).map fun file => (name, file)

/-- The lines of a checksum block for a list of entries:
`" <digest> <size> <relative-path>"` and a line feed for each. -/
def blockLines (digest : RepoFile → GoString) (entries : List (GoString × RepoFile)) :
    GoString :=
  (entries.map fun e => [32] ++ digest e.2 ++ [32] ++ decimal e.2.Size ++ [32] ++ e.1 ++ [10]).flatten

/-- The header lines of the top-level Release file. -/
def releaseHeader (E : Env) (r : Repo) : GoString :=
  (lit "Origin: " ++ r.Config.Origin ++ [10])
    ++ (lit "Label: " ++ r.Config.Label ++ [10])
    ++ (lit "Codename: " ++ r.Config.Codename ++ [10])
    ++ (lit "Date: " ++ E.releaseDate ++ [10])
    ++ lit "Architectures: i386 amd64\n"
    ++ (lit "Components: " ++ r.Config.Component ++ [10])
    ++ (lit "Description: " ++ r.Config.Description ++ [10])

/-- The path of the top-level Release file. -/
def releasePath (E : Env) (r : Repo) : GoString :=
  filepath.Join
    [filepath.Join [E.repoPath, r.Name, lit "dists", r.Config.Codename], lit "Release"]

/-! ## Notions used in the statements on archives -/

/-- A name with one trailing slash stripped. -/
def stripTrailingSlash (s : GoString) : GoString :=
  if s.getLast? = some 47 then s.dropLast else s

/-- The manifest line of one member: a tab, the MD5 of its bytes, a space,
the SHA-1 of its bytes, a space, its size, a space, its name, a newline. -/
def hashLine (E : Env) (hdr : ArEntry) : GoString :=
  [9] ++ E.md5 hdr.Data ++ [32] ++ E.sha1 hdr.Data ++ [32] ++ decimal hdr.Size ++ [32]
    ++ hdr.Name ++ [10]

/-- The header `Deb.Sign` writes for a signature of the given bytes. -/
def signatureHeader (E : Env) (buf : GoString) : ArHeader :=
  { Name := lit "_gpgbuilder", ModTime := E.modTime, Uid := 0, Gid := 0, Mode := 0o644,
    Size := buf.length }

/-- The byte sequences between the zero bytes of a sequence. -/
def zeroFields (b : GoString) : List GoString :=
  b.foldr (fun c acc =>
    if c = 0 then [] :: acc
    else
      match acc with
      | h :: t => (c :: h) :: t
      | [] => [[c]]) [[]]

/-- The members of a toy archive: names and bodies alternate. -/
def toyMembers : List GoString → List ArEntry
  | n :: d :: rest => ⟨n, d.length, d⟩ :: toyMembers rest
  | _ => []

/-- A toy archive: each member is its name, a zero byte, its body, a zero
byte. -/
def toyArchive (members : List (GoString × GoString)) : GoString :=
  (members.map fun m => m.1 ++ [0] ++ m.2 ++ [0]).flatten

/-- An environment as `sampleEnv` that reads and writes toy archives and has
every signing key, with one identity. -/
def signEnv : Env :=
  { sampleEnv [] with
    arRead := fun b => { entries := toyMembers (zeroFields b), broken := false }
    arWrite := fun h d => h.Name ++ [0] ++ d ++ [0]
    findKey := fun k => some ⟨k, [lit "Builder"]⟩
    clearsign := fun _ t => some (lit "signed[" ++ t ++ lit "]") }

/-- A toy archive whose first member is named with a leading slash. -/
def slashNamedDeb : GoString := toyArchive [(lit "/debian-binary", lit "2.0")]

/-- A toy archive whose first member goes on after its tenth byte. -/
def longVersionDeb : GoString := toyArchive [(lit "debian-binary", lit "2.0\n      3.0\n")]

/-- A toy archive with a member named `_gpgbuilder/`. -/
def slashSignedDeb : GoString :=
  toyArchive [(lit "debian-binary", lit "2.0\n"), (lit "_gpgbuilder/", lit "x")]

/-- A toy archive with no signature. -/
def unsignedDeb : GoString :=
  toyArchive [(lit "debian-binary", lit "2.0\n"), (lit "control.tar.gz", lit "c")]

/-- The archive `unsignedDeb` once signed with the key `k`. -/
def signedDeb : GoString :=
  match Deb.Sign signEnv unsignedDeb (lit "k") with
  | .ok s => s
  | .error _ => []

/-- The entries of a map, in iteration order. -/
def GoMap.toList {V : Type} (m : GoMap V) : List (GoString × V) := m

/-- One field of a stanza: the line `"name: value\n"`. -/
def fieldLine (e : GoString × GoString) : GoString := e.1 ++ lit ": " ++ e.2 ++ [10]

/-- The fields of the stanza of a package record, in the order of the
spec: the raw control fields, then `Filename`, `Size`, `SHA1`, `SHA256`,
`MD5Sum` and `Description`. -/
def stanzaFields (p : Package) : List (GoString × GoString) :=
  GoMap.toList p.Control ++
    [(lit "Filename", p.Filename), (lit "Size", decimal p.Size), (lit "SHA1", p.Sha1),
      (lit "SHA256", p.Sha256), (lit "MD5Sum", p.Md5), (lit "Description", p.Description)]

/-- The repository after the five string settings of `UpdateSharedRepo` were
applied (lines 118 to 137). -/
def Repo.withStrings (repo : Repo) (settings : GoMap GoString) : Repo :=
  Repo.setting settings (lit "component") (fun c val => { c with Component := val })
    (Repo.setting settings (lit "codename") (fun c val => { c with Codename := val })
      (Repo.setting settings (lit "description") (fun c val => { c with Description := val })
        (Repo.setting settings (lit "label") (fun c val => { c with Label := val })
          (Repo.setting settings (lit "origin") (fun c val => { c with Origin := val })
            repo))))

/-- An environment as `signEnv` with detached signatures, in which no
repository directory exists, the default key is `DEF`, and the state is
encoded as its signing flag and key. -/
def updateEnv : Env :=
  { signEnv with
    defaultKey := some (lit "DEF")
    detachSign := fun _ t => some (lit "sig[" ++ t ++ lit "]")
    jsonEncode := fun r =>
      (if r.Config.Sign then lit "sign=true" else lit "sign=false") ++ lit " key="
        ++ r.Config.GpgKey }

/-- The lines 145 to 155 of `UpdateSharedRepo`: the signing key is set when
the repository signs. -/
def Repo.withKey (E : Env) (settings : GoMap GoString) (repo : Repo) : Except Error Repo :=
  if repo.Config.Sign then
    match GoMap.get settings (lit "signing-key") with
    | some val => .ok { repo with Config := { repo.Config with GpgKey := val } }
    | none =>
      match getDefaultKey E with
      | .error e => .error e
      | .ok key => .ok { repo with Config := { repo.Config with GpgKey := key } }
  else .ok repo

/-- The settings of a new repository that is to sign with the key `K`. -/
def sampleSettings : GoMap GoString :=
  [(lit "origin", lit "o"), (lit "sign", lit "true"), (lit "signing-key", lit "K")]

/-- The repository `UpdateSharedRepo` saves for `sampleSettings`. -/
def sampleUpdated : Repo :=
  { newRepo (lit "r") with
    Config := { (newRepo (lit "r")).Config with
      Origin := lit "o", Sign := true, GpgKey := lit "K" } }

/-- A byte of a name: the padding `=`, a lower-case letter or a digit. -/
def nameByte (c : Nat) : Prop := c = 61 ∨ (97 ≤ c ∧ c ≤ 122) ∨ (48 ≤ c ∧ c ≤ 57)

/-- The path of the name log. -/
def namesPath (E : Env) : GoString := filepath.Join [E.repoPath, lit "names.dat"]

/-- The lines of the name log on the disk. -/
def usedNames (E : Env) (disk : Disk) : List GoString :=
  scanLines ((GoMap.get disk (namesPath E)).getD [])

/-- The number a byte of a name stands for: its place among the first 36
bytes of the alphabet; the padding `=` stands for zero. -/
def byteValue (c : Nat) : Nat := if c = 61 then 0 else (alphabet.take 36).indexOf c

/-- The number a name stands for, in base 36. -/
def nameValue (s : GoString) : Nat := s.foldl (fun acc c => acc * 36 + byteValue c) 0

/-! ## Lemmas on maps -/

namespace GoMap

variable {V : Type}

theorem get_set_self (m : GoMap V) (k : GoString) (v : V) :
    get (set m k v) k = some v := by
  induction m with
  | nil => simp [set, get]
  | cons e t ih =>
    obtain ⟨k', v'⟩ := e
    by_cases h : k' = k
    · simp [set, get, h]
    · simp [set, get, h, ih]

theorem get_set_other (m : GoMap V) (k k' : GoString) (v : V) (h : k' ≠ k) :
    get (set m k v) k' = get m k' := by
  induction m with
  | nil => simp [set, get, Ne.symm h]
  | cons e t ih =>
    obtain ⟨k0, v0⟩ := e
    by_cases h0 : k0 = k
    · subst h0
      simp [set, get, Ne.symm h]
    · by_cases h1 : k0 = k'
      · subst h1
        simp [set, get, h0]
      · simp [set, get, h0, h1, ih]

theorem get_delete_self (m : GoMap V) (k : GoString) :
    get (delete m k) k = none := by
  induction m with
  | nil => simp [delete, get]
  | cons e t ih =>
    obtain ⟨k0, v0⟩ := e
    by_cases h0 : k0 = k
    · simp [delete, h0, ih]
    · simp [delete, get, h0, ih]

theorem get_delete_other (m : GoMap V) (k k' : GoString) (h : k' ≠ k) :
    get (delete m k) k' = get m k' := by
  induction m with
  | nil => simp [delete, get]
  | cons e t ih =>
    obtain ⟨k0, v0⟩ := e
    by_cases h0 : k0 = k
    · subst h0
      simp [delete, get, Ne.symm h, ih]
    · by_cases h1 : k0 = k'
      · subst h1
        simp [delete, get, h0]
      · simp [delete, get, h0, h1, ih]

theorem get_delete (m : GoMap V) (k k' : GoString) :
    get (delete m k) k' = if k' = k then none else get m k' := by
  by_cases h : k' = k
  · subst h
    simp [get_delete_self]
  · simp [h, get_delete_other m k k' h]

theorem len_eq_zero_iff (m : GoMap V) : len m = 0 ↔ ∀ k, get m k = none := by
  cases m with
  | nil => simp [len, get]
  | cons e t =>
    obtain ⟨k0, v0⟩ := e
    constructor
    · intro h
      simp [len] at h
    · intro h
      have := h k0
      simp [get] at this

end GoMap

/-! ## Lemmas on paths -/

theorem splitSlash_ne_nil (s : GoString) : splitSlash s ≠ [] := by
  cases s with
  | nil => simp [splitSlash]
  | cons c t =>
    unfold splitSlash
    split
    · simp
    · split <;> simp

theorem splitSlash_cons_of_ne (c : Nat) (x h : GoString) (r : List GoString) (hc : c ≠ 47)
    (hs : splitSlash x = h :: r) : splitSlash (c :: x) = (c :: h) :: r := by
  simp [splitSlash, hc, hs]

theorem splitSlash_append (a b : GoString) :
    splitSlash (a ++ 47 :: b) = splitSlash a ++ splitSlash b := by
  induction a with
  | nil => simp [splitSlash]
  | cons c t ih =>
    by_cases hc : c = 47
    · simp [splitSlash, hc, ih]
    · have hne := splitSlash_ne_nil t
      cases hs : splitSlash t with
      | nil => exact absurd hs hne
      | cons h r =>
        have ih' : splitSlash (t ++ 47 :: b) = h :: (r ++ splitSlash b) := by
          rw [ih, hs]; rfl
        rw [List.cons_append, splitSlash_cons_of_ne c _ h (r ++ splitSlash b) hc ih',
          splitSlash_cons_of_ne c t h r hc hs]
        rfl

theorem splitSlash_of_noSlash (a : GoString) (h : 47 ∉ a) : splitSlash a = [a] := by
  induction a with
  | nil => rfl
  | cons c t ih =>
    have hc : c ≠ 47 := fun e => h (by simp [e])
    have ht : 47 ∉ t := fun e => h (by simp [e])
    simp [splitSlash, hc, ih ht]

theorem noSlash_of_mem_splitSlash (s e : GoString) (h : e ∈ splitSlash s) : 47 ∉ e := by
  induction s generalizing e with
  | nil =>
    simp [splitSlash] at h
    simp [h]
  | cons c t ih =>
    by_cases hc : c = 47
    · simp only [splitSlash, hc, if_true, List.mem_cons] at h
      rcases h with h | h
      · simp [h]
      · exact ih e h
    · cases hs : splitSlash t with
      | nil => exact absurd hs (splitSlash_ne_nil t)
      | cons x r =>
        simp only [splitSlash, hc, if_false, hs, List.mem_cons] at h
        rcases h with h | h
        · subst h
          have hx : 47 ∉ x := ih x (by simp [hs])
          intro hm
          rcases List.mem_cons.1 hm with h1 | h1
          · exact hc h1.symm
          · exact hx h1
        · exact ih e (by simp [hs, h])

theorem joinSlash_cons (a : GoString) (es : List GoString) (h : es ≠ []) :
    joinSlash (a :: es) = a ++ 47 :: joinSlash es := by
  cases es with
  | nil => exact absurd rfl h
  | cons b t => rfl

theorem joinSlash_append (xs ys : List GoString) (hx : xs ≠ []) (hy : ys ≠ []) :
    joinSlash (xs ++ ys) = joinSlash xs ++ 47 :: joinSlash ys := by
  induction xs with
  | nil => exact absurd rfl hx
  | cons a t ih =>
    cases t with
    | nil => simp [joinSlash_cons a ys hy, joinSlash]
    | cons b t' =>
      have h1 : (b :: t') ++ ys ≠ [] := by simp
      rw [List.cons_append, joinSlash_cons a _ h1, ih (by simp), joinSlash_cons a _ (by simp)]
      simp

theorem splitSlash_joinSlash (es : List GoString) (hne : es ≠ [])
    (h : ∀ e ∈ es, 47 ∉ e) : splitSlash (joinSlash es) = es := by
  induction es with
  | nil => exact absurd rfl hne
  | cons a t ih =>
    cases t with
    | nil => simpa [joinSlash] using splitSlash_of_noSlash a (h a (by simp))
    | cons b t' =>
      rw [joinSlash_cons a _ (by simp), splitSlash_append,
        splitSlash_of_noSlash a (h a (by simp)), ih (by simp) (fun e he => h e (by simp [he]))]
      rfl

theorem plainElem_noSlash {c : GoString} (h : plainElem c) : 47 ∉ c := h.2.1

theorem cleanStep_plain (r : Bool) (out : List GoString) (c : GoString) (h : plainElem c) :
    cleanStep r out c = c :: out := by
  obtain ⟨h1, _, h3, h4⟩ := h
  simp [cleanStep, h1, h3, h4]

theorem foldl_cleanStep_plain (r : Bool) (cs out : List GoString)
    (h : ∀ c ∈ cs, plainElem c) :
    cs.foldl (cleanStep r) out = cs.reverse ++ out := by
  induction cs generalizing out with
  | nil => rfl
  | cons c t ih =>
    rw [List.foldl_cons, cleanStep_plain r out c (h c (by simp)),
      ih _ (fun e he => h e (by simp [he]))]
    simp

theorem keptStack_noSlash (r : Bool) (out : List GoString) (h : keptStack r out) :
    ∀ e ∈ out, 47 ∉ e := by
  induction out with
  | nil => simp
  | cons c t ih =>
    intro e he
    rcases h with ⟨hp, ht⟩ | ⟨hc, _, hall⟩
    · rcases List.mem_cons.1 he with h1 | h1
      · subst h1; exact hp.2.1
      · exact ih ht e h1
    · rcases List.mem_cons.1 he with h1 | h1
      · subst h1; subst hc; decide
      · rw [hall e h1]; decide

theorem keptStack_ne_nil (r : Bool) (out : List GoString) (h : keptStack r out) :
    ∀ e ∈ out, e ≠ [] ∧ e ≠ [46] := by
  induction out with
  | nil => simp
  | cons c t ih =>
    intro e he
    rcases h with ⟨hp, ht⟩ | ⟨hc, _, hall⟩
    · rcases List.mem_cons.1 he with h1 | h1
      · subst h1; exact ⟨hp.1, hp.2.2.1⟩
      · exact ih ht e h1
    · rcases List.mem_cons.1 he with h1 | h1
      · subst h1; subst hc; decide
      · rw [hall e h1]; decide

theorem keptStack_of_all_dotdot (r : Bool) (out : List GoString) (hr : r = false)
    (h : ∀ e ∈ out, e = [46, 46]) : keptStack r out := by
  induction out with
  | nil => trivial
  | cons c t ih =>
    exact Or.inr ⟨h c (by simp), hr, fun e he => h e (by simp [he])⟩

theorem cleanStep_kept (r : Bool) (out : List GoString) (c : GoString) (hc : 47 ∉ c)
    (h : keptStack r out) : keptStack r (cleanStep r out c) := by
  unfold cleanStep
  split
  · exact h
  · rename_i h1
    split
    · rename_i h2
      subst h2
      cases out with
      | nil =>
        cases r with
        | true => trivial
        | false => exact Or.inr ⟨rfl, rfl, by simp⟩
      | cons top rest =>
        simp only
        split
        · rename_i h3
          subst h3
          rcases h with ⟨hp, _⟩ | ⟨_, hr, hall⟩
          · exact absurd rfl hp.2.2.2
          · exact Or.inr ⟨rfl, hr, fun e he => by
              rcases List.mem_cons.1 he with h4 | h4
              · exact h4
              · exact hall e h4⟩
        · rename_i h3
          rcases h with ⟨_, ht⟩ | ⟨h4, _, _⟩
          · exact ht
          · exact absurd h4 h3
    · rename_i h2
      have h1' : c ≠ [] ∧ c ≠ [46] := by
        constructor
        · intro e; exact h1 (Or.inl e)
        · intro e; exact h1 (Or.inr e)
      exact Or.inl ⟨⟨h1'.1, hc, h1'.2, h2⟩, h⟩

theorem foldl_cleanStep_kept (r : Bool) (cs out : List GoString) (hc : ∀ c ∈ cs, 47 ∉ c)
    (h : keptStack r out) : keptStack r (cs.foldl (cleanStep r) out) := by
  induction cs generalizing out with
  | nil => exact h
  | cons c t ih =>
    exact ih _ (fun e he => hc e (by simp [he])) (cleanStep_kept r out c (hc c (by simp)) h)

theorem cleanElems_kept (r : Bool) (p : GoString) : keptStack r (cleanElems r p).reverse := by
  unfold cleanElems
  rw [List.reverse_reverse]
  exact foldl_cleanStep_kept r _ [] (fun c hc => noSlash_of_mem_splitSlash p c hc) trivial

/-- Scanning a kept stack again rebuilds it. -/
theorem foldl_cleanStep_replay (r : Bool) (out : List GoString) (h : keptStack r out) :
    out.reverse.foldl (cleanStep r) [] = out := by
  induction out with
  | nil => rfl
  | cons c t ih =>
    rw [List.reverse_cons, List.foldl_append]
    rcases h with ⟨hp, ht⟩ | ⟨hc, hr, hall⟩
    · rw [ih ht]
      simp [cleanStep_plain r t c hp]
    · rw [ih (keptStack_of_all_dotdot r t hr hall)]
      subst hc
      subst hr
      cases t with
      | nil => simp [cleanStep]
      | cons top rest =>
        have : top = [46, 46] := hall top (by simp)
        subst this
        simp [cleanStep]

theorem keptStack_push_plain (r : Bool) (out ps : List GoString) (h : keptStack r out)
    (hp : ∀ c ∈ ps, plainElem c) : keptStack r (ps.reverse ++ out) := by
  induction ps generalizing out with
  | nil => simpa using h
  | cons c t ih =>
    have := ih (c :: out) (Or.inl ⟨hp c (by simp), h⟩) (fun e he => hp e (by simp [he]))
    simpa using this

theorem keptStack_append_plain (r : Bool) (es ps : List GoString)
    (h : keptStack r es.reverse) (hp : ∀ c ∈ ps, plainElem c) :
    keptStack r (es ++ ps).reverse := by
  rw [List.reverse_append]
  exact keptStack_push_plain r _ ps h hp

theorem isRooted_joinSlash (a : GoString) (t : List GoString) (ha : a ≠ []) (hs : 47 ∉ a) :
    isRooted (joinSlash (a :: t)) = false := by
  cases a with
  | nil => exact absurd rfl ha
  | cons x a' =>
    have hx : x ≠ 47 := fun e => hs (by simp [e])
    cases t with
    | nil => simp [joinSlash, isRooted, hx]
    | cons b t' => simp [joinSlash, isRooted, hx]

theorem joinSlash_ne_nil (a : GoString) (t : List GoString) (ha : a ≠ []) :
    joinSlash (a :: t) ≠ [] := by
  cases t with
  | nil => simpa [joinSlash] using ha
  | cons b t' => simp [joinSlash, ha]

theorem kept_mem (r : Bool) (es : List GoString) (h : keptStack r es.reverse) :
    ∀ e ∈ es, 47 ∉ e ∧ e ≠ [] ∧ e ≠ [46] := by
  intro e he
  have he' : e ∈ es.reverse := by simpa using he
  exact ⟨keptStack_noSlash r _ h e he', keptStack_ne_nil r _ h e he'⟩

theorem isRooted_render (r : Bool) (es : List GoString) (h : keptStack r es.reverse) :
    isRooted (render r es) = r := by
  cases r with
  | true => simp [render, isRooted]
  | false =>
    cases es with
    | nil => simp [render, isRooted]
    | cons a t =>
      have ha := kept_mem false (a :: t) h a (by simp)
      simpa [render] using isRooted_joinSlash a t ha.2.1 ha.1

theorem render_ne_nil (r : Bool) (es : List GoString) (h : keptStack r es.reverse) :
    render r es ≠ [] := by
  cases r with
  | true => simp [render]
  | false =>
    cases es with
    | nil => simp [render]
    | cons a t =>
      have ha := kept_mem false (a :: t) h a (by simp)
      simpa [render] using joinSlash_ne_nil a t ha.2.1

theorem foldl_cleanStep_of_kept (r : Bool) (es : List GoString) (h : keptStack r es.reverse) :
    es.foldl (cleanStep r) [] = es.reverse := by
  have := foldl_cleanStep_replay r es.reverse h
  simpa using this

theorem cleanElems_render (r : Bool) (es : List GoString) (h : keptStack r es.reverse) :
    cleanElems r (render r es) = es := by
  have hmem := kept_mem r es h
  unfold cleanElems
  cases es with
  | nil =>
    cases r with
    | true => simp [render, splitSlash, joinSlash, cleanStep]
    | false => simp [render, splitSlash, cleanStep]
  | cons a t =>
    have hsplit : splitSlash (joinSlash (a :: t)) = a :: t :=
      splitSlash_joinSlash (a :: t) (by simp) (fun e he => (hmem e he).1)
    cases r with
    | true =>
      have h1 : splitSlash (render true (a :: t)) = [] :: (a :: t) := by
        simp [render, splitSlash, hsplit]
      rw [h1, List.foldl_cons]
      have h2 : cleanStep true [] [] = [] := by simp [cleanStep]
      rw [h2, foldl_cleanStep_of_kept true (a :: t) h, List.reverse_reverse]
    | false =>
      have h1 : splitSlash (render false (a :: t)) = a :: t := by
        simp [render, hsplit]
      rw [h1, foldl_cleanStep_of_kept false (a :: t) h, List.reverse_reverse]

theorem Clean_render (r : Bool) (es : List GoString) (h : keptStack r es.reverse) :
    filepath.Clean (render r es) = render r es := by
  unfold filepath.Clean
  rw [isRooted_render r es h, cleanElems_render r es h]

theorem isRooted_append (S rest : GoString) (h : S ≠ []) :
    isRooted (S ++ rest) = isRooted S := by
  cases S with
  | nil => exact absurd rfl h
  | cons c t => simp [isRooted]

theorem cleanElems_append_plain (r : Bool) (S : GoString) (ps : List GoString)
    (hps : ps ≠ []) (hp : ∀ c ∈ ps, plainElem c) :
    cleanElems r (S ++ 47 :: joinSlash ps) = cleanElems r S ++ ps := by
  unfold cleanElems
  rw [splitSlash_append, splitSlash_joinSlash ps hps (fun e he => (hp e he).2.1),
    List.foldl_append, foldl_cleanStep_plain r ps _ hp]
  simp

theorem Clean_append_plain (S : GoString) (ps : List GoString) (hS : S ≠ [])
    (hps : ps ≠ []) (hp : ∀ c ∈ ps, plainElem c) :
    filepath.Clean (S ++ 47 :: joinSlash ps) =
      render (isRooted S) (cleanElems (isRooted S) S ++ ps) := by
  unfold filepath.Clean
  rw [isRooted_append S _ hS, cleanElems_append_plain _ S ps hps hp]

theorem Join_cons_ne (e : GoString) (t : List GoString) (h : e ≠ []) :
    filepath.Join (e :: t) = filepath.Clean (joinSlash (e :: t)) := by
  simp [filepath.Join, h]

theorem Join_prefix (xs : List GoString) (h : ∃ x ∈ xs, x ≠ []) :
    ∃ S, S ≠ [] ∧ filepath.Join xs = filepath.Clean S ∧
      ∀ ps, ps ≠ [] → filepath.Join (xs ++ ps) = filepath.Clean (S ++ 47 :: joinSlash ps) := by
  induction xs with
  | nil => simp at h
  | cons e t ih =>
    by_cases he : e = []
    · subst he
      have h' : ∃ x ∈ t, x ≠ [] := by
        obtain ⟨x, hx, hne⟩ := h
        rcases List.mem_cons.1 hx with h1 | h1
        · exact absurd h1 hne
        · exact ⟨x, h1, hne⟩
      obtain ⟨S, hS, h1, h2⟩ := ih h'
      refine ⟨S, hS, ?_, ?_⟩
      · simpa [filepath.Join] using h1
      · intro ps hps
        simpa [filepath.Join] using h2 ps hps
    · refine ⟨joinSlash (e :: t), joinSlash_ne_nil e t he, Join_cons_ne e t he, ?_⟩
      intro ps hps
      rw [List.cons_append, Join_cons_ne e _ he, ← List.cons_append,
        joinSlash_append (e :: t) ps (by simp) hps]

/-- The paths built by joining plain elements onto a directory: the
directory cleans to some kept elements and every extension by plain
elements is these elements followed by the new ones. -/
theorem Join_normal (xs : List GoString) (h : ∃ x ∈ xs, x ≠ []) :
    ∃ r E, keptStack r (List.reverse E) ∧ filepath.Join xs = render r E ∧
      ∀ ps, ps ≠ [] → (∀ c ∈ ps, plainElem c) →
        filepath.Join (xs ++ ps) = render r (E ++ ps) := by
  obtain ⟨S, hS, h1, h2⟩ := Join_prefix xs h
  refine ⟨isRooted S, cleanElems (isRooted S) S, cleanElems_kept _ S, ?_, ?_⟩
  · rw [h1]; rfl
  · intro ps hps hp
    rw [h2 ps hps, Clean_append_plain S ps hS hps hp]

theorem Join_render_plain (r : Bool) (es : List GoString) (f : GoString)
    (hk : keptStack r es.reverse) (hf : plainElem f) :
    filepath.Join [render r es, f] = render r (es ++ [f]) := by
  rw [Join_cons_ne _ _ (render_ne_nil r es hk)]
  have h1 : joinSlash [render r es, f] = render r es ++ 47 :: joinSlash [f] := rfl
  rw [h1, Clean_append_plain _ [f] (render_ne_nil r es hk) (by simp)
    (by intro c hc; simp at hc; subst hc; exact hf),
    isRooted_render r es hk, cleanElems_render r es hk]

theorem joinSlash_append_last (es : List GoString) (a s : GoString) :
    joinSlash (es ++ [a]) ++ s = joinSlash (es ++ [a ++ s]) := by
  induction es with
  | nil => simp [joinSlash]
  | cons e t ih =>
    rw [List.cons_append, List.cons_append, joinSlash_cons e _ (by simp),
      joinSlash_cons e _ (by simp), ← ih]
    simp

theorem render_append_last (r : Bool) (es : List GoString) (a s : GoString) :
    render r (es ++ [a]) ++ s = render r (es ++ [a ++ s]) := by
  cases r with
  | true => simp [render, joinSlash_append_last]
  | false => simp [render, joinSlash_append_last]

theorem relScan_prefix (pre T : List GoString) :
    filepath.relScan pre (pre ++ T) = ([], T, false) := by
  induction pre with
  | nil => cases T <;> rfl
  | cons b t ih => simp [filepath.relScan, ih]

theorem relElems_render (r : Bool) (es : List GoString) (hne : es ≠ [])
    (hk : keptStack r es.reverse) :
    render r es ≠ [46] ∧
      filepath.relElems (render r es) = (if r then [[]] else []) ++ es := by
  have hmem := kept_mem r es hk
  cases es with
  | nil => exact absurd rfl hne
  | cons a t =>
    have ha := hmem a (by simp)
    have hsplit : splitSlash (joinSlash (a :: t)) = a :: t :=
      splitSlash_joinSlash (a :: t) (by simp) (fun e he => (hmem e he).1)
    have hj : joinSlash (a :: t) ≠ [] := joinSlash_ne_nil a t ha.2.1
    have hj46 : joinSlash (a :: t) ≠ [46] := by
      intro e
      have := congrArg splitSlash e
      rw [hsplit] at this
      simp [splitSlash] at this
      exact ha.2.2 this.1
    have hj47 : joinSlash (a :: t) ≠ [47] := by
      intro e
      have := congrArg splitSlash e
      rw [hsplit] at this
      simp [splitSlash] at this
      exact ha.2.1 this.1
    cases r with
    | true =>
      refine ⟨by simp [render], ?_⟩
      simp [render, filepath.relElems, hj, splitSlash, hsplit]
    | false =>
      refine ⟨by simpa [render] using hj46, ?_⟩
      simp [render, filepath.relElems, hj, hj47, hsplit]

theorem relElems_base (r : Bool) (es : List GoString) (hk : keptStack r es.reverse) :
    filepath.relElems (if render r es = [46] then [] else render r es) =
      (if r then [[]] else []) ++ es := by
  cases es with
  | nil =>
    cases r with
    | true => simp [render, joinSlash, filepath.relElems]
    | false => simp [render, filepath.relElems]
  | cons a t =>
    obtain ⟨h1, h2⟩ := relElems_render r (a :: t) (by simp) hk
    rw [if_neg h1, h2]

theorem isRooted_base (r : Bool) (es : List GoString) (hk : keptStack r es.reverse) :
    isRooted (if render r es = [46] then [] else render r es) = r := by
  by_cases h : render r es = [46]
  · have := isRooted_render r es hk
    rw [h] at this
    rw [if_pos h, ← this]
    rfl
  · rw [if_neg h, isRooted_render r es hk]

/-- A path that extends a cleaned directory by plain elements is, relative
to that directory, these elements. -/
theorem Rel_render (r : Bool) (E T : List GoString) (hk : keptStack r E.reverse)
    (hT : T ≠ []) (hp : ∀ c ∈ T, plainElem c) :
    filepath.Rel (render r E) (render r (E ++ T)) = some (joinSlash T) := by
  have hk' : keptStack r (E ++ T).reverse := keptStack_append_plain r E T hk hp
  have hne : render r (E ++ T) ≠ render r E := by
    intro e
    have := congrArg (cleanElems r) e
    rw [cleanElems_render r _ hk', cleanElems_render r _ hk] at this
    have hl := congrArg List.length this
    simp at hl
    exact hT hl
  obtain ⟨_, ht⟩ := relElems_render r (E ++ T) (by simp [hT]) hk'
  unfold filepath.Rel
  simp only [Clean_render r E hk, Clean_render r _ hk', if_neg hne,
    isRooted_base r E hk, isRooted_render r _ hk', relElems_base r E hk, ht]
  rw [← List.append_assoc, relScan_prefix]
  simp

theorem HasPrefix_dotdot_append (c rest : GoString) (hc : c ≠ [])
    (h : HasPrefix c [46, 46] = false) :
    HasPrefix (c ++ 47 :: rest) [46, 46] = false := by
  cases c with
  | nil => exact absurd rfl hc
  | cons x t =>
    cases t with
    | nil => simp [HasPrefix, List.isPrefixOf]
    | cons y t' => simpa [HasPrefix, List.isPrefixOf] using h

/-! ## Lemmas on the registry -/

theorem storeHashes_sameIndex (E : Env) (r : Repo) (path : GoString) (hw : HashWriter) :
    sameIndex r (Repo.storeHashes E r path hw) := by
  unfold Repo.storeHashes
  simp only
  split
  · exact ⟨rfl, rfl, rfl⟩
  · split
    · exact ⟨rfl, rfl, rfl⟩
    · exact ⟨rfl, rfl, rfl⟩

theorem sameIndex_refl (r : Repo) : sameIndex r r := ⟨rfl, rfl, rfl⟩

theorem sameIndex_trans {a b c : Repo} (h1 : sameIndex a b) (h2 : sameIndex b c) :
    sameIndex a c :=
  ⟨h2.1.trans h1.1, h2.2.1.trans h1.2.1, h2.2.2.trans h1.2.2⟩

/-- The registry entry `storeHashes` records for a file that lies, by plain
elements `T`, under the distribution root. -/
theorem storeHashes_under_root (E : Env) (r : Repo) (hw : HashWriter) (rt : Bool)
    (Es T : List GoString) (hk : keptStack rt Es.reverse)
    (hb : filepath.Join [E.repoPath, r.Name, lit "dists", r.Config.Codename] = render rt Es)
    (hT : T ≠ []) (hp : ∀ c ∈ T, plainElem c)
    (hdd : HasPrefix (joinSlash T) [46, 46] = false) :
    Repo.storeHashes E r (render rt (Es ++ T)) hw =
      { r with
        Files := GoMap.set r.Files (joinSlash T)
          { Size := hw.Written, Sha1 := hw.Sha1 E, Sha256 := hw.Sha256 E, Md5 := hw.Md5 E } } := by
  unfold Repo.storeHashes
  simp only [hb, Rel_render rt Es T hk hT hp]
  have : HasPrefix (joinSlash T) (lit "..") = false := hdd
  simp [this]

theorem dist_root_normal (E : Env) (r : Repo) :
    ∃ rt Es, keptStack rt (List.reverse Es) ∧
      filepath.Join [E.repoPath, r.Name, lit "dists", r.Config.Codename] = render rt Es ∧
      ∀ ps, ps ≠ [] → (∀ c ∈ ps, plainElem c) →
        filepath.Join ([E.repoPath, r.Name, lit "dists", r.Config.Codename] ++ ps) =
          render rt (Es ++ ps) :=
  Join_normal _ ⟨lit "dists", by simp, by decide⟩

theorem registryKey_eq (c d f : GoString) : joinSlash [c, d, f] = registryKey c d f := rfl

theorem registryKey_noDotdot (c d f : GoString) (hc : c ≠ [])
    (h : HasPrefix c [46, 46] = false) : HasPrefix (joinSlash [c, d, f]) [46, 46] = false :=
  HasPrefix_dotdot_append c _ hc h

/-- The entry recorded for a file `f` of the directory of a group. -/
theorem storeHashes_groupFile (E : Env) (r : Repo) (hw : HashWriter) (dir f : GoString)
    (hc : plainElem r.Config.Component) (hcp : HasPrefix r.Config.Component [46, 46] = false)
    (hd : plainElem dir) (hf : plainElem f) :
    Repo.storeHashes E r (filepath.Join [groupDir E r dir, f]) hw =
      { r with
        Files := GoMap.set r.Files (registryKey r.Config.Component dir f)
          { Size := hw.Written, Sha1 := hw.Sha1 E, Sha256 := hw.Sha256 E, Md5 := hw.Md5 E } } := by
  obtain ⟨rt, Es, hk, hb, hext⟩ := dist_root_normal E r
  have hcd : ∀ c ∈ [r.Config.Component, dir], plainElem c := by
    intro c hcm
    simp at hcm
    rcases hcm with h | h <;> (subst h; assumption)
  have h1 : groupDir E r dir = render rt (Es ++ [r.Config.Component, dir]) :=
    hext [r.Config.Component, dir] (by simp) hcd
  have hk1 := keptStack_append_plain rt Es _ hk hcd
  have h2 : filepath.Join [groupDir E r dir, f] =
      render rt (Es ++ [r.Config.Component, dir, f]) := by
    rw [h1, Join_render_plain rt _ f hk1 hf]
    simp
  rw [h2]
  have hall : ∀ c ∈ [r.Config.Component, dir, f], plainElem c := by
    intro c hcm
    simp at hcm
    rcases hcm with h | h | h <;> (subst h; assumption)
  exact storeHashes_under_root E r hw rt Es _ hk hb (by simp) hall
    (registryKey_noDotdot _ _ _ hc.1 hcp)

/-- The entry recorded for the path of a file `f` of a group's directory
with a suffix added to it. -/
theorem storeHashes_groupFile_suffix (E : Env) (r : Repo) (hw : HashWriter)
    (dir f s : GoString)
    (hc : plainElem r.Config.Component) (hcp : HasPrefix r.Config.Component [46, 46] = false)
    (hd : plainElem dir) (hf : plainElem f) (hfs : plainElem (f ++ s)) :
    Repo.storeHashes E r (filepath.Join [groupDir E r dir, f] ++ s) hw =
      { r with
        Files := GoMap.set r.Files (registryKey r.Config.Component dir (f ++ s))
          { Size := hw.Written, Sha1 := hw.Sha1 E, Sha256 := hw.Sha256 E, Md5 := hw.Md5 E } } := by
  obtain ⟨rt, Es, hk, hb, hext⟩ := dist_root_normal E r
  have hcd : ∀ c ∈ [r.Config.Component, dir], plainElem c := by
    intro c hcm
    simp at hcm
    rcases hcm with h | h <;> (subst h; assumption)
  have h1 : groupDir E r dir = render rt (Es ++ [r.Config.Component, dir]) :=
    hext [r.Config.Component, dir] (by simp) hcd
  have hk1 := keptStack_append_plain rt Es _ hk hcd
  have h2 : filepath.Join [groupDir E r dir, f] ++ s =
      render rt (Es ++ [r.Config.Component, dir, f ++ s]) := by
    rw [h1, Join_render_plain rt _ f hk1 hf, render_append_last]
    simp
  rw [h2]
  have hall : ∀ c ∈ [r.Config.Component, dir, f ++ s], plainElem c := by
    intro c hcm
    simp at hcm
    rcases hcm with h | h | h <;> (subst h; assumption)
  exact storeHashes_under_root E r hw rt Es _ hk hb (by simp) hall
    (registryKey_noDotdot _ _ _ hc.1 hcp)

theorem foldl_Write (cs : List GoString) (hw : HashWriter) :
    cs.foldl HashWriter.Write hw =
      { h1 := hw.h1 ++ cs.flatten, h256 := hw.h256 ++ cs.flatten, h5 := hw.h5 ++ cs.flatten,
        bytes := hw.bytes + cs.flatten.length, out := hw.out ++ cs.flatten } := by
  induction cs generalizing hw with
  | nil => simp
  | cons c t ih =>
    rw [List.foldl_cons, ih]
    simp [HashWriter.Write, Nat.add_assoc]

theorem foldl_Write_new (cs : List GoString) :
    cs.foldl HashWriter.Write NewHashWriter =
      { h1 := cs.flatten, h256 := cs.flatten, h5 := cs.flatten,
        bytes := cs.flatten.length, out := cs.flatten } := by
  rw [foldl_Write]
  simp [NewHashWriter]

theorem plainElem_indexFile (name : GoString) :
    plainElem (indexFile name) ∧ plainElem (indexFile name ++ lit ".gz") := by
  unfold indexFile
  split <;> exact ⟨by decide, by decide⟩

theorem append_ne_self (a s : GoString) (hs : s ≠ []) : a ++ s ≠ a := by
  intro h
  have := congrArg List.length h
  simp at this
  exact hs this

theorem registryKey_suffix_ne (c d f s : GoString) (hs : s ≠ []) :
    registryKey c d f ≠ registryKey c d (f ++ s) := by
  intro h
  have := congrArg List.length h
  simp [registryKey] at this
  exact hs this

/-- What a successful `PackageGroup.writePackages` leaves behind. -/
theorem writePackages_group_ok (E : Env) (pg : PackageGroup) (r : Repo) (disk : Disk)
    (name : GoString)
    (hc : plainElem r.Config.Component) (hcp : HasPrefix r.Config.Component [46, 46] = false)
    (hn : plainElem name)
    (herr : (PackageGroup.writePackages E pg r disk name).err = none) :
    (PackageGroup.writePackages E pg r disk name).repo =
      { r with
        Files := GoMap.set
          (GoMap.set r.Files (registryKey r.Config.Component name (indexFile name))
            { Size := (PackageGroup.stanzas pg).flatten.length,
              Sha1 := E.sha1 (PackageGroup.stanzas pg).flatten,
              Sha256 := E.sha256 (PackageGroup.stanzas pg).flatten,
              Md5 := E.md5 (PackageGroup.stanzas pg).flatten })
          (registryKey r.Config.Component name (indexFile name ++ lit ".gz"))
          { Size := (PackageGroup.stanzas pg).flatten.length,
            Sha1 := E.sha1 (PackageGroup.stanzas pg).flatten,
            Sha256 := E.sha256 (PackageGroup.stanzas pg).flatten,
            Md5 := E.md5 (PackageGroup.stanzas pg).flatten } } ∧
    (PackageGroup.writePackages E pg r disk name).disk =
      GoMap.set
        (GoMap.set
          (GoMap.set disk (filepath.Join [groupDir E r name, indexFile name]) [])
          (filepath.Join [groupDir E r name, indexFile name])
          (PackageGroup.stanzas pg).flatten)
        (filepath.Join [groupDir E r name, indexFile name] ++ lit ".gz")
        (E.gzip (PackageGroup.stanzas pg).flatten) := by
  have hpath : filepath.Join [E.repoPath, r.Name, lit "dists", r.Config.Codename,
      r.Config.Component, name] = groupDir E r name := rfl
  have hfile : (if name = lit "source" then lit "Sources" else lit "Packages") =
      indexFile name := rfl
  obtain ⟨hf, hfs⟩ := plainElem_indexFile name
  unfold PackageGroup.writePackages at herr ⊢
  simp only [hpath, hfile] at herr ⊢
  split at herr
  · cases herr
  · rename_i h1
    split at herr
    · cases herr
    · rename_i h2
      split at herr
      · cases herr
      · rename_i h3
        simp only [h1, h2, h3, if_false, Bool.false_eq_true]
        rw [foldl_Write_new]
        have hs1 := storeHashes_groupFile E r
          { h1 := (PackageGroup.stanzas pg).flatten, h256 := (PackageGroup.stanzas pg).flatten,
            h5 := (PackageGroup.stanzas pg).flatten,
            bytes := (PackageGroup.stanzas pg).flatten.length,
            out := (PackageGroup.stanzas pg).flatten } name (indexFile name) hc hcp hn hf
        rw [hs1]
        have hs2 := storeHashes_groupFile_suffix E
          { r with
            Files := GoMap.set r.Files (registryKey r.Config.Component name (indexFile name))
              { Size := (PackageGroup.stanzas pg).flatten.length,
                Sha1 := E.sha1 (PackageGroup.stanzas pg).flatten,
                Sha256 := E.sha256 (PackageGroup.stanzas pg).flatten,
                Md5 := E.md5 (PackageGroup.stanzas pg).flatten } }
          { h1 := (PackageGroup.stanzas pg).flatten, h256 := (PackageGroup.stanzas pg).flatten,
            h5 := (PackageGroup.stanzas pg).flatten,
            bytes := (PackageGroup.stanzas pg).flatten.length,
            out := (PackageGroup.stanzas pg).flatten } name (indexFile name) (lit ".gz")
          hc hcp hn hf hfs
        exact ⟨hs2, rfl⟩

theorem isSome_get_set (V : Type) (m : GoMap V) (k k' : GoString) (v : V) :
    (GoMap.get (GoMap.set m k v) k').isSome ↔ (k' = k ∨ (GoMap.get m k').isSome) := by
  by_cases h : k' = k
  · subst h
    simp [GoMap.get_set_self]
  · simp [GoMap.get_set_other m k k' v h, h]

theorem filesExtend_set (r : Repo) (k : GoString) (v : RepoFile) :
    filesExtend [k] r { r with Files := GoMap.set r.Files k v } := by
  refine ⟨⟨rfl, rfl, rfl⟩, ?_⟩
  intro k'
  simp [isSome_get_set]

theorem filesExtend_trans {ks1 ks2 : List GoString} {a b c : Repo}
    (h1 : filesExtend ks1 a b) (h2 : filesExtend ks2 b c) :
    filesExtend (ks1 ++ ks2) a c := by
  refine ⟨sameIndex_trans h1.1 h2.1, ?_⟩
  intro k
  rw [h2.2 k, h1.2 k]
  simp only [List.mem_append]
  tauto

theorem writePackages_group_extend (E : Env) (pg : PackageGroup) (r : Repo) (disk : Disk)
    (name : GoString)
    (hc : plainElem r.Config.Component) (hcp : HasPrefix r.Config.Component [46, 46] = false)
    (hn : plainElem name)
    (herr : (PackageGroup.writePackages E pg r disk name).err = none) :
    filesExtend
      [registryKey r.Config.Component name (indexFile name),
        registryKey r.Config.Component name (indexFile name ++ lit ".gz")]
      r (PackageGroup.writePackages E pg r disk name).repo := by
  rw [(writePackages_group_ok E pg r disk name hc hcp hn herr).1]
  exact filesExtend_trans (filesExtend_set r _ _)
    (filesExtend_set { r with Files := GoMap.set r.Files _ _ } _ _)

theorem writeDeepRelease_extend (E : Env) (r : Repo) (disk : Disk) (name arch : GoString)
    (hc : plainElem r.Config.Component) (hcp : HasPrefix r.Config.Component [46, 46] = false)
    (hn : plainElem name)
    (herr : (Repo.writeDeepRelease E r disk name arch).err = none) :
    filesExtend [registryKey r.Config.Component name (lit "Release")]
      r (Repo.writeDeepRelease E r disk name arch).repo := by
  have hpath : filepath.Join [E.repoPath, r.Name, lit "dists", r.Config.Codename,
      r.Config.Component, name] = groupDir E r name := rfl
  unfold Repo.writeDeepRelease at herr ⊢
  simp only [hpath] at herr ⊢
  split at herr
  · cases herr
  · rename_i h1
    split at herr
    · cases herr
    · rename_i h2
      simp only [h1, h2, if_false, Bool.false_eq_true]
      rw [storeHashes_groupFile E r _ name (lit "Release") hc hcp hn (by decide)]
      exact filesExtend_set r _ _

theorem err_none_of_not_isSome {o : Outcome} (h : ¬ o.err.isSome = true) : o.err = none := by
  cases he : o.err with
  | none => rfl
  | some e => simp [he] at h

/-- What a successful `Repo.writePackages` does to the registry. -/
theorem writePackages_extend (E : Env) (r : Repo) (disk : Disk)
    (hc : plainElem r.Config.Component) (hcp : HasPrefix r.Config.Component [46, 46] = false)
    (herr : (Repo.writePackages E r disk).err = none) :
    filesExtend (regenerated r.Config.Component) r (Repo.writePackages E r disk).repo := by
  unfold Repo.writePackages at herr ⊢
  simp only at herr ⊢
  split at herr
  · rename_i h; rw [herr] at h; simp at h
  rename_i h1
  have e1 := writePackages_group_extend E r.Packages.I386 r disk (lit "binary-i386") hc hcp
    (by decide) (err_none_of_not_isSome h1)
  rw [if_neg h1]
  have c1 := e1.1.2.1
  split at herr
  · rename_i h; rw [herr] at h; simp at h
  rename_i h2
  have e2 := writeDeepRelease_extend E _ _ (lit "binary-i386") (lit "i386")
    (c1 ▸ hc) (c1 ▸ hcp) (by decide) (err_none_of_not_isSome h2)
  rw [if_neg h2]
  have c2 := e2.1.2.1
  split at herr
  · rename_i h; rw [herr] at h; simp at h
  rename_i h3
  have e3 := writePackages_group_extend E _ _ _ (lit "binary-amd64")
    (c2 ▸ c1 ▸ hc) (c2 ▸ c1 ▸ hcp) (by decide) (err_none_of_not_isSome h3)
  rw [if_neg h3]
  have c3 := e3.1.2.1
  split at herr
  · rename_i h; rw [herr] at h; simp at h
  rename_i h4
  have e4 := writeDeepRelease_extend E _ _ (lit "binary-amd64") (lit "amd64")
    (c3 ▸ c2 ▸ c1 ▸ hc) (c3 ▸ c2 ▸ c1 ▸ hcp) (by decide) (err_none_of_not_isSome h4)
  rw [if_neg h4]
  have c4 := e4.1.2.1
  split at herr
  · rename_i h; rw [herr] at h; simp at h
  rename_i h5
  have e5 := writePackages_group_extend E _ _ _ (lit "source")
    (c4 ▸ c3 ▸ c2 ▸ c1 ▸ hc) (c4 ▸ c3 ▸ c2 ▸ c1 ▸ hcp) (by decide) (err_none_of_not_isSome h5)
  rw [if_neg h5]
  have c5 := e5.1.2.1
  have e6 := writeDeepRelease_extend E _ _ (lit "source") (lit "source")
    (c5 ▸ c4 ▸ c3 ▸ c2 ▸ c1 ▸ hc) (c5 ▸ c4 ▸ c3 ▸ c2 ▸ c1 ▸ hcp) (by decide) herr
  have cc : ∀ {a b : Repo}, a.Config = b.Config → a.Config.Component = b.Config.Component :=
    fun h => by rw [h]
  rw [cc c1] at e2
  rw [cc c2, cc c1] at e3
  rw [cc c3, cc c2, cc c1] at e4
  rw [cc c4, cc c3, cc c2, cc c1] at e5
  rw [cc c5, cc c4, cc c3, cc c2, cc c1] at e6
  have := filesExtend_trans (filesExtend_trans (filesExtend_trans (filesExtend_trans
    (filesExtend_trans e1 e2) e3) e4) e5) e6
  exact this

theorem writeRelease_repo (E : Env) (r : Repo) (disk : Disk) :
    (Repo.writeRelease E r disk).repo = r := by
  unfold Repo.writeRelease
  simp only
  split
  · rfl
  · split
    · rfl
    · split
      · rfl
      · split
        · rfl
        · rfl

/-! ## Metadata regeneration -/

/-- C1: what `PackageGroup.writePackages` records for the two files it
regenerates, when it succeeds for a group directory `name` under a plain
component. The index file holds the stanzas' text and its registry entry
is the size and the digests of that text; the `.gz` file holds the gzip
stream of the text, and its registry entry is again the size and the
digests of the text before compression, not those of the bytes in the
file. -/
theorem writePackages_gz_entry_of_text (E : Env) (pg : PackageGroup) (r : Repo)
    (disk : Disk) (name : GoString)
    (hc : plainElem r.Config.Component)
    (hcp : HasPrefix r.Config.Component (lit "..") = false)
    (hn : plainElem name)
    (herr : (PackageGroup.writePackages E pg r disk name).err = none) :
    GoMap.get (PackageGroup.writePackages E pg r disk name).disk
        (filepath.Join [groupDir E r name, indexFile name]) =
      some (PackageGroup.stanzas pg).flatten ∧
    GoMap.get (PackageGroup.writePackages E pg r disk name).repo.Files
        (registryKey r.Config.Component name (indexFile name)) =
      some { Size := (PackageGroup.stanzas pg).flatten.length,
             Sha1 := E.sha1 (PackageGroup.stanzas pg).flatten,
             Sha256 := E.sha256 (PackageGroup.stanzas pg).flatten,
             Md5 := E.md5 (PackageGroup.stanzas pg).flatten } ∧
    GoMap.get (PackageGroup.writePackages E pg r disk name).disk
        (filepath.Join [groupDir E r name, indexFile name] ++ lit ".gz") =
      some (E.gzip (PackageGroup.stanzas pg).flatten) ∧
    GoMap.get (PackageGroup.writePackages E pg r disk name).repo.Files
        (registryKey r.Config.Component name (indexFile name ++ lit ".gz")) =
      some { Size := (PackageGroup.stanzas pg).flatten.length,
             Sha1 := E.sha1 (PackageGroup.stanzas pg).flatten,
             Sha256 := E.sha256 (PackageGroup.stanzas pg).flatten,
             Md5 := E.md5 (PackageGroup.stanzas pg).flatten } := by
  obtain ⟨hr, hd⟩ := writePackages_group_ok E pg r disk name hc hcp hn herr
  rw [hr, hd]
  have hne : filepath.Join [groupDir E r name, indexFile name] ≠
      filepath.Join [groupDir E r name, indexFile name] ++ lit ".gz" :=
    fun h => append_ne_self _ (lit ".gz") (by decide) h.symm
  refine ⟨?_, ?_, ?_, ?_⟩
  · rw [GoMap.get_set_other _ _ _ _ hne, GoMap.get_set_self]
  · show GoMap.get (GoMap.set (GoMap.set r.Files _ _) _ _) _ = _
    rw [GoMap.get_set_other _ _ _ _ (registryKey_suffix_ne _ _ _ _ (by decide)),
      GoMap.get_set_self]
  · rw [GoMap.get_set_self]
  · show GoMap.get (GoMap.set (GoMap.set r.Files _ _) _ _) _ = _
    rw [GoMap.get_set_self]

set_option maxRecDepth 100000 in
/-- C1, at a concrete input: for the empty i386 group of the sample
repository the `.gz` file holds the sample gzip stream of the empty text,
six bytes, and the entry recorded for it has size 0 and the digests of the
empty text. -/
theorem writePackages_gz_entry_of_text_witness :
    GoMap.get (PackageGroup.writePackages (sampleEnv []) [] sampleRepo [] (lit "binary-i386")).disk
        (lit "repos/r/dists/c/main/binary-i386/Packages.gz") = some (lit "gzip[]") ∧
    GoMap.get
        (PackageGroup.writePackages (sampleEnv []) [] sampleRepo [] (lit "binary-i386")).repo.Files
        (lit "main/binary-i386/Packages.gz") =
      some { Size := 0, Sha1 := lit "sha1-0", Sha256 := lit "sha256-0", Md5 := lit "md5-0" } :=
  have h := writePackages_gz_entry_of_text (sampleEnv []) [] sampleRepo []
    (lit "binary-i386") (by decide) (by decide) (by decide) (by decide)
  ⟨h.2.2.1, h.2.2.2⟩

/-- The registry after a successful `Save`, for a plain component. -/
theorem Save_extend (E : Env) (r : Repo) (disk : Disk)
    (hc : plainElem r.Config.Component) (hcp : HasPrefix r.Config.Component [46, 46] = false)
    (herr : (Repo.Save E r disk).err = none) :
    filesExtend (regenerated r.Config.Component) r (Repo.Save E r disk).repo := by
  unfold Repo.Save at herr ⊢
  simp only at herr ⊢
  split at herr
  · cases herr
  rename_i h1
  rw [if_neg h1]
  split at herr
  · cases herr
  rename_i h2
  rw [if_neg h2]
  split at herr
  · rename_i h; rw [herr] at h; simp at h
  rename_i h3
  rw [if_neg h3, writeRelease_repo]
  exact writePackages_extend E r _ hc hcp (err_none_of_not_isSome h3)

/-! ## Lemmas on ingestion -/

theorem writePackages_group_sameIndex (E : Env) (pg : PackageGroup) (r : Repo) (disk : Disk)
    (name : GoString) : sameIndex r (PackageGroup.writePackages E pg r disk name).repo := by
  unfold PackageGroup.writePackages
  simp only
  by_cases h1 : E.fails .mkdirAll (filepath.Join
      [E.repoPath, r.Name, lit "dists", r.Config.Codename, r.Config.Component, name]) = true
  · rw [if_pos h1]; exact sameIndex_refl r
  rw [if_neg h1]
  by_cases h2 : E.fails .create (filepath.Join [filepath.Join
      [E.repoPath, r.Name, lit "dists", r.Config.Codename, r.Config.Component, name],
      if name = lit "source" then lit "Sources" else lit "Packages"]) = true
  · rw [if_pos h2]; exact sameIndex_refl r
  rw [if_neg h2]
  by_cases h3 : E.fails .create (filepath.Join [filepath.Join
      [E.repoPath, r.Name, lit "dists", r.Config.Codename, r.Config.Component, name],
      if name = lit "source" then lit "Sources" else lit "Packages"] ++ lit ".gz") = true
  · rw [if_pos h3]; exact sameIndex_refl r
  rw [if_neg h3]
  exact sameIndex_trans (storeHashes_sameIndex E r _ _) (storeHashes_sameIndex E _ _ _)

theorem writeDeepRelease_sameIndex (E : Env) (r : Repo) (disk : Disk) (name arch : GoString) :
    sameIndex r (Repo.writeDeepRelease E r disk name arch).repo := by
  unfold Repo.writeDeepRelease
  simp only
  by_cases h1 : E.fails .mkdirAll (filepath.Join
      [E.repoPath, r.Name, lit "dists", r.Config.Codename, r.Config.Component, name]) = true
  · rw [if_pos h1]; exact sameIndex_refl r
  rw [if_neg h1]
  by_cases h2 : E.fails .create (filepath.Join [filepath.Join
      [E.repoPath, r.Name, lit "dists", r.Config.Codename, r.Config.Component, name],
      lit "Release"]) = true
  · rw [if_pos h2]; exact sameIndex_refl r
  rw [if_neg h2]
  exact storeHashes_sameIndex E r _ _

theorem sameIndex_step {r : Repo} {o : Outcome} (next : Outcome)
    (h1 : sameIndex r o.repo) (h2 : sameIndex o.repo next.repo) :
    sameIndex r (if o.err.isSome = true then o else next).repo := by
  by_cases h : o.err.isSome = true
  · rw [if_pos h]; exact h1
  · rw [if_neg h]; exact sameIndex_trans h1 h2

theorem writePackages_sameIndex (E : Env) (r : Repo) (disk : Disk) :
    sameIndex r (Repo.writePackages E r disk).repo := by
  unfold Repo.writePackages
  simp only
  have s1 := writePackages_group_sameIndex E r.Packages.I386 r disk (lit "binary-i386")
  refine sameIndex_step _ s1 ?_
  refine sameIndex_step _ (writeDeepRelease_sameIndex E _ _ _ _) ?_
  refine sameIndex_step _ (writePackages_group_sameIndex E _ _ _ _) ?_
  refine sameIndex_step _ (writeDeepRelease_sameIndex E _ _ _ _) ?_
  refine sameIndex_step _ (writePackages_group_sameIndex E _ _ _ _) ?_
  exact writeDeepRelease_sameIndex E _ _ _ _

/-- `Save` changes nothing of a repository but its file-digest registry,
whether it succeeds or not. -/
theorem Save_sameIndex (E : Env) (r : Repo) (disk : Disk) :
    sameIndex r (Repo.Save E r disk).repo := by
  unfold Repo.Save
  simp only
  by_cases h1 : E.fails .mkdirAll (filepath.Join [E.repoPath, r.Name]) = true
  · rw [if_pos h1]; exact sameIndex_refl r
  rw [if_neg h1]
  by_cases h2 : E.fails .create
      (filepath.Join [filepath.Join [E.repoPath, r.Name], lit ".meta"]) = true
  · rw [if_pos h2]; exact sameIndex_refl r
  rw [if_neg h2]
  refine sameIndex_step _ (writePackages_sameIndex E r _) ?_
  rw [writeRelease_repo]
  exact sameIndex_refl _

theorem Add_of_extracts (E : Env) (r : Repo) (disk : Disk) (debPath : GoString)
    (para : GoMap GoString) (disk1 : Disk)
    (hx : Repo.Extracts E r disk debPath [para] disk1) :
    Repo.Add E r disk debPath = Repo.ingest E r disk1 debPath para := by
  obtain ⟨d1, file, hs, ho, hc⟩ := hx
  simp only [Repo.Add, hs, Repo.parseDeb, ho, hc]

theorem Add_of_extracts_count (E : Env) (r : Repo) (disk : Disk) (debPath : GoString)
    (info : List (GoMap GoString)) (disk1 : Disk)
    (hx : Repo.Extracts E r disk debPath info disk1) (hlen : info.length ≠ 1) :
    Repo.Add E r disk debPath = ⟨some .paragraphs, r, disk1⟩ := by
  obtain ⟨d1, file, hs, ho, hc⟩ := hx
  simp only [Repo.Add, hs, Repo.parseDeb, ho, hc]
  split
  · rename_i heq
    cases heq
  · rename_i heq
    cases heq
    simp at hlen
  · rfl

theorem ingest_of_copy (E : Env) (r : Repo) (disk : Disk) (debPath : GoString)
    (para : GoMap GoString)
    (hv : field para (lit "Version") ≠ []) (hn : field para (lit "Package") ≠ [])
    (ha : field para (lit "Architecture") ≠ [])
    (hio : Repo.PoolCopyOk E r disk debPath para) :
    Repo.ingest E r disk debPath para =
      match Repo.classify E (field para (lit "Architecture")) with
      | none => ⟨some .unsupportedArch, r, Repo.pooled E r disk debPath para⟩
      | some g =>
        Repo.Save E
          (Repo.setGroup r g
            (PackageGroup.insert (Repo.group r g) (field para (lit "Package"))
              (field para (lit "Version")) (Repo.record E r disk debPath para)))
          (Repo.pooled E r disk debPath para) := by
  obtain ⟨h1, h2, h3, h4⟩ := hio
  have h3' : ¬ (filepath.Dir (Repo.poolPath E r para) ≠ [46] ∧
      E.fails .mkdirAll (filepath.Dir (Repo.poolPath E r para)) = true) := by
    rintro ⟨ha1, ha2⟩
    rcases h3 with h | h
    · exact ha1 h
    · rw [show filepath.Dir (filepath.Join [E.repoPath, r.Name,
          Repo.poolFilename r.Config.Component (field para (lit "Package"))
            (field para (lit "Version")) (field para (lit "Architecture"))]) =
          filepath.Dir (Repo.poolPath E r para) from rfl] at h
      rw [h] at ha2
      cases ha2
  have h4' : E.fails .create (Repo.poolPath E r para) = false := h4
  unfold Repo.ingest
  simp only [hv, hn, ha, if_false]
  have hp : filepath.Join [E.repoPath, r.Name,
      Repo.poolFilename r.Config.Component (field para (lit "Package"))
        (field para (lit "Version")) (field para (lit "Architecture"))] =
      Repo.poolPath E r para := rfl
  simp only [hp, h1, h2, h3', h4', if_false, Bool.false_eq_true, false_or, not_true_eq_false]
  cases hg : Repo.classify E (field para (lit "Architecture")) with
  | none =>
    simp [Repo.pooled, Repo.copied, NewHashWriter, HashWriter.Write]
  | some g =>
    simp [Repo.pooled, Repo.copied, Repo.record, NewHashWriter, HashWriter.Write,
      HashWriter.Written, HashWriter.Sha1, HashWriter.Sha256, HashWriter.Md5]

/-! ## Pool file names -/

theorem cleanStep_empty (r : Bool) (out : List GoString) : cleanStep r out [] = out := by
  simp [cleanStep]

theorem Clean_double_slash (X Y : GoString) (hX : X ≠ []) :
    filepath.Clean (X ++ 47 :: 47 :: Y) = filepath.Clean (X ++ 47 :: Y) := by
  unfold filepath.Clean
  rw [isRooted_append X _ hX, isRooted_append X _ hX]
  congr 1
  unfold cleanElems
  rw [splitSlash_append, splitSlash_append]
  have h : splitSlash (47 :: Y) = [] :: splitSlash Y := by simp [splitSlash]
  rw [h, List.foldl_append, List.foldl_append, List.foldl_cons, cleanStep_empty]

theorem poolFilename_eq_Clean (component name version arch : GoString) :
    Repo.poolFilename component name version arch =
      filepath.Clean (poolFormula component name version arch) := by
  unfold Repo.poolFilename poolFormula
  simp only
  rw [Join_cons_ne _ _ (by simp [lit])]
  have h1 : joinSlash [lit "pool/" ++ component ++ [47] ++ List.take 1 name ++ [47] ++ name ++ [47],
      name ++ [95] ++ version ++ [95] ++ arch ++ lit ".deb"] =
      (lit "pool/" ++ component ++ [47] ++ List.take 1 name ++ [47] ++ name) ++
        47 :: 47 :: (name ++ [95] ++ version ++ [95] ++ arch ++ lit ".deb") := by
    simp [joinSlash]
  have h2 : lit "pool/" ++ component ++ [47] ++ List.take 1 name ++ [47] ++ name ++ [47] ++ name
      ++ [95] ++ version ++ [95] ++ arch ++ lit ".deb" =
      (lit "pool/" ++ component ++ [47] ++ List.take 1 name ++ [47] ++ name) ++
        47 :: (name ++ [95] ++ version ++ [95] ++ arch ++ lit ".deb") := by
    simp
  rw [h1, h2, Clean_double_slash _ _ (by simp [lit])]

theorem Clean_joinSlash_plain (es : List GoString) (hne : es ≠ [])
    (hp : ∀ c ∈ es, plainElem c) : filepath.Clean (joinSlash es) = joinSlash es := by
  have hk : keptStack false es.reverse := by
    have := keptStack_push_plain false [] es trivial hp
    simpa using this
  have hr : render false es = joinSlash es := by simp [render, hne]
  rw [← hr]
  exact Clean_render false es hk

theorem plainElem_debName (name version arch : GoString) (hn : 47 ∉ name)
    (hv : 47 ∉ version) (ha : 47 ∉ arch) :
    plainElem (name ++ [95] ++ version ++ [95] ++ arch ++ lit ".deb") := by
  have h95 : (95 : Nat) ∈ name ++ [95] ++ version ++ [95] ++ arch ++ lit ".deb" := by simp
  refine ⟨?_, ?_, ?_, ?_⟩
  · intro h; rw [h] at h95; simp at h95
  · intro h
    simp only [List.mem_append] at h
    rcases h with (((((h | h) | h) | h) | h) | h)
    · exact hn h
    · simp at h
    · exact hv h
    · simp at h
    · exact ha h
    · revert h; decide
  · intro h; rw [h] at h95; simp at h95
  · intro h; rw [h] at h95; simp at h95

theorem plainElem_of_head (name : GoString) (hne : name ≠ []) (hn : 47 ∉ name)
    (hd : name.head? ≠ some 46) : plainElem name ∧ plainElem (name.take 1) := by
  cases name with
  | nil => exact absurd rfl hne
  | cons x t =>
    have hx : x ≠ 46 := fun e => hd (by simp [e])
    have hx' : x ≠ 47 := fun e => hn (by simp [e])
    refine ⟨⟨by simp, hn, ?_, ?_⟩, ⟨by simp, ?_, ?_, ?_⟩⟩
    · intro h; simp at h; exact hx h.1
    · intro h; simp at h; exact hx h.1
    · simp; exact fun e => hx' e.symm
    · simp [hx]
    · simp

/-- The pool file name in the plain case: it is the string of the
specification itself. -/
theorem poolFilename_plain (component name version arch : GoString)
    (hc : plainElem component) (hne : name ≠ []) (hn : 47 ∉ name)
    (hd : name.head? ≠ some 46) (hv : 47 ∉ version) (ha : 47 ∉ arch) :
    Repo.poolFilename component name version arch =
      poolFormula component name version arch := by
  rw [poolFilename_eq_Clean]
  obtain ⟨hp1, hp2⟩ := plainElem_of_head name hne hn hd
  have hdeb := plainElem_debName name version arch hn hv ha
  have hf : poolFormula component name version arch =
      joinSlash [lit "pool", component, name.take 1, name,
        name ++ [95] ++ version ++ [95] ++ arch ++ lit ".deb"] := by
    simp [poolFormula, joinSlash, lit]
  rw [hf]
  apply Clean_joinSlash_plain _ (by simp)
  intro c hcm
  simp only [List.mem_cons, List.mem_singleton, List.not_mem_nil, or_false] at hcm
  rcases hcm with h | h | h | h | h <;> subst h
  · decide
  · exact hc
  · exact hp2
  · exact hp1
  · exact hdeb

/-! ## Lemmas on the index -/

theorem lookup_insert_self (pg : PackageGroup) (n v : GoString) (pkg : Package) :
    PackageGroup.lookup (PackageGroup.insert pg n v pkg) n v = some pkg := by
  simp [PackageGroup.lookup, PackageGroup.insert, GoMap.get_set_self]

theorem lookup_insert_other (pg : PackageGroup) (n v n' v' : GoString) (pkg : Package)
    (h : ¬ (n' = n ∧ v' = v)) :
    PackageGroup.lookup (PackageGroup.insert pg n v pkg) n' v' =
      PackageGroup.lookup pg n' v' := by
  by_cases hn : n' = n
  · subst hn
    have hv : v' ≠ v := fun e => h ⟨rfl, e⟩
    simp only [PackageGroup.lookup, PackageGroup.insert, GoMap.get_set_self, Option.bind_some,
      Option.some_bind]
    rw [GoMap.get_set_other _ _ _ _ hv]
    cases GoMap.get pg n' with
    | none => simp [GoMap.empty, GoMap.get]
    | some set => simp
  · simp [PackageGroup.lookup, PackageGroup.insert, GoMap.get_set_other _ _ _ _ hn]

theorem group_setGroup_self (r : Repo) (g : Repo.Group) (pg : PackageGroup) :
    Repo.group (Repo.setGroup r g pg) g = pg := by
  cases g <;> rfl

theorem group_setGroup_other (r : Repo) (g g' : Repo.Group) (pg : PackageGroup)
    (h : g' ≠ g) : Repo.group (Repo.setGroup r g pg) g' = Repo.group r g' := by
  cases g <;> cases g' <;> first | rfl | exact absurd rfl h

theorem group_of_sameIndex {r r' : Repo} (h : sameIndex r r') (g : Repo.Group) :
    Repo.group r' g = Repo.group r g := by
  cases g <;> simp [Repo.group, h.2.2]

/-! ## Lemmas on errors -/

theorem writePackages_group_err (E : Env) (pg : PackageGroup) (r : Repo) (disk : Disk)
    (name : GoString) : saveError (PackageGroup.writePackages E pg r disk name).err := by
  unfold PackageGroup.writePackages
  simp only
  by_cases h1 : E.fails .mkdirAll (filepath.Join
      [E.repoPath, r.Name, lit "dists", r.Config.Codename, r.Config.Component, name]) = true
  · rw [if_pos h1]; exact Or.inr (Or.inl rfl)
  rw [if_neg h1]
  by_cases h2 : E.fails .create (filepath.Join [filepath.Join
      [E.repoPath, r.Name, lit "dists", r.Config.Codename, r.Config.Component, name],
      if name = lit "source" then lit "Sources" else lit "Packages"]) = true
  · rw [if_pos h2]; exact Or.inr (Or.inl rfl)
  rw [if_neg h2]
  by_cases h3 : E.fails .create (filepath.Join [filepath.Join
      [E.repoPath, r.Name, lit "dists", r.Config.Codename, r.Config.Component, name],
      if name = lit "source" then lit "Sources" else lit "Packages"] ++ lit ".gz") = true
  · rw [if_pos h3]; exact Or.inr (Or.inl rfl)
  rw [if_neg h3]
  exact Or.inl rfl

theorem writeDeepRelease_err (E : Env) (r : Repo) (disk : Disk) (name arch : GoString) :
    saveError (Repo.writeDeepRelease E r disk name arch).err := by
  unfold Repo.writeDeepRelease
  simp only
  by_cases h1 : E.fails .mkdirAll (filepath.Join
      [E.repoPath, r.Name, lit "dists", r.Config.Codename, r.Config.Component, name]) = true
  · rw [if_pos h1]; exact Or.inr (Or.inl rfl)
  rw [if_neg h1]
  by_cases h2 : E.fails .create (filepath.Join [filepath.Join
      [E.repoPath, r.Name, lit "dists", r.Config.Codename, r.Config.Component, name],
      lit "Release"]) = true
  · rw [if_pos h2]; exact Or.inr (Or.inl rfl)
  rw [if_neg h2]
  exact Or.inl rfl

theorem saveError_step {o : Outcome} (next : Outcome)
    (h1 : saveError o.err) (h2 : saveError next.err) :
    saveError (if o.err.isSome = true then o else next).err := by
  by_cases h : o.err.isSome = true
  · rw [if_pos h]; exact h1
  · rw [if_neg h]; exact h2

theorem writePackages_err (E : Env) (r : Repo) (disk : Disk) :
    saveError (Repo.writePackages E r disk).err := by
  unfold Repo.writePackages
  simp only
  refine saveError_step _ (writePackages_group_err E _ _ _ _) ?_
  refine saveError_step _ (writeDeepRelease_err E _ _ _ _) ?_
  refine saveError_step _ (writePackages_group_err E _ _ _ _) ?_
  refine saveError_step _ (writeDeepRelease_err E _ _ _ _) ?_
  refine saveError_step _ (writePackages_group_err E _ _ _ _) ?_
  exact writeDeepRelease_err E _ _ _ _

theorem SignFile_err (E : Env) (disk : Disk) (filename output key : GoString) :
    saveError (opgp.SignFile E disk filename output key).1 := by
  unfold opgp.SignFile
  cases E.findKey key with
  | none => exact Or.inr (Or.inr (Or.inl rfl))
  | some entity =>
    simp only
    by_cases h1 : E.fails .openFile filename = true ∨ GoMap.get disk filename = none
    · rw [if_pos h1]; exact Or.inr (Or.inl rfl)
    rw [if_neg h1]
    by_cases h2 : E.fails .create output = true
    · rw [if_pos h2]; exact Or.inr (Or.inl rfl)
    rw [if_neg h2]
    cases E.detachSign entity ((GoMap.get (GoMap.set disk output []) filename).getD []) with
    | none => exact Or.inr (Or.inr (Or.inr rfl))
    | some sig => exact Or.inl rfl

theorem Clearsign_err (E : Env) (input key : GoString) (e : Error)
    (h : opgp.Clearsign E input key = .error e) : e = .unknownKey ∨ e = .signing := by
  unfold opgp.Clearsign at h
  cases hk : E.findKey key with
  | none =>
    rw [hk] at h
    cases h
    exact Or.inl rfl
  | some entity =>
    rw [hk] at h
    simp only at h
    cases hc : E.clearsign entity input with
    | none =>
      rw [hc] at h
      cases h
      exact Or.inr rfl
    | some t =>
      rw [hc] at h
      cases h

theorem ClearsignFile_err (E : Env) (disk : Disk) (filename output key : GoString) :
    saveError (opgp.ClearsignFile E disk filename output key).1 := by
  unfold opgp.ClearsignFile
  by_cases h1 : E.fails .openFile filename = true ∨ GoMap.get disk filename = none
  · rw [if_pos h1]; exact Or.inr (Or.inl rfl)
  rw [if_neg h1]
  by_cases h2 : E.fails .create output = true
  · rw [if_pos h2]; exact Or.inr (Or.inl rfl)
  rw [if_neg h2]
  simp only
  cases hc : opgp.Clearsign E ((GoMap.get (GoMap.set disk output []) filename).getD []) key with
  | error e =>
    rcases Clearsign_err E _ _ e hc with h | h
    · subst h; exact Or.inr (Or.inr (Or.inl rfl))
    · subst h; exact Or.inr (Or.inr (Or.inr rfl))
  | ok t => exact Or.inl rfl

theorem writeRelease_err (E : Env) (r : Repo) (disk : Disk) :
    saveError (Repo.writeRelease E r disk).err := by
  unfold Repo.writeRelease
  simp only
  by_cases h1 : E.fails .mkdirAll
      (filepath.Join [E.repoPath, r.Name, lit "dists", r.Config.Codename]) = true
  · rw [if_pos h1]; exact Or.inr (Or.inl rfl)
  rw [if_neg h1]
  by_cases h2 : E.fails .create (filepath.Join
      [filepath.Join [E.repoPath, r.Name, lit "dists", r.Config.Codename], lit "Release"]) = true
  · rw [if_pos h2]; exact Or.inr (Or.inl rfl)
  rw [if_neg h2]
  by_cases h3 : (!r.Config.Sign) = true
  · rw [if_pos h3]; exact Or.inl rfl
  rw [if_neg h3]
  have hs := SignFile_err E
    (GoMap.set disk (filepath.Join
      [filepath.Join [E.repoPath, r.Name, lit "dists", r.Config.Codename], lit "Release"])
      (Repo.releaseText E r))
    (filepath.Join
      [filepath.Join [E.repoPath, r.Name, lit "dists", r.Config.Codename], lit "Release"])
    (filepath.Join
      [filepath.Join [E.repoPath, r.Name, lit "dists", r.Config.Codename], lit "Release.gpg"])
    r.Config.GpgKey
  revert hs
  cases opgp.SignFile E _ _ _ r.Config.GpgKey with
  | mk e d =>
    intro hs
    cases e with
    | some e => exact hs
    | none =>
      simp only
      exact ClearsignFile_err E _ _ _ _

/-- `Save` returns no error, or one of a system call or of signing. -/
theorem Save_err (E : Env) (r : Repo) (disk : Disk) : saveError (Repo.Save E r disk).err := by
  unfold Repo.Save
  simp only
  by_cases h1 : E.fails .mkdirAll (filepath.Join [E.repoPath, r.Name]) = true
  · rw [if_pos h1]; exact Or.inr (Or.inl rfl)
  rw [if_neg h1]
  by_cases h2 : E.fails .create
      (filepath.Join [filepath.Join [E.repoPath, r.Name], lit ".meta"]) = true
  · rw [if_pos h2]; exact Or.inr (Or.inl rfl)
  rw [if_neg h2]
  exact saveError_step _ (writePackages_err E r _) (writeRelease_err E _ _)

/-! ## Ingestion -/

theorem Add_of_copy (E : Env) (r : Repo) (disk : Disk) (debPath : GoString)
    (para : GoMap GoString) (disk1 : Disk) (g : Repo.Group)
    (hx : Repo.Extracts E r disk debPath [para] disk1)
    (hv : field para (lit "Version") ≠ []) (hn : field para (lit "Package") ≠ [])
    (ha : field para (lit "Architecture") ≠ [])
    (hio : Repo.PoolCopyOk E r disk1 debPath para)
    (hg : Repo.classify E (field para (lit "Architecture")) = some g) :
    Repo.Add E r disk debPath =
      Repo.Save E
        (Repo.setGroup r g
          (PackageGroup.insert (Repo.group r g) (field para (lit "Package"))
            (field para (lit "Version")) (Repo.record E r disk1 debPath para)))
        (Repo.pooled E r disk1 debPath para) := by
  rw [Add_of_extracts E r disk debPath para disk1 hx,
    ingest_of_copy E r disk1 debPath para hv hn ha hio, hg]

theorem Add_group (E : Env) (r : Repo) (disk : Disk) (debPath : GoString)
    (para : GoMap GoString) (disk1 : Disk) (g : Repo.Group)
    (hx : Repo.Extracts E r disk debPath [para] disk1)
    (hv : field para (lit "Version") ≠ []) (hn : field para (lit "Package") ≠ [])
    (ha : field para (lit "Architecture") ≠ [])
    (hio : Repo.PoolCopyOk E r disk1 debPath para)
    (hg : Repo.classify E (field para (lit "Architecture")) = some g) (g' : Repo.Group) :
    Repo.group (Repo.Add E r disk debPath).repo g' =
      Repo.group
        (Repo.setGroup r g
          (PackageGroup.insert (Repo.group r g) (field para (lit "Package"))
            (field para (lit "Version")) (Repo.record E r disk1 debPath para))) g' := by
  rw [Add_of_copy E r disk debPath para disk1 g hx hv hn ha hio hg]
  exact group_of_sameIndex (Save_sameIndex E _ _) g'

theorem record_Filename (E : Env) (r : Repo) (disk : Disk) (debPath : GoString)
    (para : GoMap GoString) :
    (Repo.record E r disk debPath para).Filename =
      Repo.poolFilename r.Config.Component (field para (lit "Package"))
        (field para (lit "Version")) (field para (lit "Architecture")) := by
  simp only [Repo.record]

/-- C4, as amended: the file name `Add` records on the package record is
the lexically cleaned form (`filepath.Clean`) of
`pool/<component>/<first byte of name>/<name>/<name>_<version>_<arch>.deb`,
a function of the four inputs alone; it is that string itself when the
component is a plain path element, the name has no separator and does not
begin with a dot, and version and architecture have no separator. -/
theorem add_records_pool_filename (E : Env) (r : Repo) (disk : Disk) (debPath : GoString)
    (para : GoMap GoString) (disk1 : Disk) (g : Repo.Group)
    (hx : Repo.Extracts E r disk debPath [para] disk1)
    (hv : field para (lit "Version") ≠ []) (hn : field para (lit "Package") ≠ [])
    (ha : field para (lit "Architecture") ≠ [])
    (hio : Repo.PoolCopyOk E r disk1 debPath para)
    (hg : Repo.classify E (field para (lit "Architecture")) = some g) :
    ∃ pkg, PackageGroup.lookup (Repo.group (Repo.Add E r disk debPath).repo g)
        (field para (lit "Package")) (field para (lit "Version")) = some pkg ∧
      pkg.Filename = filepath.Clean (poolFormula r.Config.Component
        (field para (lit "Package")) (field para (lit "Version"))
        (field para (lit "Architecture"))) ∧
      (plainElem r.Config.Component → 47 ∉ field para (lit "Package") →
        (field para (lit "Package")).head? ≠ some 46 →
        47 ∉ field para (lit "Version") → 47 ∉ field para (lit "Architecture") →
        pkg.Filename = poolFormula r.Config.Component
          (field para (lit "Package")) (field para (lit "Version"))
          (field para (lit "Architecture"))) := by
  refine ⟨Repo.record E r disk1 debPath para, ?_, ?_, ?_⟩
  · rw [Add_group E r disk debPath para disk1 g hx hv hn ha hio hg g, group_setGroup_self,
      lookup_insert_self]
  · rw [record_Filename]
    exact poolFilename_eq_Clean _ _ _ _
  · intro hc h1 h2 h3 h4
    rw [record_Filename]
    exact poolFilename_plain _ _ _ _ hc hn h1 h2 h3 h4


set_option maxRecDepth 100000 in
theorem sample_extracts_amd64 :
    Repo.Extracts (sampleEnv [samplePara (lit "foo") (lit "1.0") (lit "amd64")]) sampleRepo
      sampleDisk (lit "tmp/x.deb") [samplePara (lit "foo") (lit "1.0") (lit "amd64")]
      sampleDisk :=
  ⟨sampleDisk, lit "0123456789", by decide, by decide, by decide⟩

set_option maxRecDepth 100000 in
theorem sample_copy_amd64 :
    Repo.PoolCopyOk (sampleEnv [samplePara (lit "foo") (lit "1.0") (lit "amd64")]) sampleRepo
      sampleDisk (lit "tmp/x.deb") (samplePara (lit "foo") (lit "1.0") (lit "amd64")) := by
  unfold Repo.PoolCopyOk
  decide

set_option maxRecDepth 100000 in
/-- C4, at a concrete input: the package `foo` 1.0 for `amd64` added to the
sample repository. -/
theorem add_records_pool_filename_witness :
    ∃ pkg, PackageGroup.lookup
        (Repo.group (Repo.Add (sampleEnv [samplePara (lit "foo") (lit "1.0") (lit "amd64")])
          sampleRepo sampleDisk (lit "tmp/x.deb")).repo .amd64)
        (field (samplePara (lit "foo") (lit "1.0") (lit "amd64")) (lit "Package"))
        (field (samplePara (lit "foo") (lit "1.0") (lit "amd64")) (lit "Version")) = some pkg ∧
      pkg.Filename = filepath.Clean (poolFormula sampleRepo.Config.Component
        (field (samplePara (lit "foo") (lit "1.0") (lit "amd64")) (lit "Package"))
        (field (samplePara (lit "foo") (lit "1.0") (lit "amd64")) (lit "Version"))
        (field (samplePara (lit "foo") (lit "1.0") (lit "amd64")) (lit "Architecture"))) ∧
      (plainElem sampleRepo.Config.Component →
        47 ∉ field (samplePara (lit "foo") (lit "1.0") (lit "amd64")) (lit "Package") →
        (field (samplePara (lit "foo") (lit "1.0") (lit "amd64")) (lit "Package")).head? ≠
          some 46 →
        47 ∉ field (samplePara (lit "foo") (lit "1.0") (lit "amd64")) (lit "Version") →
        47 ∉ field (samplePara (lit "foo") (lit "1.0") (lit "amd64")) (lit "Architecture") →
        pkg.Filename = poolFormula sampleRepo.Config.Component
          (field (samplePara (lit "foo") (lit "1.0") (lit "amd64")) (lit "Package"))
          (field (samplePara (lit "foo") (lit "1.0") (lit "amd64")) (lit "Version"))
          (field (samplePara (lit "foo") (lit "1.0") (lit "amd64")) (lit "Architecture"))) :=
  add_records_pool_filename (sampleEnv [samplePara (lit "foo") (lit "1.0") (lit "amd64")])
    sampleRepo sampleDisk (lit "tmp/x.deb") (samplePara (lit "foo") (lit "1.0") (lit "amd64"))
    sampleDisk .amd64 sample_extracts_amd64 (by decide) (by decide) (by decide)
    sample_copy_amd64 (by decide)

set_option maxRecDepth 100000 in
/-- C4 fails as stated: in a repository whose component name is empty, `Add`
of `foo` 1.0 for `amd64` succeeds and records the file name
`pool/f/foo/foo_1.0_amd64.deb`, while the string of the specification is
`pool//f/foo/foo_1.0_amd64.deb`. -/
theorem pool_filename_of_empty_component :
    (Repo.Add (fooEnv (lit "amd64")) noComponentRepo sampleDisk (lit "tmp/x.deb")).err = none ∧
    (PackageGroup.lookup
      (Repo.Add (fooEnv (lit "amd64")) noComponentRepo sampleDisk (lit "tmp/x.deb")).repo.Packages.Amd64
      (lit "foo") (lit "1.0")).map Package.Filename = some (lit "pool/f/foo/foo_1.0_amd64.deb") ∧
    poolFormula noComponentRepo.Config.Component (lit "foo") (lit "1.0") (lit "amd64") =
      lit "pool//f/foo/foo_1.0_amd64.deb" := by
  decide

set_option maxRecDepth 100000 in
/-- C5, at the failing input: `Add` of `foo` 1.0 whose control file says
`Architecture: AMD64` succeeds, indexes the package under the amd64 group
and stores it as `foo_1.0_AMD64.deb`; `Remove` of `foo` 1.0 for `amd64`
then drops the index entry but computes the path of `foo_1.0_amd64.deb`,
which is not the repository directory joined with the record's file name,
returns no error and leaves the pool file on disk. -/
theorem remove_misses_upper_case_pool_file :
    (Repo.Add (fooEnv (lit "AMD64")) sampleRepo sampleDisk (lit "tmp/x.deb")).err = none ∧
    (PackageGroup.lookup
      (Repo.Add (fooEnv (lit "AMD64")) sampleRepo sampleDisk (lit "tmp/x.deb")).repo.Packages.Amd64
      (lit "foo") (lit "1.0")).map Package.Filename =
        some (lit "pool/main/f/foo/foo_1.0_AMD64.deb") ∧
    Repo.removePath (fooEnv (lit "AMD64"))
      (Repo.Add (fooEnv (lit "AMD64")) sampleRepo sampleDisk (lit "tmp/x.deb")).repo
      (lit "foo") (lit "1.0") (lit "amd64") = lit "repos/r/pool/main/f/foo/foo_1.0_amd64.deb" ∧
    filepath.Join [lit "repos", lit "r", lit "pool/main/f/foo/foo_1.0_AMD64.deb"] ≠
      lit "repos/r/pool/main/f/foo/foo_1.0_amd64.deb" ∧
    (Repo.Remove (fooEnv (lit "AMD64"))
      (Repo.Add (fooEnv (lit "AMD64")) sampleRepo sampleDisk (lit "tmp/x.deb")).repo
      (Repo.Add (fooEnv (lit "AMD64")) sampleRepo sampleDisk (lit "tmp/x.deb")).disk
      (lit "foo") (lit "1.0") (lit "amd64")).err = none ∧
    PackageGroup.lookup
      (Repo.Remove (fooEnv (lit "AMD64"))
        (Repo.Add (fooEnv (lit "AMD64")) sampleRepo sampleDisk (lit "tmp/x.deb")).repo
        (Repo.Add (fooEnv (lit "AMD64")) sampleRepo sampleDisk (lit "tmp/x.deb")).disk
        (lit "foo") (lit "1.0") (lit "amd64")).repo.Packages.Amd64
      (lit "foo") (lit "1.0") = none ∧
    GoMap.get
      (Repo.Remove (fooEnv (lit "AMD64"))
        (Repo.Add (fooEnv (lit "AMD64")) sampleRepo sampleDisk (lit "tmp/x.deb")).repo
        (Repo.Add (fooEnv (lit "AMD64")) sampleRepo sampleDisk (lit "tmp/x.deb")).disk
        (lit "foo") (lit "1.0") (lit "amd64")).disk
      (lit "repos/r/pool/main/f/foo/foo_1.0_AMD64.deb") = some (lit "0123456789") := by
  decide

set_option maxRecDepth 100000 in
/-- C7, at the failing input: `Add` of `foo` 1.0 whose control file says
`Architecture: arm64` is rejected with the unsupported-architecture error
and leaves the repository value as it was, but the pool file
`foo_1.0_arm64.deb`, absent before the call, is on disk after it. -/
theorem rejected_add_leaves_pool_file :
    (Repo.Add (fooEnv (lit "arm64")) sampleRepo sampleDisk (lit "tmp/x.deb")).err =
      some .unsupportedArch ∧
    (Repo.Add (fooEnv (lit "arm64")) sampleRepo sampleDisk (lit "tmp/x.deb")).repo = sampleRepo ∧
    GoMap.get sampleDisk (lit "repos/r/pool/main/f/foo/foo_1.0_arm64.deb") = none ∧
    GoMap.get (Repo.Add (fooEnv (lit "arm64")) sampleRepo sampleDisk (lit "tmp/x.deb")).disk
      (lit "repos/r/pool/main/f/foo/foo_1.0_arm64.deb") = some (lit "0123456789") := by
  decide

theorem classify_tag (E : Env) (arch : GoString) (g : Repo.Group)
    (h : ToLower E arch = g.tag) : Repo.classify E arch = some g := by
  unfold Repo.classify
  rw [h]
  cases g <;> decide

theorem classify_none (E : Env) (arch : GoString) (h : ∀ g : Repo.Group, ToLower E arch ≠ g.tag) :
    Repo.classify E arch = none := by
  have h1 := h .i386
  have h2 := h .amd64
  have h3 := h .source
  simp only [Repo.Group.tag] at h1 h2 h3
  simp [Repo.classify, h1, h2, h3]

theorem not_validationError_of_saveError {e : Option Error} (h : saveError e) :
    ¬ validationError e := by
  rcases h with h | h | h | h <;> subst h <;> (intro hv; rcases hv with hv | hv | hv | hv <;> cases hv)

theorem ingest_not_validationError (E : Env) (r : Repo) (disk : Disk) (debPath : GoString)
    (para : GoMap GoString)
    (hv : field para (lit "Version") ≠ []) (hn : field para (lit "Package") ≠ [])
    (ha : field para (lit "Architecture") ≠ []) :
    ¬ validationError (Repo.ingest E r disk debPath para).err := by
  have hio : ¬ validationError (some Error.io) := by
    intro h; rcases h with h | h | h | h <;> cases h
  unfold Repo.ingest
  simp only [hv, hn, ha, if_false]
  split
  · exact hio
  split
  · exact hio
  split
  · exact hio
  split
  · intro h; rcases h with h | h | h | h <;> cases h
  · exact not_validationError_of_saveError (Save_err E _ _)

theorem ingest_validation (E : Env) (r : Repo) (disk : Disk) (debPath : GoString)
    (para : GoMap GoString) :
    (field para (lit "Version") = [] →
      Repo.ingest E r disk debPath para = ⟨some .noVersion, r, disk⟩) ∧
    (field para (lit "Version") ≠ [] → field para (lit "Package") = [] →
      Repo.ingest E r disk debPath para = ⟨some .noPackage, r, disk⟩) ∧
    (field para (lit "Version") ≠ [] → field para (lit "Package") ≠ [] →
      field para (lit "Architecture") = [] →
      Repo.ingest E r disk debPath para = ⟨some .noArchitecture, r, disk⟩) := by
  refine ⟨?_, ?_, ?_⟩
  · intro h
    unfold Repo.ingest
    simp only [h, if_true]
  · intro h1 h2
    unfold Repo.ingest
    simp only [h1, h2, if_true, if_false]
  · intro h1 h2 h3
    unfold Repo.ingest
    simp only [h1, h2, h3, if_true, if_false]

/-! ## Claims on ingestion -/

/-- C6: when `Add` has extracted the control paragraph, its three fields are
not empty and the pool copy goes through, the lower-cased `Architecture`
value decides the group. If it is the tag of a group (`i386`, `amd64`,
`source`), the new record is put in that group and the two other groups
are as before; if it is none of the three, `Add` returns the
unsupported-architecture error and the repository, with its three groups,
is as before. -/
theorem add_classifies_architecture (E : Env) (r : Repo) (disk : Disk) (debPath : GoString)
    (para : GoMap GoString) (disk1 : Disk)
    (hx : Repo.Extracts E r disk debPath [para] disk1)
    (hv : field para (lit "Version") ≠ []) (hn : field para (lit "Package") ≠ [])
    (ha : field para (lit "Architecture") ≠ [])
    (hio : Repo.PoolCopyOk E r disk1 debPath para) :
    (∀ g : Repo.Group, ToLower E (field para (lit "Architecture")) = g.tag →
      PackageGroup.lookup (Repo.group (Repo.Add E r disk debPath).repo g)
        (field para (lit "Package")) (field para (lit "Version")) =
          some (Repo.record E r disk1 debPath para) ∧
      ∀ g', g' ≠ g → Repo.group (Repo.Add E r disk debPath).repo g' = Repo.group r g') ∧
    ((∀ g : Repo.Group, ToLower E (field para (lit "Architecture")) ≠ g.tag) →
      (Repo.Add E r disk debPath).err = some .unsupportedArch ∧
      (Repo.Add E r disk debPath).repo = r) := by
  constructor
  · intro g hg
    have hc := classify_tag E _ g hg
    constructor
    · rw [Add_group E r disk debPath para disk1 g hx hv hn ha hio hc g, group_setGroup_self,
        lookup_insert_self]
    · intro g' hne
      rw [Add_group E r disk debPath para disk1 g hx hv hn ha hio hc g',
        group_setGroup_other r g g' _ hne]
  · intro hall
    have hc := classify_none E _ hall
    rw [Add_of_extracts E r disk debPath para disk1 hx,
      ingest_of_copy E r disk1 debPath para hv hn ha hio, hc]
    exact ⟨rfl, rfl⟩

set_option maxRecDepth 100000 in
/-- C6, at a concrete input: the package `foo` 1.0 for `amd64` added to the
sample repository. -/
theorem add_classifies_architecture_witness :
    (∀ g : Repo.Group,
      ToLower (sampleEnv [samplePara (lit "foo") (lit "1.0") (lit "amd64")])
        (field (samplePara (lit "foo") (lit "1.0") (lit "amd64")) (lit "Architecture")) = g.tag →
      PackageGroup.lookup
        (Repo.group (Repo.Add (sampleEnv [samplePara (lit "foo") (lit "1.0") (lit "amd64")])
          sampleRepo sampleDisk (lit "tmp/x.deb")).repo g)
        (field (samplePara (lit "foo") (lit "1.0") (lit "amd64")) (lit "Package"))
        (field (samplePara (lit "foo") (lit "1.0") (lit "amd64")) (lit "Version")) =
          some (Repo.record (sampleEnv [samplePara (lit "foo") (lit "1.0") (lit "amd64")])
            sampleRepo sampleDisk (lit "tmp/x.deb")
            (samplePara (lit "foo") (lit "1.0") (lit "amd64"))) ∧
      ∀ g', g' ≠ g →
        Repo.group (Repo.Add (sampleEnv [samplePara (lit "foo") (lit "1.0") (lit "amd64")])
          sampleRepo sampleDisk (lit "tmp/x.deb")).repo g' = Repo.group sampleRepo g') ∧
    ((∀ g : Repo.Group,
      ToLower (sampleEnv [samplePara (lit "foo") (lit "1.0") (lit "amd64")])
        (field (samplePara (lit "foo") (lit "1.0") (lit "amd64")) (lit "Architecture")) ≠ g.tag) →
      (Repo.Add (sampleEnv [samplePara (lit "foo") (lit "1.0") (lit "amd64")])
        sampleRepo sampleDisk (lit "tmp/x.deb")).err = some .unsupportedArch ∧
      (Repo.Add (sampleEnv [samplePara (lit "foo") (lit "1.0") (lit "amd64")])
        sampleRepo sampleDisk (lit "tmp/x.deb")).repo = sampleRepo) :=
  add_classifies_architecture (sampleEnv [samplePara (lit "foo") (lit "1.0") (lit "amd64")])
    sampleRepo sampleDisk (lit "tmp/x.deb") (samplePara (lit "foo") (lit "1.0") (lit "amd64"))
    sampleDisk sample_extracts_amd64 (by decide) (by decide) (by decide) sample_copy_amd64

/-- C8: when `Add` has extracted the control data `info`, it gets past the
control validation exactly when `info` is one paragraph whose `Version`,
`Package` and `Architecture` fields are not empty. Otherwise it returns the
error of the first check that fails (paragraph count, version, package
name, architecture) and leaves the repository and the disk as they were
when the control data was read: nothing is stored under a default value. -/
theorem add_validates_control (E : Env) (r : Repo) (disk : Disk) (debPath : GoString)
    (info : List (GoMap GoString)) (disk1 : Disk)
    (hx : Repo.Extracts E r disk debPath info disk1) :
    ((∃ para, info = [para] ∧ field para (lit "Version") ≠ [] ∧
        field para (lit "Package") ≠ [] ∧ field para (lit "Architecture") ≠ []) ↔
      ¬ validationError (Repo.Add E r disk debPath).err) ∧
    (info.length ≠ 1 → Repo.Add E r disk debPath = ⟨some .paragraphs, r, disk1⟩) ∧
    (∀ para, info = [para] → field para (lit "Version") = [] →
      Repo.Add E r disk debPath = ⟨some .noVersion, r, disk1⟩) ∧
    (∀ para, info = [para] → field para (lit "Version") ≠ [] →
      field para (lit "Package") = [] →
      Repo.Add E r disk debPath = ⟨some .noPackage, r, disk1⟩) ∧
    (∀ para, info = [para] → field para (lit "Version") ≠ [] →
      field para (lit "Package") ≠ [] → field para (lit "Architecture") = [] →
      Repo.Add E r disk debPath = ⟨some .noArchitecture, r, disk1⟩) := by
  have hcount : info.length ≠ 1 → Repo.Add E r disk debPath = ⟨some .paragraphs, r, disk1⟩ :=
    Add_of_extracts_count E r disk debPath info disk1 hx
  have hone : ∀ para, info = [para] →
      Repo.Add E r disk debPath = Repo.ingest E r disk1 debPath para := by
    intro para hi
    subst hi
    exact Add_of_extracts E r disk debPath para disk1 hx
  refine ⟨⟨?_, ?_⟩, hcount, ?_, ?_, ?_⟩
  · rintro ⟨para, hi, hv, hn, ha⟩
    rw [hone para hi]
    exact ingest_not_validationError E r disk1 debPath para hv hn ha
  · intro hnot
    by_cases hlen : info.length = 1
    · match info, hlen with
      | [para], _ =>
        refine ⟨para, rfl, ?_, ?_, ?_⟩
        · intro hv
          apply hnot
          rw [hone para rfl, (ingest_validation E r disk1 debPath para).1 hv]
          exact Or.inr (Or.inl rfl)
        · intro hn
          by_cases hv : field para (lit "Version") = []
          · apply hnot
            rw [hone para rfl, (ingest_validation E r disk1 debPath para).1 hv]
            exact Or.inr (Or.inl rfl)
          · apply hnot
            rw [hone para rfl, (ingest_validation E r disk1 debPath para).2.1 hv hn]
            exact Or.inr (Or.inr (Or.inl rfl))
        · intro ha
          by_cases hv : field para (lit "Version") = []
          · apply hnot
            rw [hone para rfl, (ingest_validation E r disk1 debPath para).1 hv]
            exact Or.inr (Or.inl rfl)
          · by_cases hn : field para (lit "Package") = []
            · apply hnot
              rw [hone para rfl, (ingest_validation E r disk1 debPath para).2.1 hv hn]
              exact Or.inr (Or.inr (Or.inl rfl))
            · apply hnot
              rw [hone para rfl, (ingest_validation E r disk1 debPath para).2.2 hv hn ha]
              exact Or.inr (Or.inr (Or.inr rfl))
    · exfalso
      apply hnot
      rw [hcount hlen]
      exact Or.inl rfl
  · intro para hi hv
    rw [hone para hi, (ingest_validation E r disk1 debPath para).1 hv]
  · intro para hi hv hn
    rw [hone para hi, (ingest_validation E r disk1 debPath para).2.1 hv hn]
  · intro para hi hv hn ha
    rw [hone para hi, (ingest_validation E r disk1 debPath para).2.2 hv hn ha]

set_option maxRecDepth 100000 in
/-- C8, at a concrete input: the control data of the sample package is one
paragraph with the three fields, and `Add` gets past the validation. -/
theorem add_validates_control_witness :
    Repo.Extracts (sampleEnv [samplePara (lit "foo") (lit "1.0") (lit "amd64")]) sampleRepo
      sampleDisk (lit "tmp/x.deb") [samplePara (lit "foo") (lit "1.0") (lit "amd64")]
      sampleDisk ∧
    ¬ validationError
      (Repo.Add (sampleEnv [samplePara (lit "foo") (lit "1.0") (lit "amd64")]) sampleRepo
        sampleDisk (lit "tmp/x.deb")).err :=
  ⟨sample_extracts_amd64,
    (add_validates_control (sampleEnv [samplePara (lit "foo") (lit "1.0") (lit "amd64")])
      sampleRepo sampleDisk (lit "tmp/x.deb")
      [samplePara (lit "foo") (lit "1.0") (lit "amd64")] sampleDisk sample_extracts_amd64).1.1
      ⟨samplePara (lit "foo") (lit "1.0") (lit "amd64"), rfl, by decide, by decide, by decide⟩⟩

/-- C9: when `Add` has extracted the control paragraph, its three fields are
not empty, the pool copy goes through and the architecture selects the
group `g`, then after the call, whether or not the `Save` that ends it
succeeds, the triple (`g`, name, version) maps to the record built from
this package, and every other triple maps to what it mapped to before. -/
theorem add_inserts_record (E : Env) (r : Repo) (disk : Disk) (debPath : GoString)
    (para : GoMap GoString) (disk1 : Disk) (g : Repo.Group)
    (hx : Repo.Extracts E r disk debPath [para] disk1)
    (hv : field para (lit "Version") ≠ []) (hn : field para (lit "Package") ≠ [])
    (ha : field para (lit "Architecture") ≠ [])
    (hio : Repo.PoolCopyOk E r disk1 debPath para)
    (hg : Repo.classify E (field para (lit "Architecture")) = some g) :
    PackageGroup.lookup (Repo.group (Repo.Add E r disk debPath).repo g)
      (field para (lit "Package")) (field para (lit "Version")) =
        some (Repo.record E r disk1 debPath para) ∧
    ∀ (g' : Repo.Group) (n v : GoString),
      ¬ (g' = g ∧ n = field para (lit "Package") ∧ v = field para (lit "Version")) →
      PackageGroup.lookup (Repo.group (Repo.Add E r disk debPath).repo g') n v =
        PackageGroup.lookup (Repo.group r g') n v := by
  constructor
  · rw [Add_group E r disk debPath para disk1 g hx hv hn ha hio hg g, group_setGroup_self,
      lookup_insert_self]
  · intro g' n v hne
    rw [Add_group E r disk debPath para disk1 g hx hv hn ha hio hg g']
    by_cases hgg : g' = g
    · subst hgg
      rw [group_setGroup_self, lookup_insert_other _ _ _ _ _ _ (fun h => hne ⟨rfl, h.1, h.2⟩)]
    · rw [group_setGroup_other r g g' _ hgg]

set_option maxRecDepth 100000 in
/-- C9, at a concrete input: the package `foo` 1.0 for `amd64` added to the
sample repository. -/
theorem add_inserts_record_witness :
    PackageGroup.lookup
      (Repo.group (Repo.Add (sampleEnv [samplePara (lit "foo") (lit "1.0") (lit "amd64")])
        sampleRepo sampleDisk (lit "tmp/x.deb")).repo .amd64)
      (field (samplePara (lit "foo") (lit "1.0") (lit "amd64")) (lit "Package"))
      (field (samplePara (lit "foo") (lit "1.0") (lit "amd64")) (lit "Version")) =
        some (Repo.record (sampleEnv [samplePara (lit "foo") (lit "1.0") (lit "amd64")])
          sampleRepo sampleDisk (lit "tmp/x.deb")
          (samplePara (lit "foo") (lit "1.0") (lit "amd64"))) ∧
    ∀ (g' : Repo.Group) (n v : GoString),
      ¬ (g' = .amd64 ∧
        n = field (samplePara (lit "foo") (lit "1.0") (lit "amd64")) (lit "Package") ∧
        v = field (samplePara (lit "foo") (lit "1.0") (lit "amd64")) (lit "Version")) →
      PackageGroup.lookup
        (Repo.group (Repo.Add (sampleEnv [samplePara (lit "foo") (lit "1.0") (lit "amd64")])
          sampleRepo sampleDisk (lit "tmp/x.deb")).repo g') n v =
        PackageGroup.lookup (Repo.group sampleRepo g') n v :=
  add_inserts_record (sampleEnv [samplePara (lit "foo") (lit "1.0") (lit "amd64")])
    sampleRepo sampleDisk (lit "tmp/x.deb") (samplePara (lit "foo") (lit "1.0") (lit "amd64"))
    sampleDisk .amd64 sample_extracts_amd64 (by decide) (by decide) (by decide)
    sample_copy_amd64 (by decide)

/-! ## Removal -/

theorem remove_get_other (pg : PackageGroup) (name version n : GoString) (hn : n ≠ name) :
    GoMap.get (PackageGroup.remove pg name version) n = GoMap.get pg n := by
  unfold PackageGroup.remove
  cases hg : GoMap.get pg name with
  | none => rfl
  | some set =>
    simp only
    split
    · rw [GoMap.get_delete_other _ _ _ hn, GoMap.get_set_other _ _ _ _ hn]
    · rw [GoMap.get_set_other _ _ _ _ hn]

theorem lookup_remove_other (pg : PackageGroup) (name version n v : GoString)
    (h : ¬ (n = name ∧ v = version)) :
    PackageGroup.lookup (PackageGroup.remove pg name version) n v =
      PackageGroup.lookup pg n v := by
  by_cases hn : n = name
  · subst hn
    have hv : v ≠ version := fun e => h ⟨rfl, e⟩
    unfold PackageGroup.lookup PackageGroup.remove
    cases hg : GoMap.get pg n with
    | none => simp [hg]
    | some set =>
      simp only
      split
      · rename_i hlen
        rw [GoMap.get_delete_self]
        have := (GoMap.len_eq_zero_iff _).1 hlen v
        rw [GoMap.get_delete_other _ _ _ hv] at this
        simp [this]
      · rw [GoMap.get_set_self]
        simp [GoMap.get_delete_other _ _ _ hv]
  · unfold PackageGroup.lookup
    rw [remove_get_other pg name version n hn]

theorem removeGroup_tag (g : Repo.Group) : Repo.removeGroup g.tag = some g := by
  cases g <;> decide

theorem removeGroup_none (arch : GoString) (h : ∀ g : Repo.Group, arch ≠ g.tag) :
    Repo.removeGroup arch = none := by
  have h1 := h .i386
  have h2 := h .amd64
  have h3 := h .source
  simp only [Repo.Group.tag] at h1 h2 h3
  simp [Repo.removeGroup, h1, h2, h3]

theorem Remove_repo (E : Env) (r : Repo) (disk : Disk) (name version : GoString)
    (g : Repo.Group) :
    (Repo.Remove E r disk name version g.tag).repo =
      Repo.setGroup r g (PackageGroup.remove (Repo.group r g) name version) := by
  unfold Repo.Remove
  rw [removeGroup_tag]
  simp only
  split
  · rfl
  · split <;> rfl

theorem setGroup_frame (r : Repo) (g : Repo.Group) (pg : PackageGroup) :
    (Repo.setGroup r g pg).Name = r.Name ∧ (Repo.setGroup r g pg).Config = r.Config ∧
      (Repo.setGroup r g pg).Files = r.Files := by
  cases g <;> exact ⟨rfl, rfl, rfl⟩

/-- C10: `Remove(name, version, arch)` with `arch` the tag of a group
(`i386`, `amd64`, `source`) leaves every record at another (group, name,
version) triple as it was, leaves the two other groups untouched, and
leaves the name, the configuration and the file-digest registry of the
repository as they were; with any other `arch` it returns no error and
leaves the repository and the disk as they were. -/
theorem remove_changes_only_its_triple (E : Env) (r : Repo) (disk : Disk)
    (name version arch : GoString) :
    (∀ g : Repo.Group, arch = g.tag →
      (∀ (g' : Repo.Group) (n v : GoString), ¬ (g' = g ∧ n = name ∧ v = version) →
        PackageGroup.lookup (Repo.group (Repo.Remove E r disk name version arch).repo g') n v =
          PackageGroup.lookup (Repo.group r g') n v) ∧
      (∀ g', g' ≠ g →
        Repo.group (Repo.Remove E r disk name version arch).repo g' = Repo.group r g') ∧
      (Repo.Remove E r disk name version arch).repo.Name = r.Name ∧
      (Repo.Remove E r disk name version arch).repo.Config = r.Config ∧
      (Repo.Remove E r disk name version arch).repo.Files = r.Files) ∧
    ((∀ g : Repo.Group, arch ≠ g.tag) →
      Repo.Remove E r disk name version arch = ⟨none, r, disk⟩) := by
  constructor
  · intro g hg
    subst hg
    rw [Remove_repo]
    refine ⟨?_, ?_, (setGroup_frame r g _).1, (setGroup_frame r g _).2.1,
      (setGroup_frame r g _).2.2⟩
    · intro g' n v hne
      by_cases hgg : g' = g
      · subst hgg
        rw [group_setGroup_self,
          lookup_remove_other _ _ _ _ _ (fun h => hne ⟨rfl, h.1, h.2⟩)]
      · rw [group_setGroup_other r g g' _ hgg]
    · intro g' hne
      exact group_setGroup_other r g g' _ hne
  · intro hall
    unfold Repo.Remove
    rw [removeGroup_none arch hall]

/-! ## Index pruning -/

/-- C3: `PackageGroup.remove(name, version)` drops the name's entry when no
other version is left under it, otherwise leaves the name mapped to its
previous versions without the removed one; a name that had no entry gets
none, every other name keeps its entry, and if no name maps to an empty
version map before the call then none does after it. -/
theorem remove_prunes (pg : PackageGroup) (name version : GoString) :
    (∀ set, GoMap.get pg name = some set →
      ((∀ v, v ≠ version → GoMap.get set v = none) →
        GoMap.get (PackageGroup.remove pg name version) name = none) ∧
      ((∃ v, v ≠ version ∧ GoMap.get set v ≠ none) →
        ∃ set', GoMap.get (PackageGroup.remove pg name version) name = some set' ∧
          ∀ v, GoMap.get set' v = if v = version then none else GoMap.get set v)) ∧
    (GoMap.get pg name = none →
      GoMap.get (PackageGroup.remove pg name version) name = none) ∧
    (∀ n, n ≠ name →
      GoMap.get (PackageGroup.remove pg name version) n = GoMap.get pg n) ∧
    ((∀ n s, GoMap.get pg n = some s → GoMap.len s ≠ 0) →
      ∀ n s, GoMap.get (PackageGroup.remove pg name version) n = some s →
        GoMap.len s ≠ 0) := by
  have hother : ∀ n, n ≠ name →
      GoMap.get (PackageGroup.remove pg name version) n = GoMap.get pg n := by
    intro n hn
    unfold PackageGroup.remove
    cases hg : GoMap.get pg name with
    | none => rfl
    | some set =>
      simp only
      split
      · rw [GoMap.get_delete_other _ _ _ hn, GoMap.get_set_other _ _ _ _ hn]
      · rw [GoMap.get_set_other _ _ _ _ hn]
  refine ⟨?_, ?_, hother, ?_⟩
  · intro set hg
    constructor
    · intro hall
      unfold PackageGroup.remove
      simp only [hg]
      have hlen : GoMap.len (GoMap.delete set version) = 0 := by
        rw [GoMap.len_eq_zero_iff]
        intro k
        rw [GoMap.get_delete]
        by_cases hk : k = version
        · simp [hk]
        · simp [hk, hall k hk]
      simp only [hlen, if_true]
      exact GoMap.get_delete_self _ _
    · rintro ⟨v, hv, hsome⟩
      unfold PackageGroup.remove
      simp only [hg]
      have hlen : GoMap.len (GoMap.delete set version) ≠ 0 := by
        rw [Ne, GoMap.len_eq_zero_iff]
        intro hall
        have := hall v
        rw [GoMap.get_delete_other _ _ _ hv] at this
        exact hsome this
      simp only [hlen, if_false]
      exact ⟨_, GoMap.get_set_self _ _ _, fun w => GoMap.get_delete _ _ _⟩
  · intro hg
    unfold PackageGroup.remove
    simp only [hg]
  · intro hinv n s hs
    by_cases hn : n = name
    · subst hn
      unfold PackageGroup.remove at hs
      cases hg : GoMap.get pg n with
      | none =>
        simp only [hg] at hs
        cases hs
      | some set =>
        simp only [hg] at hs
        split at hs
        · rw [GoMap.get_delete_self] at hs
          cases hs
        · rename_i hlen
          rw [GoMap.get_set_self] at hs
          cases hs
          exact hlen
    · rw [hother n hn] at hs
      exact hinv n s hs

/-! ## Repeated removal -/

theorem delete_of_get_none {V : Type} (m : GoMap V) (k : GoString)
    (h : GoMap.get m k = none) : GoMap.delete m k = m := by
  induction m with
  | nil => rfl
  | cons e t ih =>
    obtain ⟨k0, v0⟩ := e
    by_cases h0 : k0 = k
    · simp [GoMap.get, h0] at h
    · simp only [GoMap.get, h0, if_false] at h
      simp [GoMap.delete, h0, ih h]

theorem delete_delete {V : Type} (m : GoMap V) (k : GoString) :
    GoMap.delete (GoMap.delete m k) k = GoMap.delete m k :=
  delete_of_get_none _ k (GoMap.get_delete_self m k)

theorem set_of_get {V : Type} (m : GoMap V) (k : GoString) (v : V)
    (h : GoMap.get m k = some v) : GoMap.set m k v = m := by
  induction m with
  | nil => simp [GoMap.get] at h
  | cons e t ih =>
    obtain ⟨k0, v0⟩ := e
    by_cases h0 : k0 = k
    · subst h0
      simp only [GoMap.get, if_true, Option.some.injEq] at h
      simp [GoMap.set, h]
    · simp only [GoMap.get, h0, if_false] at h
      simp [GoMap.set, h0, ih h]

/-- Removing the same (name, version) pair a second time changes nothing. -/
theorem remove_remove (pg : PackageGroup) (name version : GoString) :
    PackageGroup.remove (PackageGroup.remove pg name version) name version =
      PackageGroup.remove pg name version := by
  cases hg : GoMap.get pg name with
  | none =>
    have h1 : PackageGroup.remove pg name version = pg := by
      unfold PackageGroup.remove
      rw [hg]
    rw [h1, h1]
  | some set =>
    by_cases hlen : GoMap.len (GoMap.delete set version) = 0
    · have h1 : PackageGroup.remove pg name version =
          GoMap.delete (GoMap.set pg name (GoMap.delete set version)) name := by
        unfold PackageGroup.remove
        rw [hg]
        simp only [hlen, if_true]
      rw [h1]
      unfold PackageGroup.remove
      rw [GoMap.get_delete_self]
    · have h1 : PackageGroup.remove pg name version =
          GoMap.set pg name (GoMap.delete set version) := by
        unfold PackageGroup.remove
        rw [hg]
        simp only [hlen, if_false]
      rw [h1]
      unfold PackageGroup.remove
      rw [GoMap.get_set_self]
      simp only [delete_delete, hlen, if_false]
      exact set_of_get _ _ _ (GoMap.get_set_self _ _ _)

theorem setGroup_setGroup (r : Repo) (g : Repo.Group) (pg pg' : PackageGroup) :
    Repo.setGroup (Repo.setGroup r g pg) g pg' = Repo.setGroup r g pg' := by
  cases g <;> rfl

theorem removePath_setGroup (E : Env) (r : Repo) (g : Repo.Group) (pg : PackageGroup)
    (name version arch : GoString) :
    Repo.removePath E (Repo.setGroup r g pg) name version arch =
      Repo.removePath E r name version arch := by
  cases g <;> rfl

/-- C11: for every name the handler `remove` passes on, which is never
the empty one, every version and every architecture, when `os.Remove`
reports no error other than "does not exist" for the pool path, `Remove`
returns no error; if there is no pool file at that path the disk is left as
it was; and a second `Remove` with the same arguments, run on what the
first one left, returns the same outcome: the same index and the same
disk. -/
theorem remove_twice (E : Env) (r : Repo) (disk : Disk) (name version arch : GoString)
    (hname : name ≠ [])
    (hrm : E.fails .remove (Repo.removePath E r name version arch) = false) :
    (Repo.Remove E r disk name version arch).err = none ∧
    (GoMap.get disk (Repo.removePath E r name version arch) = none →
      (Repo.Remove E r disk name version arch).disk = disk) ∧
    Repo.Remove E (Repo.Remove E r disk name version arch).repo
        (Repo.Remove E r disk name version arch).disk name version arch =
      Repo.Remove E r disk name version arch := by
  cases hg : Repo.removeGroup arch with
  | none =>
    have h1 : Repo.Remove E r disk name version arch = ⟨none, r, disk⟩ := by
      unfold Repo.Remove
      rw [hg]
    rw [h1]
    exact ⟨rfl, fun _ => rfl, h1⟩
  | some g =>
    have h1 : Repo.Remove E r disk name version arch =
        ⟨none, Repo.setGroup r g (PackageGroup.remove (Repo.group r g) name version),
          GoMap.delete disk (Repo.removePath E r name version arch)⟩ := by
      unfold Repo.Remove
      rw [hg]
      simp only [hname, hrm, if_false, Bool.false_eq_true]
    rw [h1]
    refine ⟨rfl, fun h => delete_of_get_none _ _ h, ?_⟩
    simp only
    unfold Repo.Remove
    rw [hg]
    simp only [hname, removePath_setGroup, hrm, if_false, Bool.false_eq_true,
      group_setGroup_self, remove_remove, setGroup_setGroup, delete_delete]

set_option maxRecDepth 100000 in
/-- C11, at a concrete input: `foo` 1.0 for `amd64` removed from the sample
repository, which has no pool file for it. -/
theorem remove_twice_witness :
    (Repo.Remove (sampleEnv []) sampleRepo sampleDisk (lit "foo") (lit "1.0") (lit "amd64")).err =
      none ∧
    (GoMap.get sampleDisk
        (Repo.removePath (sampleEnv []) sampleRepo (lit "foo") (lit "1.0") (lit "amd64")) = none →
      (Repo.Remove (sampleEnv []) sampleRepo sampleDisk (lit "foo") (lit "1.0")
        (lit "amd64")).disk = sampleDisk) ∧
    Repo.Remove (sampleEnv [])
        (Repo.Remove (sampleEnv []) sampleRepo sampleDisk (lit "foo") (lit "1.0")
          (lit "amd64")).repo
        (Repo.Remove (sampleEnv []) sampleRepo sampleDisk (lit "foo") (lit "1.0")
          (lit "amd64")).disk (lit "foo") (lit "1.0") (lit "amd64") =
      Repo.Remove (sampleEnv []) sampleRepo sampleDisk (lit "foo") (lit "1.0") (lit "amd64") :=
  remove_twice (sampleEnv []) sampleRepo sampleDisk (lit "foo") (lit "1.0") (lit "amd64")
    (by decide) (by decide)

/-! ## Package listing -/

theorem get_empty {V : Type} (k : GoString) : GoMap.get (GoMap.empty : GoMap V) k = none := rfl

theorem inner_get (d : PackageDetails) (name v : GoString) :
    GoMap.get ((GoMap.get d name).getD GoMap.empty) v =
      (GoMap.get d name).bind fun vs => GoMap.get vs v := by
  cases GoMap.get d name with
  | none => rfl
  | some m => rfl

theorem tags_note (d : PackageDetails) (g name version n v : GoString) :
    PackageDetails.tags (PackageDetails.note d g name version) n v =
      if n = name ∧ v = version then PackageDetails.tags d n v ++ [g]
      else PackageDetails.tags d n v := by
  unfold PackageDetails.tags PackageDetails.note
  by_cases hn : n = name
  · subst hn
    rw [GoMap.get_set_self]
    by_cases hv : v = version
    · subst hv
      simp only [Option.some_bind, GoMap.get_set_self, Option.getD_some, and_self, if_true,
        inner_get]
    · simp only [Option.some_bind, GoMap.get_set_other _ _ _ _ hv, hv, and_false, if_false,
        inner_get]
  · rw [GoMap.get_set_other _ _ _ _ hn]
    simp [hn]

theorem has_note (d : PackageDetails) (g name version n : GoString) :
    (GoMap.get (PackageDetails.note d g name version) n).isSome ↔
      (n = name ∨ (GoMap.get d n).isSome) := by
  unfold PackageDetails.note
  exact isSome_get_set _ _ _ _ _

theorem hasVersion_note (d : PackageDetails) (g name version n v : GoString) :
    PackageDetails.hasVersion (PackageDetails.note d g name version) n v = true ↔
      ((n = name ∧ v = version) ∨ PackageDetails.hasVersion d n v = true) := by
  unfold PackageDetails.hasVersion PackageDetails.note
  by_cases hn : n = name
  · subst hn
    rw [GoMap.get_set_self]
    by_cases hv : v = version
    · subst hv
      simp [GoMap.get_set_self]
    · simp only [Option.some_bind, GoMap.get_set_other _ _ _ _ hv, hv, and_false, false_or,
        inner_get]
  · rw [GoMap.get_set_other _ _ _ _ hn]
    simp [hn]

theorem tags_foldl_note (g name : GoString) (vs : List GoString) (d : PackageDetails)
    (n v : GoString) :
    PackageDetails.tags
        (vs.foldl (fun acc version => PackageDetails.note acc g name version) d) n v =
      PackageDetails.tags d n v ++
        List.replicate (if n = name then List.count v vs else 0) g := by
  induction vs generalizing d with
  | nil => simp
  | cons x t ih =>
    rw [List.foldl_cons, ih, tags_note]
    by_cases hn : n = name
    · by_cases hv : v = x
      · subst hv
        simp only [hn, and_self, if_true, List.count_cons_self, List.append_assoc]
        rw [Nat.add_comm, List.replicate_add]
        rfl
      · have hx : (x == v) = false := by simpa using fun e : x = v => hv e.symm
        simp [hn, hv, List.count_cons, hx]
    · simp [hn]

theorem has_foldl_note (g name : GoString) (vs : List GoString) (d : PackageDetails)
    (n : GoString) :
    (GoMap.get (vs.foldl (fun acc version => PackageDetails.note acc g name version) d)
        n).isSome ↔ ((n = name ∧ vs ≠ []) ∨ (GoMap.get d n).isSome) := by
  induction vs generalizing d with
  | nil => simp
  | cons x t ih =>
    rw [List.foldl_cons, ih, has_note]
    constructor
    · rintro (⟨h, _⟩ | h | h)
      · exact Or.inl ⟨h, by simp⟩
      · exact Or.inl ⟨h, by simp⟩
      · exact Or.inr h
    · rintro (⟨h, _⟩ | h)
      · exact Or.inr (Or.inl h)
      · exact Or.inr (Or.inr h)

theorem hasVersion_foldl_note (g name : GoString) (vs : List GoString) (d : PackageDetails)
    (n v : GoString) :
    PackageDetails.hasVersion
        (vs.foldl (fun acc version => PackageDetails.note acc g name version) d) n v = true ↔
      ((n = name ∧ v ∈ vs) ∨ PackageDetails.hasVersion d n v = true) := by
  induction vs generalizing d with
  | nil => simp
  | cons x t ih =>
    rw [List.foldl_cons, ih, hasVersion_note]
    simp only [List.mem_cons]
    tauto

theorem tags_ensure (d : PackageDetails) (name n v : GoString) :
    PackageDetails.tags
        (if (GoMap.get d name).isSome then d else GoMap.set d name GoMap.empty) n v =
      PackageDetails.tags d n v := by
  by_cases h : (GoMap.get d name).isSome = true
  · rw [if_pos h]
  · rw [if_neg h]
    have hnone : GoMap.get d name = none := by
      cases hg : GoMap.get d name with
      | none => rfl
      | some x => simp [hg] at h
    unfold PackageDetails.tags
    by_cases hn : n = name
    · subst hn
      rw [GoMap.get_set_self, hnone]
      rfl
    · rw [GoMap.get_set_other _ _ _ _ hn]

theorem hasVersion_ensure (d : PackageDetails) (name n v : GoString) :
    PackageDetails.hasVersion
        (if (GoMap.get d name).isSome then d else GoMap.set d name GoMap.empty) n v =
      PackageDetails.hasVersion d n v := by
  by_cases h : (GoMap.get d name).isSome = true
  · rw [if_pos h]
  · rw [if_neg h]
    have hnone : GoMap.get d name = none := by
      cases hg : GoMap.get d name with
      | none => rfl
      | some x => simp [hg] at h
    unfold PackageDetails.hasVersion
    by_cases hn : n = name
    · subst hn
      rw [GoMap.get_set_self, hnone]
      rfl
    · rw [GoMap.get_set_other _ _ _ _ hn]

theorem has_ensure (d : PackageDetails) (name n : GoString) :
    (GoMap.get (if (GoMap.get d name).isSome then d else GoMap.set d name GoMap.empty)
        n).isSome ↔ (n = name ∨ (GoMap.get d n).isSome) := by
  by_cases h : (GoMap.get d name).isSome = true
  · rw [if_pos h]
    constructor
    · exact Or.inr
    · rintro (hn | hn)
      · rw [hn]; exact h
      · exact hn
  · rw [if_neg h]
    exact isSome_get_set _ _ _ _ _

theorem tags_packagesOf (pg : PackageGroup) (g : GoString) (d : PackageDetails)
    (name n v : GoString) :
    PackageDetails.tags (PackageGroup.packagesOf pg g d name) n v =
      PackageDetails.tags d n v ++
        List.replicate
          (if n = name then List.count v (GoMap.keys ((GoMap.get pg name).getD GoMap.empty))
            else 0) g := by
  unfold PackageGroup.packagesOf
  rw [tags_foldl_note, tags_ensure]

theorem has_packagesOf (pg : PackageGroup) (g : GoString) (d : PackageDetails)
    (name n : GoString) :
    (GoMap.get (PackageGroup.packagesOf pg g d name) n).isSome ↔
      (n = name ∨ (GoMap.get d n).isSome) := by
  unfold PackageGroup.packagesOf
  rw [has_foldl_note, has_ensure]
  tauto

theorem hasVersion_packagesOf (pg : PackageGroup) (g : GoString) (d : PackageDetails)
    (name n v : GoString) :
    PackageDetails.hasVersion (PackageGroup.packagesOf pg g d name) n v = true ↔
      ((n = name ∧ v ∈ GoMap.keys ((GoMap.get pg name).getD GoMap.empty)) ∨
        PackageDetails.hasVersion d n v = true) := by
  unfold PackageGroup.packagesOf
  rw [hasVersion_foldl_note, hasVersion_ensure]

theorem tags_foldl_packagesOf (pg : PackageGroup) (g : GoString) (ns : List GoString)
    (d : PackageDetails) (n v : GoString) :
    PackageDetails.tags (ns.foldl (PackageGroup.packagesOf pg g) d) n v =
      PackageDetails.tags d n v ++
        List.replicate
          (List.count n ns *
            List.count v (GoMap.keys ((GoMap.get pg n).getD GoMap.empty))) g := by
  induction ns generalizing d with
  | nil => simp
  | cons x t ih =>
    rw [List.foldl_cons, ih, tags_packagesOf]
    by_cases hn : n = x
    · subst hn
      simp only [if_true, List.count_cons_self, List.append_assoc, Nat.add_mul, Nat.one_mul]
      rw [Nat.add_comm, List.replicate_add]
    · have hx : (x == n) = false := by simpa using fun e : x = n => hn e.symm
      simp [hn, List.count_cons, hx]

theorem has_foldl_packagesOf (pg : PackageGroup) (g : GoString) (ns : List GoString)
    (d : PackageDetails) (n : GoString) :
    (GoMap.get (ns.foldl (PackageGroup.packagesOf pg g) d) n).isSome ↔
      (n ∈ ns ∨ (GoMap.get d n).isSome) := by
  induction ns generalizing d with
  | nil => simp
  | cons x t ih =>
    rw [List.foldl_cons, ih, has_packagesOf]
    simp only [List.mem_cons]
    tauto

theorem hasVersion_foldl_packagesOf (pg : PackageGroup) (g : GoString) (ns : List GoString)
    (d : PackageDetails) (n v : GoString) :
    PackageDetails.hasVersion (ns.foldl (PackageGroup.packagesOf pg g) d) n v = true ↔
      ((n ∈ ns ∧ v ∈ GoMap.keys ((GoMap.get pg n).getD GoMap.empty)) ∨
        PackageDetails.hasVersion d n v = true) := by
  induction ns generalizing d with
  | nil => simp
  | cons x t ih =>
    rw [List.foldl_cons, ih, hasVersion_packagesOf]
    simp only [List.mem_cons]
    constructor
    · rintro (h | ⟨h1, h2⟩ | h)
      · exact Or.inl ⟨Or.inr h.1, h.2⟩
      · subst h1; exact Or.inl ⟨Or.inl rfl, h2⟩
      · exact Or.inr h
    · rintro (⟨h1 | h1, h2⟩ | h)
      · subst h1; exact Or.inr (Or.inl ⟨rfl, h2⟩)
      · exact Or.inl ⟨h1, h2⟩
      · exact Or.inr (Or.inr h)

theorem mem_keys_iff {V : Type} (m : GoMap V) (k : GoString) :
    k ∈ GoMap.keys m ↔ (GoMap.get m k).isSome = true := by
  induction m with
  | nil => simp [GoMap.keys, GoMap.get]
  | cons e t ih =>
    obtain ⟨k0, v0⟩ := e
    by_cases h : k0 = k
    · subst h
      simp [GoMap.keys, GoMap.get]
    · have h' : k ≠ k0 := fun e => h e.symm
      have ih' : k ∈ List.map Prod.fst t ↔ (GoMap.get t k).isSome = true := ih
      simp [GoMap.keys, GoMap.get, h, h', ih']

theorem mem_keys_lookup (pg : PackageGroup) (n v : GoString) :
    (n ∈ GoMap.keys pg ∧ v ∈ GoMap.keys ((GoMap.get pg n).getD GoMap.empty)) ↔
      (PackageGroup.lookup pg n v).isSome = true := by
  unfold PackageGroup.lookup
  rw [mem_keys_iff, mem_keys_iff]
  cases GoMap.get pg n with
  | none => simp
  | some set => simp

theorem count_pos_lookup (pg : PackageGroup) (n v : GoString) :
    0 < List.count n (GoMap.keys pg) *
        List.count v (GoMap.keys ((GoMap.get pg n).getD GoMap.empty)) ↔
      (PackageGroup.lookup pg n v).isSome = true := by
  rw [← mem_keys_lookup, Nat.pos_iff_ne_zero, Nat.mul_ne_zero_iff, ← Nat.pos_iff_ne_zero,
    ← Nat.pos_iff_ne_zero, List.count_pos_iff, List.count_pos_iff]

theorem tags_empty (n v : GoString) :
    PackageDetails.tags (GoMap.empty : PackageDetails) n v = [] := rfl

theorem hasVersion_empty (n v : GoString) :
    PackageDetails.hasVersion (GoMap.empty : PackageDetails) n v = false := rfl

theorem tags_ListPackages (r : Repo) (n v : GoString) :
    PackageDetails.tags (Repo.ListPackages r).1 n v =
      List.replicate
          (List.count n (GoMap.keys r.Packages.I386) *
            List.count v (GoMap.keys ((GoMap.get r.Packages.I386 n).getD GoMap.empty)))
          (lit "i386") ++
        List.replicate
          (List.count n (GoMap.keys r.Packages.Amd64) *
            List.count v (GoMap.keys ((GoMap.get r.Packages.Amd64 n).getD GoMap.empty)))
          (lit "amd64") ++
        List.replicate
          (List.count n (GoMap.keys r.Packages.Source) *
            List.count v (GoMap.keys ((GoMap.get r.Packages.Source n).getD GoMap.empty)))
          (lit "source") := by
  unfold Repo.ListPackages PackageGroup.packages
  simp only
  rw [tags_foldl_packagesOf, tags_foldl_packagesOf, tags_foldl_packagesOf, tags_empty]
  simp

theorem count_le_one_of_nodup (l : List GoString) (h : l.Nodup) (a : GoString) :
    List.count a l ≤ 1 := by
  induction l with
  | nil => simp
  | cons x t ih =>
    obtain ⟨hx, ht⟩ := List.nodup_cons.1 h
    by_cases hxa : x = a
    · subst hxa
      rw [List.count_cons_self, List.count_eq_zero_of_not_mem hx]
    · have hb : (x == a) = false := by simpa using hxa
      rw [List.count_cons, hb]
      simpa using ih ht

theorem count_le_one_of_wellFormed (pg : PackageGroup) (h : PackageGroup.wellFormed pg)
    (n v : GoString) :
    List.count n (GoMap.keys pg) *
      List.count v (GoMap.keys ((GoMap.get pg n).getD GoMap.empty)) ≤ 1 := by
  have h1 : List.count n (GoMap.keys pg) ≤ 1 := count_le_one_of_nodup _ h.1 n
  have h2 : List.count v (GoMap.keys ((GoMap.get pg n).getD GoMap.empty)) ≤ 1 := by
    cases hg : GoMap.get pg n with
    | none => simp [GoMap.empty, GoMap.keys]
    | some set => exact count_le_one_of_nodup _ (h.2 n set hg) v
  calc _ ≤ 1 * 1 := Nat.mul_le_mul h1 h2
    _ = 1 := rfl

theorem nodup_three (a b c : Nat) (ha : a ≤ 1) (hb : b ≤ 1) (hc : c ≤ 1) :
    (List.replicate a (lit "i386") ++ List.replicate b (lit "amd64") ++
      List.replicate c (lit "source")).Nodup := by
  have ha' : a = 0 ∨ a = 1 := by omega
  have hb' : b = 0 ∨ b = 1 := by omega
  have hc' : c = 0 ∨ c = 1 := by omega
  rcases ha' with h | h <;> rcases hb' with h' | h' <;> rcases hc' with h'' | h'' <;>
    subst h <;> subst h' <;> subst h'' <;> decide

/-- C12: in the listing `ListPackages` returns, the tag of a group is in
`result[name][version]` exactly when that group of the index holds the
(name, version) pair; no other string is in it; when the groups are
well-formed Go maps no tag is in it twice; a name is a key of the result
only if a group has that name, and a version is a key of `result[name]`
only if a group holds the (name, version) pair; and the repository is as
it was. -/
theorem listPackages_lists_groups (r : Repo) :
    (∀ (g : Repo.Group) (n v : GoString),
      g.tag ∈ PackageDetails.tags (Repo.ListPackages r).1 n v ↔
        (PackageGroup.lookup (Repo.group r g) n v).isSome = true) ∧
    (∀ (n v t : GoString), t ∈ PackageDetails.tags (Repo.ListPackages r).1 n v →
      ∃ g : Repo.Group, t = g.tag) ∧
    ((∀ g : Repo.Group, PackageGroup.wellFormed (Repo.group r g)) →
      ∀ n v : GoString, (PackageDetails.tags (Repo.ListPackages r).1 n v).Nodup) ∧
    (∀ n : GoString, (GoMap.get (Repo.ListPackages r).1 n).isSome = true →
      ∃ g : Repo.Group, (GoMap.get (Repo.group r g) n).isSome = true) ∧
    (∀ n v : GoString, PackageDetails.hasVersion (Repo.ListPackages r).1 n v = true →
      ∃ g : Repo.Group, (PackageGroup.lookup (Repo.group r g) n v).isSome = true) ∧
    (Repo.ListPackages r).2 = r := by
  refine ⟨?_, ?_, ?_, ?_, ?_, rfl⟩
  · intro g n v
    rw [tags_ListPackages]
    simp only [List.mem_append, List.mem_replicate]
    have d1 : lit "i386" ≠ lit "amd64" := by decide
    have d2 : lit "i386" ≠ lit "source" := by decide
    have d3 : lit "amd64" ≠ lit "source" := by decide
    cases g
    · simp only [Repo.Group.tag, Repo.group, d1, d2, and_false, or_false, and_true,
        ← Nat.pos_iff_ne_zero, count_pos_lookup]
    · simp only [Repo.Group.tag, Repo.group, d1.symm, d3, and_false, or_false, false_or,
        and_true, ← Nat.pos_iff_ne_zero, count_pos_lookup]
    · simp only [Repo.Group.tag, Repo.group, d2.symm, d3.symm, and_false, false_or,
        and_true, ← Nat.pos_iff_ne_zero, count_pos_lookup]
  · intro n v t ht
    rw [tags_ListPackages] at ht
    simp only [List.mem_append, List.mem_replicate] at ht
    rcases ht with (⟨_, h⟩ | ⟨_, h⟩) | ⟨_, h⟩
    · exact ⟨.i386, h⟩
    · exact ⟨.amd64, h⟩
    · exact ⟨.source, h⟩
  · intro hw n v
    rw [tags_ListPackages]
    exact nodup_three _ _ _ (count_le_one_of_wellFormed _ (hw .i386) n v)
      (count_le_one_of_wellFormed _ (hw .amd64) n v)
      (count_le_one_of_wellFormed _ (hw .source) n v)
  · intro n hn
    unfold Repo.ListPackages PackageGroup.packages at hn
    simp only at hn
    rw [has_foldl_packagesOf, has_foldl_packagesOf, has_foldl_packagesOf] at hn
    rcases hn with h | h | h | h
    · exact ⟨.source, (mem_keys_iff _ _).1 h⟩
    · exact ⟨.amd64, (mem_keys_iff _ _).1 h⟩
    · exact ⟨.i386, (mem_keys_iff _ _).1 h⟩
    · simp [get_empty] at h
  · intro n v hn
    unfold Repo.ListPackages PackageGroup.packages at hn
    simp only at hn
    rw [hasVersion_foldl_packagesOf, hasVersion_foldl_packagesOf,
      hasVersion_foldl_packagesOf] at hn
    rcases hn with h | h | h | h
    · exact ⟨.source, (mem_keys_lookup _ _ _).1 h⟩
    · exact ⟨.amd64, (mem_keys_lookup _ _ _).1 h⟩
    · exact ⟨.i386, (mem_keys_lookup _ _ _).1 h⟩
    · simp [hasVersion_empty] at h

/-! ## The hashing writer -/

/-- C13: for every byte sequence and every way of cutting it into the
chunks of successive `Write` calls, a new `HashWriter` ends with `Written()`
equal to the number of bytes, `Md5()`, `Sha1()` and `Sha256()` equal to the
hex MD5, SHA-1 and SHA-256 of the whole sequence, and the wrapped writer
has received the bytes of the sequence in order. -/
theorem hashWriter_digests_whole_input (E : Env) (chunks : List GoString) :
    (chunks.foldl HashWriter.Write NewHashWriter).Written = chunks.flatten.length ∧
    (chunks.foldl HashWriter.Write NewHashWriter).Md5 E = E.md5 chunks.flatten ∧
    (chunks.foldl HashWriter.Write NewHashWriter).Sha1 E = E.sha1 chunks.flatten ∧
    (chunks.foldl HashWriter.Write NewHashWriter).Sha256 E = E.sha256 chunks.flatten ∧
    (chunks.foldl HashWriter.Write NewHashWriter).out = chunks.flatten := by
  rw [foldl_Write_new]
  exact ⟨rfl, rfl, rfl, rfl, rfl⟩

/-! ## The top-level Release file -/

theorem registryEntries_keys_aux (files : GoMap RepoFile) (l : List GoString)
    (h : ∀ k ∈ l, (GoMap.get files k).isSome = true) :
    (l.filterMap fun name => (GoMap.get files name).map fun file => (name, file)).map Prod.fst
      = l := by
  induction l with
  | nil => rfl
  | cons k t ih =>
    have hk := h k (by simp)
    cases hg : GoMap.get files k with
    | none => simp [hg] at hk
    | some f =>
      simp only [List.filterMap_cons, hg, Option.map_some', List.map_cons]
      rw [ih (fun x hx => h x (by simp [hx]))]

theorem registryEntries_keys (files : GoMap RepoFile) :
    (registryEntries files).map Prod.fst = GoMap.keys files :=
  registryEntries_keys_aux files _ (fun k hk => (mem_keys_iff files k).1 hk)

theorem registryEntries_get (files : GoMap RepoFile) :
    ∀ e ∈ registryEntries files, GoMap.get files e.1 = some e.2 := by
  intro e he
  unfold registryEntries at he
  rw [List.mem_filterMap] at he
  obtain ⟨name, _, hname⟩ := he
  cases hg : GoMap.get files name with
  | none => simp [hg] at hname
  | some f =>
    simp [hg] at hname
    subst hname
    exact hg

theorem checksumBlock_eq (r : Repo) (digest : RepoFile → GoString) :
    Repo.checksumBlock r digest = blockLines digest (registryEntries r.Files) := by
  unfold Repo.checksumBlock blockLines registryEntries Repo.checksumLine
  rw [List.map_filterMap]
  congr 1
  apply List.filterMap_congr
  intro name _
  cases GoMap.get r.Files name <;> rfl

theorem releaseText_eq (E : Env) (r : Repo) :
    Repo.releaseText E r =
      releaseHeader E r
        ++ (lit "MD5Sum:\n" ++ blockLines RepoFile.Md5 (registryEntries r.Files))
        ++ (lit "SHA1:\n" ++ blockLines RepoFile.Sha1 (registryEntries r.Files))
        ++ (lit "SHA256:\n" ++ blockLines RepoFile.Sha256 (registryEntries r.Files)) := by
  unfold Repo.releaseText releaseHeader
  simp only [checksumBlock_eq]

theorem SignFile_get (E : Env) (disk : Disk) (filename output key p : GoString)
    (h : p ≠ output) :
    GoMap.get (opgp.SignFile E disk filename output key).2 p = GoMap.get disk p := by
  unfold opgp.SignFile
  cases E.findKey key with
  | none => rfl
  | some entity =>
    simp only
    split
    · rfl
    · split
      · rfl
      · split
        · simp only [GoMap.get_set_other _ _ _ _ h]
        · simp only [GoMap.get_set_other _ _ _ _ h]

theorem ClearsignFile_get (E : Env) (disk : Disk) (filename output key p : GoString)
    (h : p ≠ output) :
    GoMap.get (opgp.ClearsignFile E disk filename output key).2 p = GoMap.get disk p := by
  unfold opgp.ClearsignFile
  split
  · rfl
  · split
    · rfl
    · simp only
      split
      · simp only [GoMap.get_set_other _ _ _ _ h]
      · simp only [GoMap.get_set_other _ _ _ _ h]

theorem Join_root_file_ne (E : Env) (r : Repo) (f f' : GoString) (hf : plainElem f)
    (hf' : plainElem f') (hne : f ≠ f') :
    filepath.Join [filepath.Join [E.repoPath, r.Name, lit "dists", r.Config.Codename], f] ≠
      filepath.Join [filepath.Join [E.repoPath, r.Name, lit "dists", r.Config.Codename], f'] := by
  obtain ⟨rt, Es, hk, hb, _⟩ := dist_root_normal E r
  rw [hb, Join_render_plain rt Es f hk hf, Join_render_plain rt Es f' hk hf']
  intro h
  have h1 := congrArg (cleanElems rt) h
  rw [cleanElems_render rt _ (keptStack_append_plain rt Es [f] hk (by simpa using hf)),
    cleanElems_render rt _ (keptStack_append_plain rt Es [f'] hk (by simpa using hf'))] at h1
  simp at h1
  exact hne h1

theorem writeRelease_file (E : Env) (r : Repo) (disk : Disk)
    (herr : (Repo.writeRelease E r disk).err = none) :
    GoMap.get (Repo.writeRelease E r disk).disk (releasePath E r) =
      some (Repo.releaseText E r) := by
  have hp1 : releasePath E r ≠ filepath.Join
      [filepath.Join [E.repoPath, r.Name, lit "dists", r.Config.Codename], lit "Release.gpg"] :=
    Join_root_file_ne E r _ _ (by decide) (by decide) (by decide)
  have hp2 : releasePath E r ≠ filepath.Join
      [filepath.Join [E.repoPath, r.Name, lit "dists", r.Config.Codename], lit "InRelease"] :=
    Join_root_file_ne E r _ _ (by decide) (by decide) (by decide)
  unfold Repo.writeRelease at herr ⊢
  simp only at herr ⊢
  split at herr
  · cases herr
  rename_i h1
  rw [if_neg h1]
  split at herr
  · cases herr
  rename_i h2
  rw [if_neg h2]
  by_cases h3 : (!r.Config.Sign) = true
  · rw [if_pos h3]
    exact GoMap.get_set_self _ _ _
  · rw [if_neg h3] at herr ⊢
    have hs := SignFile_get E
      (GoMap.set disk (filepath.Join
        [filepath.Join [E.repoPath, r.Name, lit "dists", r.Config.Codename], lit "Release"])
        (Repo.releaseText E r))
      (filepath.Join
        [filepath.Join [E.repoPath, r.Name, lit "dists", r.Config.Codename], lit "Release"])
      (filepath.Join
        [filepath.Join [E.repoPath, r.Name, lit "dists", r.Config.Codename], lit "Release.gpg"])
      r.Config.GpgKey (releasePath E r) hp1
    revert hs herr
    cases opgp.SignFile E _ _ _ r.Config.GpgKey with
    | mk e d =>
      cases e with
      | some e => intro herr; cases herr
      | none =>
        intro _ hs
        simp only at hs ⊢
        rw [ClearsignFile_get E d _ _ _ (releasePath E r) hp2, hs]
        exact GoMap.get_set_self _ _ _

theorem uniqueKeys_set {V : Type} (m : GoMap V) (k : GoString) (v : V)
    (h : GoMap.uniqueKeys m) : GoMap.uniqueKeys (GoMap.set m k v) := by
  induction m with
  | nil => simp [GoMap.uniqueKeys, GoMap.keys, GoMap.set]
  | cons e t ih =>
    obtain ⟨k0, v0⟩ := e
    have h' : k0 ∉ GoMap.keys t ∧ (GoMap.keys t).Nodup := List.nodup_cons.1 h
    by_cases h0 : k0 = k
    · subst h0
      simpa [GoMap.uniqueKeys, GoMap.keys, GoMap.set] using h
    · have hmem : k0 ∉ GoMap.keys (GoMap.set t k v) := by
        rw [mem_keys_iff, isSome_get_set, ← mem_keys_iff]
        rintro (hk | hk)
        · exact h0 hk
        · exact h'.1 hk
      have hrest : (GoMap.keys (GoMap.set t k v)).Nodup := ih h'.2
      have : GoMap.keys (GoMap.set ((k0, v0) :: t) k v) = k0 :: GoMap.keys (GoMap.set t k v) := by
        simp [GoMap.set, h0, GoMap.keys]
      unfold GoMap.uniqueKeys
      rw [this]
      exact List.nodup_cons.2 ⟨hmem, hrest⟩

theorem storeHashes_uniqueKeys (E : Env) (r : Repo) (path : GoString) (hw : HashWriter)
    (h : GoMap.uniqueKeys r.Files) : GoMap.uniqueKeys (Repo.storeHashes E r path hw).Files := by
  unfold Repo.storeHashes
  simp only
  split
  · exact h
  · split
    · exact h
    · exact uniqueKeys_set _ _ _ h

theorem writePackages_group_uniqueKeys (E : Env) (pg : PackageGroup) (r : Repo) (disk : Disk)
    (name : GoString) (h : GoMap.uniqueKeys r.Files) :
    GoMap.uniqueKeys (PackageGroup.writePackages E pg r disk name).repo.Files := by
  unfold PackageGroup.writePackages
  simp only
  by_cases h1 : E.fails .mkdirAll (filepath.Join
      [E.repoPath, r.Name, lit "dists", r.Config.Codename, r.Config.Component, name]) = true
  · rw [if_pos h1]; exact h
  rw [if_neg h1]
  by_cases h2 : E.fails .create (filepath.Join [filepath.Join
      [E.repoPath, r.Name, lit "dists", r.Config.Codename, r.Config.Component, name],
      if name = lit "source" then lit "Sources" else lit "Packages"]) = true
  · rw [if_pos h2]; exact h
  rw [if_neg h2]
  by_cases h3 : E.fails .create (filepath.Join [filepath.Join
      [E.repoPath, r.Name, lit "dists", r.Config.Codename, r.Config.Component, name],
      if name = lit "source" then lit "Sources" else lit "Packages"] ++ lit ".gz") = true
  · rw [if_pos h3]; exact h
  rw [if_neg h3]
  exact storeHashes_uniqueKeys E _ _ _ (storeHashes_uniqueKeys E r _ _ h)

theorem writeDeepRelease_uniqueKeys (E : Env) (r : Repo) (disk : Disk) (name arch : GoString)
    (h : GoMap.uniqueKeys r.Files) :
    GoMap.uniqueKeys (Repo.writeDeepRelease E r disk name arch).repo.Files := by
  unfold Repo.writeDeepRelease
  simp only
  by_cases h1 : E.fails .mkdirAll (filepath.Join
      [E.repoPath, r.Name, lit "dists", r.Config.Codename, r.Config.Component, name]) = true
  · rw [if_pos h1]; exact h
  rw [if_neg h1]
  by_cases h2 : E.fails .create (filepath.Join [filepath.Join
      [E.repoPath, r.Name, lit "dists", r.Config.Codename, r.Config.Component, name],
      lit "Release"]) = true
  · rw [if_pos h2]; exact h
  rw [if_neg h2]
  exact storeHashes_uniqueKeys E r _ _ h

theorem uniqueKeys_step {o : Outcome} (next : Outcome)
    (h1 : GoMap.uniqueKeys o.repo.Files)
    (h2 : GoMap.uniqueKeys o.repo.Files → GoMap.uniqueKeys next.repo.Files) :
    GoMap.uniqueKeys (if o.err.isSome = true then o else next).repo.Files := by
  by_cases h : o.err.isSome = true
  · rw [if_pos h]; exact h1
  · rw [if_neg h]; exact h2 h1

theorem writePackages_uniqueKeys (E : Env) (r : Repo) (disk : Disk)
    (h : GoMap.uniqueKeys r.Files) :
    GoMap.uniqueKeys (Repo.writePackages E r disk).repo.Files := by
  unfold Repo.writePackages
  simp only
  refine uniqueKeys_step _ (writePackages_group_uniqueKeys E _ _ _ _ h) fun h1 => ?_
  refine uniqueKeys_step _ (writeDeepRelease_uniqueKeys E _ _ _ _ h1) fun h2 => ?_
  refine uniqueKeys_step _ (writePackages_group_uniqueKeys E _ _ _ _ h2) fun h3 => ?_
  refine uniqueKeys_step _ (writeDeepRelease_uniqueKeys E _ _ _ _ h3) fun h4 => ?_
  refine uniqueKeys_step _ (writePackages_group_uniqueKeys E _ _ _ _ h4) fun h5 => ?_
  exact writeDeepRelease_uniqueKeys E _ _ _ _ h5

theorem releasePath_of_sameIndex (E : Env) {r r' : Repo} (h : sameIndex r r') :
    releasePath E r' = releasePath E r := by
  unfold releasePath
  rw [h.1, h.2.1]

/-- What a successful `Save` has done: its repository is the one
`writePackages` leaves, and the Release file holds the text written from
that repository. -/
theorem Save_release (E : Env) (r : Repo) (disk : Disk)
    (herr : (Repo.Save E r disk).err = none) :
    (Repo.Save E r disk).repo =
      (Repo.writePackages E r
        (GoMap.set disk (filepath.Join [filepath.Join [E.repoPath, r.Name], lit ".meta"])
          (E.jsonEncode r))).repo ∧
    GoMap.get (Repo.Save E r disk).disk (releasePath E r) =
      some (Repo.releaseText E (Repo.Save E r disk).repo) := by
  unfold Repo.Save at herr ⊢
  simp only at herr ⊢
  split at herr
  · cases herr
  rename_i h1
  rw [if_neg h1]
  split at herr
  · cases herr
  rename_i h2
  rw [if_neg h2]
  split at herr
  · rename_i h; rw [herr] at h; simp at h
  rename_i h3
  rw [if_neg h3]
  refine ⟨writeRelease_repo E _ _, ?_⟩
  rw [writeRelease_repo, ← releasePath_of_sameIndex E (writePackages_sameIndex E r _)]
  exact writeRelease_file E _ _ herr

/-- C14: after a `Save` that succeeds, the top-level Release file holds the
header lines followed by the blocks `MD5Sum:`, `SHA1:` and `SHA256:` in
that order; each block has, for every key of the file-digest registry as
`Save` leaves it (the registry after the per-architecture files were
regenerated), in the same order, the line
`" <digest> <size> <relative-path>"` with the digest of the block's kind and
the size registered under that key; a registry that held each key once
still does, so that every entry has one line in each block. -/
theorem save_release_lists_registry (E : Env) (r : Repo) (disk : Disk)
    (herr : (Repo.Save E r disk).err = none) :
    (Repo.Save E r disk).repo.Files =
      (Repo.writePackages E r
        (GoMap.set disk (filepath.Join [filepath.Join [E.repoPath, r.Name], lit ".meta"])
          (E.jsonEncode r))).repo.Files ∧
    GoMap.get (Repo.Save E r disk).disk (releasePath E r) =
      some (releaseHeader E r
        ++ (lit "MD5Sum:\n" ++
          blockLines RepoFile.Md5 (registryEntries (Repo.Save E r disk).repo.Files))
        ++ (lit "SHA1:\n" ++
          blockLines RepoFile.Sha1 (registryEntries (Repo.Save E r disk).repo.Files))
        ++ (lit "SHA256:\n" ++
          blockLines RepoFile.Sha256 (registryEntries (Repo.Save E r disk).repo.Files))) ∧
    (registryEntries (Repo.Save E r disk).repo.Files).map Prod.fst =
      GoMap.keys (Repo.Save E r disk).repo.Files ∧
    (∀ e ∈ registryEntries (Repo.Save E r disk).repo.Files,
      GoMap.get (Repo.Save E r disk).repo.Files e.1 = some e.2) ∧
    (GoMap.uniqueKeys r.Files → GoMap.uniqueKeys (Repo.Save E r disk).repo.Files) := by
  obtain ⟨hrepo, hfile⟩ := Save_release E r disk herr
  refine ⟨by rw [hrepo], ?_, registryEntries_keys _, registryEntries_get _, ?_⟩
  · rw [hfile, releaseText_eq]
    have hs := Save_sameIndex E r disk
    have hh : releaseHeader E (Repo.Save E r disk).repo = releaseHeader E r := by
      unfold releaseHeader
      rw [hs.2.1]
    rw [hh]
  · intro hu
    rw [hrepo]
    exact writePackages_uniqueKeys E r _ hu

set_option maxRecDepth 100000 in
/-- C14, at a concrete input: `Save` of the sample repository on an empty
disk. -/
theorem save_release_lists_registry_witness :
    (Repo.Save (sampleEnv []) sampleRepo []).err = none ∧
    GoMap.get (Repo.Save (sampleEnv []) sampleRepo []).disk
        (releasePath (sampleEnv []) sampleRepo) =
      some (releaseHeader (sampleEnv []) sampleRepo
        ++ (lit "MD5Sum:\n" ++ blockLines RepoFile.Md5
          (registryEntries (Repo.Save (sampleEnv []) sampleRepo []).repo.Files))
        ++ (lit "SHA1:\n" ++ blockLines RepoFile.Sha1
          (registryEntries (Repo.Save (sampleEnv []) sampleRepo []).repo.Files))
        ++ (lit "SHA256:\n" ++ blockLines RepoFile.Sha256
          (registryEntries (Repo.Save (sampleEnv []) sampleRepo []).repo.Files))) :=
  ⟨by decide, (save_release_lists_registry (sampleEnv []) sampleRepo [] (by decide)).2.1⟩

/-! ## Archive validation -/

theorem TrimSpace_nil (E : Env) : TrimSpace E [] = [] := by
  simp [TrimSpace]

theorem validate_cases (E : Env) (file : GoString) :
    Deb.validate E file = none ∨ Deb.validate E file = some .invalidDeb := by
  unfold Deb.validate
  split
  · exact Or.inr rfl
  · split
    · exact Or.inr rfl
    · split
      · exact Or.inr rfl
      · split
        · exact Or.inr rfl
        · exact Or.inl rfl

theorem validate_none_iff (E : Env) (file : GoString) :
    Deb.validate E file = none ↔
      ∃ hdr rest, (E.arRead file).entries = hdr :: rest ∧
        TrimSlashes hdr.Name = lit "debian-binary" ∧
        TrimSpace E (hdr.Data.take 10) = lit "2.0" := by
  unfold Deb.validate
  cases hent : (E.arRead file).entries with
  | nil =>
    constructor
    · intro h; cases h
    · rintro ⟨hdr, rest, h, _⟩; cases h
  | cons hdr rest =>
    have key : (∃ hdr' rest', hdr :: rest = hdr' :: rest' ∧
        TrimSlashes hdr'.Name = lit "debian-binary" ∧
        TrimSpace E (hdr'.Data.take 10) = lit "2.0") ↔
        (TrimSlashes hdr.Name = lit "debian-binary" ∧
          TrimSpace E (hdr.Data.take 10) = lit "2.0") := by
      constructor
      · rintro ⟨hdr', rest', h, h1, h2⟩
        cases h
        exact ⟨h1, h2⟩
      · rintro ⟨h1, h2⟩
        exact ⟨hdr, rest, rfl, h1, h2⟩
    rw [key]
    simp only [ne_eq, ite_not]
    by_cases h1 : TrimSlashes hdr.Name = lit "debian-binary"
    · rw [if_pos h1]
      by_cases h2 : hdr.Data = []
      · rw [if_pos h2]
        constructor
        · intro h; cases h
        · rintro ⟨_, h3⟩
          rw [h2, List.take_nil, TrimSpace_nil] at h3
          exact absurd h3 (by decide)
      · rw [if_neg h2]
        by_cases h3 : TrimSpace E (List.take 10 hdr.Data) = lit "2.0"
        · rw [if_pos h3]
          exact ⟨fun _ => ⟨h1, h3⟩, fun _ => rfl⟩
        · rw [if_neg h3]
          constructor
          · intro h; cases h
          · rintro ⟨_, h4⟩
            exact absurd h4 h3
    · rw [if_neg h1]
      constructor
      · intro h; cases h
      · rintro ⟨h4, _⟩
        exact absurd h4 h1

theorem Open_ok (E : Env) (disk : Disk) (p f : GoString)
    (h : (Deb.Open E disk p).1 = .ok f) :
    E.fails .openFile p = false ∧ Deb.validate E f = none ∧
      GoMap.get (Deb.Open E disk p).2 p = some f := by
  unfold Deb.Open at h ⊢
  by_cases h1 : E.fails .openFile p = true
  · rw [if_pos h1] at h; cases h
  rw [if_neg h1] at h ⊢
  simp only at h ⊢
  refine ⟨by simpa using h1, ?_⟩
  split at h
  · cases h
  · rename_i hv
    simp only [Except.ok.injEq] at h
    subst h
    refine ⟨hv, ?_⟩
    simp only
    by_cases hg : GoMap.get disk p = none
    · simp only [if_pos hg]
      rw [GoMap.get_set_self]; rfl
    · simp only [if_neg hg]
      cases hx : GoMap.get disk p with
      | none => exact absurd hx hg
      | some x => rfl

/-- C15: validation accepts an archive exactly when the archive has a first
section whose name, with all leading and trailing slashes stripped, is
`debian-binary` and whose first ten bytes, with the white space around them
stripped, are `2.0`; the sections after the first play no part. Every other
archive is rejected with the invalid-archive error, and `Open` returns an
archive only if validation accepts it. -/
theorem validate_accepts_iff (E : Env) (file : GoString) :
    (Deb.validate E file = none ↔
      ∃ hdr rest, (E.arRead file).entries = hdr :: rest ∧
        TrimSlashes hdr.Name = lit "debian-binary" ∧
        TrimSpace E (hdr.Data.take 10) = lit "2.0") ∧
    (Deb.validate E file ≠ none → Deb.validate E file = some .invalidDeb) ∧
    (∀ disk p, (Deb.Open E disk p).1 = .ok file → Deb.validate E file = none) := by
  refine ⟨validate_none_iff E file, ?_, fun disk p h => (Open_ok E disk p file h).2.1⟩
  intro h
  rcases validate_cases E file with h1 | h1
  · exact absurd h1 h
  · exact h1

set_option maxRecDepth 100000 in
/-- C15, read to the letter, fails twice. An archive whose first section is
named `/debian-binary` is accepted, though its name with a trailing slash
stripped is not `debian-binary`; and an archive whose first section holds
`2.0`, white space and then `3.0` is accepted, because only the first ten
bytes are looked at. -/
theorem validate_accepts_other_names_and_versions :
    (Deb.validate signEnv slashNamedDeb = none ∧
      (signEnv.arRead slashNamedDeb).entries = [⟨lit "/debian-binary", 3, lit "2.0"⟩] ∧
      stripTrailingSlash (lit "/debian-binary") ≠ lit "debian-binary") ∧
    (Deb.validate signEnv longVersionDeb = none ∧
      (signEnv.arRead longVersionDeb).entries =
        [⟨lit "debian-binary", 14, lit "2.0\n      3.0\n"⟩] ∧
      TrimSpace signEnv (lit "2.0\n      3.0\n") ≠ lit "2.0") := by
  decide

/-! ## The digest manifest -/

theorem hashLoop_eq (E : Env) (broken : Bool) (l : List ArEntry) (h1 h5 s : GoString) :
    Deb.hashLoop E broken l h1 h5 s =
      if broken then .error .invalidDeb else .ok (s ++ (l.map (hashLine E)).flatten) := by
  induction l generalizing h1 h5 s with
  | nil => simp [Deb.hashLoop]
  | cons hdr rest ih =>
    rw [Deb.hashLoop, ih]
    simp [Deb.Write, Deb.Reset, hashLine, List.append_assoc]

theorem hashSections_eq (E : Env) (file : GoString) :
    Deb.hashSections E file =
      if (E.arRead file).broken then .error .invalidDeb
      else .ok (((E.arRead file).entries.map (hashLine E)).flatten) := by
  unfold Deb.hashSections
  rw [hashLoop_eq]
  simp

/-- C17: for an archive the reader reads to its end, with the sections
`s1..sn`, `hashSections` returns the concatenation, in section order, of
the `n` lines `hashLine si`: a tab, the hex MD5 of the bytes of `si`, a
space, the hex SHA-1 of the bytes of `si`, a space, the size of `si`, a
space, the name of `si` and a newline. Each digest is taken over the bytes
of its own section only. When the reader fails before the end, the result
is the invalid-archive error. -/
theorem hashSections_lines (E : Env) (file : GoString) :
    Deb.hashSections E file =
      (if (E.arRead file).broken then .error .invalidDeb
       else .ok (((E.arRead file).entries.map (hashLine E)).flatten)) ∧
    ((E.arRead file).entries.map (hashLine E)).length = (E.arRead file).entries.length ∧
    (∀ si, hashLine E si =
      [9] ++ E.md5 si.Data ++ [32] ++ E.sha1 si.Data ++ [32] ++ decimal si.Size ++ [32]
        ++ si.Name ++ [10]) :=
  ⟨hashSections_eq E file, List.length_map _ _, fun _ => rfl⟩

/-! ## Signing an archive -/

theorem scanSections_ok_iff (name : GoString) (broken : Bool) (l : List ArEntry) :
    (∃ d, Deb.scanSections name broken l = .ok d) ↔ ∃ e ∈ l, TrimSlashes e.Name = name := by
  induction l with
  | nil =>
    simp only [Deb.scanSections, List.not_mem_nil, false_and, exists_false, iff_false]
    rintro ⟨d, h⟩
    split at h <;> cases h
  | cons hdr rest ih =>
    simp only [Deb.scanSections, List.mem_cons, exists_eq_or_imp]
    by_cases h : TrimSlashes hdr.Name = name
    · simp [h]
    · rw [if_neg h, ih]
      simp [h]

theorem scanSections_error (name : GoString) (broken : Bool) (l : List ArEntry) (e : Error)
    (h : Deb.scanSections name broken l = .error e) : e = .invalidDeb ∨ e = .notFound := by
  induction l with
  | nil =>
    simp only [Deb.scanSections] at h
    split at h
    · left; cases h; rfl
    · right; cases h; rfl
  | cons hdr rest ih =>
    simp only [Deb.scanSections] at h
    split at h
    · cases h
    · exact ih h

theorem findSection_gpgbuilder (E : Env) (file : GoString) :
    Deb.findSection E file (lit "_gpgbuilder") =
      Deb.scanSections (lit "_gpgbuilder") (E.arRead file).broken (E.arRead file).entries := by
  unfold Deb.findSection
  rw [if_neg (by decide)]

theorem GetSignerName_error (E : Env) (key : GoString) (e : Error)
    (h : opgp.GetSignerName E key = .error e) : e ≠ .alreadySigned := by
  unfold opgp.GetSignerName at h
  split at h
  · cases h; decide
  · split at h
    · cases h; decide
    · split at h
      · cases h
      · cases h; decide

theorem Clearsign_error (E : Env) (input key : GoString) (e : Error)
    (h : opgp.Clearsign E input key = .error e) : e ≠ .alreadySigned := by
  unfold opgp.Clearsign at h
  split at h
  · cases h; decide
  · split at h
    · cases h; decide
    · cases h

theorem hashSections_error (E : Env) (file : GoString) (e : Error)
    (h : Deb.hashSections E file = .error e) : e ≠ .alreadySigned := by
  rw [hashSections_eq] at h
  split at h
  · cases h; decide
  · cases h

theorem Sign_of_found (E : Env) (file key d : GoString)
    (h : Deb.findSection E file (lit "_gpgbuilder") = .ok d) :
    Deb.Sign E file key = .error .alreadySigned := by
  unfold Deb.Sign
  rw [h]

theorem Sign_of_not_found (E : Env) (file key : GoString)
    (h : ∀ d, Deb.findSection E file (lit "_gpgbuilder") ≠ .ok d) :
    Deb.Sign E file key ≠ .error .alreadySigned ∧
    ∀ s, Deb.Sign E file key = .ok s →
      ∃ buf, s = file ++ E.arWrite (signatureHeader E buf) buf := by
  unfold Deb.Sign
  cases hf : Deb.findSection E file (lit "_gpgbuilder") with
  | ok d => exact absurd hf (h d)
  | error e =>
    have he : e = .invalidDeb ∨ e = .notFound := by
      rw [findSection_gpgbuilder] at hf
      exact scanSections_error _ _ _ _ hf
    rcases he with he | he
    · subst he
      exact ⟨by simp, fun s hs => by simp at hs⟩
    · subst he
      simp only
      cases hg : opgp.GetSignerName E key with
      | error e1 =>
        have := GetSignerName_error E key e1 hg
        exact ⟨by simpa using this, fun s hs => by simp at hs⟩
      | ok signer =>
        simp only
        cases hh : Deb.hashSections E file with
        | error e2 =>
          have := hashSections_error E file e2 hh
          exact ⟨by simpa using this, fun s hs => by simp at hs⟩
        | ok s2 =>
          simp only
          cases hc : opgp.Clearsign E
              (lit "Version: 4\n" ++ (lit "Signer: " ++ signer ++ [10]) ++ E.signDate
                ++ lit "Role: builder\n" ++ lit "Files:\n" ++ s2) key with
          | error e3 =>
            have := Clearsign_error E _ key e3 hc
            exact ⟨by simpa using this, fun s hs => by simp at hs⟩
          | ok buf =>
            refine ⟨by simp, fun s hs => ⟨buf, ?_⟩⟩
            simp only [Except.ok.injEq] at hs
            rw [← hs]
            rfl

theorem Sign_alreadySigned_iff (E : Env) (file key : GoString) :
    Deb.Sign E file key = .error .alreadySigned ↔
      ∃ e ∈ (E.arRead file).entries, TrimSlashes e.Name = lit "_gpgbuilder" := by
  rw [← scanSections_ok_iff (lit "_gpgbuilder") (E.arRead file).broken, ← findSection_gpgbuilder]
  constructor
  · intro h
    by_contra hne
    exact (Sign_of_not_found E file key fun d hd => hne ⟨d, hd⟩).1 h
  · rintro ⟨d, hd⟩
    exact Sign_of_found E file key d hd

theorem signDeb_refused (E : Env) (r : Repo) (disk disk1 : Disk) (p file : GoString) (e : Error)
    (hs : r.Config.Sign = true) (ho : Deb.Open E disk p = (.ok file, disk1))
    (hr : Deb.Sign E file r.Config.GpgKey = .error e) :
    Repo.signDeb E r disk p = (some e, disk1) ∧ GoMap.get disk1 p = some file := by
  have h1 : (Deb.Open E disk p).1 = .ok file := by rw [ho]
  have h2 := (Open_ok E disk p file h1).2.2
  rw [ho] at h2
  refine ⟨?_, h2⟩
  unfold Repo.signDeb
  simp only [hs, Bool.not_true, Bool.false_eq_true, if_false, ho, hr]

/-- C16: `Sign` is refused with the already-signed error exactly when the
archive has a section whose name, with leading and trailing slashes
stripped, is `_gpgbuilder`. A `Sign` that succeeds leaves the old bytes of
the archive followed by one new member with the header name `_gpgbuilder`;
a `Sign` that is refused within `signDeb` leaves the file with the bytes it
had; and when the reader finds the new member in the signed archive, a
second `Sign` is refused. -/
theorem sign_refused_iff_signature_section (E : Env) (file key : GoString) :
    (Deb.Sign E file key = .error .alreadySigned ↔
      ∃ e ∈ (E.arRead file).entries, TrimSlashes e.Name = lit "_gpgbuilder") ∧
    (∀ s, Deb.Sign E file key = .ok s →
      (∃ buf, s = file ++ E.arWrite (signatureHeader E buf) buf) ∧
      ((∃ e ∈ (E.arRead s).entries, e.Name = lit "_gpgbuilder") →
        Deb.Sign E s key = .error .alreadySigned)) ∧
    (∀ r disk disk1 p, r.Config.Sign = true → r.Config.GpgKey = key →
      Deb.Open E disk p = (.ok file, disk1) →
      Deb.Sign E file key = .error .alreadySigned →
      Repo.signDeb E r disk p = (some .alreadySigned, disk1) ∧
        GoMap.get disk1 p = some file) := by
  refine ⟨Sign_alreadySigned_iff E file key, ?_, ?_⟩
  · intro s hs
    constructor
    · refine (Sign_of_not_found E file key fun d hd => ?_).2 s hs
      rw [Sign_of_found E file key d hd] at hs
      cases hs
    · rintro ⟨e, he, hn⟩
      rw [Sign_alreadySigned_iff]
      exact ⟨e, he, by rw [hn]; decide⟩
  · intro r disk disk1 p hsign hkey ho hr
    subst hkey
    exact signDeb_refused E r disk disk1 p file _ hsign ho hr

set_option maxRecDepth 100000 in
/-- The toy archive `unsignedDeb` is signed once; its reader then finds the
new member, and a second `Sign` is refused. -/
theorem sign_twice_sample :
    Deb.Sign signEnv unsignedDeb (lit "k") = .ok signedDeb ∧
    (signEnv.arRead signedDeb).entries.map (·.Name) =
      [lit "debian-binary", lit "control.tar.gz", lit "_gpgbuilder"] ∧
    Deb.Sign signEnv signedDeb (lit "k") = .error .alreadySigned := by
  decide

set_option maxRecDepth 100000 in
/-- C16, read to the letter, fails: an archive with a section named
`_gpgbuilder/`, and none named `_gpgbuilder`, is refused as already
signed. -/
theorem sign_refused_without_literal_section :
    Deb.Sign signEnv slashSignedDeb (lit "k") = .error .alreadySigned ∧
    Deb.validate signEnv slashSignedDeb = none ∧
    (signEnv.arRead slashSignedDeb).entries.map (·.Name) =
      [lit "debian-binary", lit "_gpgbuilder/"] ∧
    ¬ ∃ e ∈ (signEnv.arRead slashSignedDeb).entries, e.Name = lit "_gpgbuilder" := by
  decide

/-! ## The stanza of a package -/

theorem appendTo_eq (p : Package) :
    Package.appendTo p = ((stanzaFields p).map fieldLine).flatten ++ [10] := by
  have hf : fieldLine = fun e => e.1 ++ lit ": " ++ e.2 ++ [10] := rfl
  have l1 : lit "Filename: " = lit "Filename" ++ lit ": " := by decide
  have l2 : lit "Size: " = lit "Size" ++ lit ": " := by decide
  have l3 : lit "SHA1: " = lit "SHA1" ++ lit ": " := by decide
  have l4 : lit "SHA256: " = lit "SHA256" ++ lit ": " := by decide
  have l5 : lit "MD5Sum: " = lit "MD5Sum" ++ lit ": " := by decide
  have l6 : lit "Description: " = lit "Description" ++ lit ": " := by decide
  rw [Package.appendTo, l1, l2, l3, l4, l5, l6, hf]
  simp [stanzaFields, GoMap.toList, List.append_assoc]

theorem filter_delete {V : Type} (m : GoMap V) (k : GoString) :
    List.filter (fun e : GoString × V => decide (e.1 = k)) (GoMap.toList (GoMap.delete m k)) = [] := by
  induction m with
  | nil => rfl
  | cons e t ih =>
    obtain ⟨k0, v0⟩ := e
    by_cases h : k0 = k
    · simpa [GoMap.delete, h] using ih
    · simp only [GoMap.delete, if_neg h]
      show List.filter _ ((k0, v0) :: GoMap.toList (GoMap.delete t k)) = []
      rw [List.filter_cons]
      simpa [h] using ih

/-- C20: the stanza `appendTo` writes for the record `Add` makes from a
control paragraph is one line `"name: value"` for each control field other
than `Description`, in the order of the paragraph, then the lines
`Filename`, `Size`, `SHA1`, `SHA256`, `MD5Sum` and `Description` in that
order, then a blank line. Exactly one of the fields written is named
`Description`: the last one, which holds the description of the
paragraph. -/
theorem appendTo_stanza_of_record (E : Env) (r : Repo) (disk : Disk) (debPath : GoString)
    (para : GoMap GoString) :
    Package.appendTo (Repo.record E r disk debPath para) =
      ((stanzaFields (Repo.record E r disk debPath para)).map fieldLine).flatten ++ [10] ∧
    stanzaFields (Repo.record E r disk debPath para) =
      GoMap.toList (GoMap.delete para (lit "Description")) ++
        [(lit "Filename", (Repo.record E r disk debPath para).Filename),
          (lit "Size", decimal (Repo.record E r disk debPath para).Size),
          (lit "SHA1", (Repo.record E r disk debPath para).Sha1),
          (lit "SHA256", (Repo.record E r disk debPath para).Sha256),
          (lit "MD5Sum", (Repo.record E r disk debPath para).Md5),
          (lit "Description", field para (lit "Description"))] ∧
    (stanzaFields (Repo.record E r disk debPath para)).filter
        (fun e => decide (e.1 = lit "Description")) =
      [(lit "Description", field para (lit "Description"))] ∧
    (∀ e, fieldLine e = e.1 ++ lit ": " ++ e.2 ++ [10]) := by
  refine ⟨appendTo_eq _, rfl, ?_, fun _ => rfl⟩
  have h : stanzaFields (Repo.record E r disk debPath para) =
      GoMap.toList (GoMap.delete para (lit "Description")) ++
        [(lit "Filename", (Repo.record E r disk debPath para).Filename),
          (lit "Size", decimal (Repo.record E r disk debPath para).Size),
          (lit "SHA1", (Repo.record E r disk debPath para).Sha1),
          (lit "SHA256", (Repo.record E r disk debPath para).Sha256),
          (lit "MD5Sum", (Repo.record E r disk debPath para).Md5),
          (lit "Description", field para (lit "Description"))] := rfl
  rw [h, List.filter_append, filter_delete]
  have h1 : lit "Filename" ≠ lit "Description" := by decide
  have h2 : lit "Size" ≠ lit "Description" := by decide
  have h3 : lit "SHA1" ≠ lit "Description" := by decide
  have h4 : lit "SHA256" ≠ lit "Description" := by decide
  have h5 : lit "MD5Sum" ≠ lit "Description" := by decide
  simp only [List.filter_cons, h1, h2, h3, h4, h5, decide_False, decide_True, List.nil_append,
    Bool.false_eq_true, if_false, if_true, List.filter_nil]

/-! ## Shared repositories -/

theorem setting_frame (settings : GoMap GoString) (key : GoString)
    (put : RepoConfig → GoString → RepoConfig) (repo : Repo) :
    (Repo.setting settings key put repo).Name = repo.Name ∧
    (Repo.setting settings key put repo).Packages = repo.Packages ∧
    (Repo.setting settings key put repo).Files = repo.Files ∧
    (Repo.setting settings key put repo).Config =
      match GoMap.get settings key with
      | some val => put repo.Config val
      | none => repo.Config := by
  unfold Repo.setting
  cases GoMap.get settings key <;> simp

theorem withStrings_fields (repo : Repo) (settings : GoMap GoString) :
    (Repo.withStrings repo settings).Name = repo.Name ∧
    (Repo.withStrings repo settings).Packages = repo.Packages ∧
    (Repo.withStrings repo settings).Files = repo.Files ∧
    (Repo.withStrings repo settings).Config.Origin =
      (GoMap.get settings (lit "origin")).getD repo.Config.Origin ∧
    (Repo.withStrings repo settings).Config.Label =
      (GoMap.get settings (lit "label")).getD repo.Config.Label ∧
    (Repo.withStrings repo settings).Config.Description =
      (GoMap.get settings (lit "description")).getD repo.Config.Description ∧
    (Repo.withStrings repo settings).Config.Codename =
      (GoMap.get settings (lit "codename")).getD repo.Config.Codename ∧
    (Repo.withStrings repo settings).Config.Component =
      (GoMap.get settings (lit "component")).getD repo.Config.Component ∧
    (Repo.withStrings repo settings).Config.Sign = repo.Config.Sign ∧
    (Repo.withStrings repo settings).Config.GpgKey = repo.Config.GpgKey := by
  unfold Repo.withStrings
  simp only [setting_frame, true_and]
  cases GoMap.get settings (lit "origin") <;> cases GoMap.get settings (lit "label") <;>
    cases GoMap.get settings (lit "description") <;>
    cases GoMap.get settings (lit "codename") <;>
    cases GoMap.get settings (lit "component") <;> simp

theorem applySettings_eq (E : Env) (repo : Repo) (settings : GoMap GoString) :
    Repo.applySettings E repo settings =
      match (match GoMap.get settings (lit "sign") with
        | some val =>
          match ParseBool val with
          | .error e => .error e
          | .ok b => .ok { Repo.withStrings repo settings with
              Config := { (Repo.withStrings repo settings).Config with Sign := b } }
        | none => .ok (Repo.withStrings repo settings) : Except Error Repo) with
      | .error e => .error e
      | .ok repo => Repo.withKey E settings repo := rfl

theorem withKey_fields (E : Env) (settings : GoMap GoString) (repo repo1 : Repo)
    (h : Repo.withKey E settings repo = .ok repo1) :
    repo1.Name = repo.Name ∧ repo1.Packages = repo.Packages ∧ repo1.Files = repo.Files ∧
    repo1.Config.Origin = repo.Config.Origin ∧ repo1.Config.Label = repo.Config.Label ∧
    repo1.Config.Description = repo.Config.Description ∧
    repo1.Config.Codename = repo.Config.Codename ∧
    repo1.Config.Component = repo.Config.Component ∧
    repo1.Config.Sign = repo.Config.Sign ∧
    (repo1.Config.Sign = false → repo1.Config.GpgKey = repo.Config.GpgKey) ∧
    (repo1.Config.Sign = true →
      ∀ v, GoMap.get settings (lit "signing-key") = some v → repo1.Config.GpgKey = v) ∧
    (repo1.Config.Sign = true → GoMap.get settings (lit "signing-key") = none →
      getDefaultKey E = .ok repo1.Config.GpgKey) := by
  unfold Repo.withKey at h
  by_cases hs : repo.Config.Sign = true
  · rw [if_pos hs] at h
    cases hk : GoMap.get settings (lit "signing-key") with
    | some val =>
      rw [hk] at h
      simp only [Except.ok.injEq] at h
      subst h
      simp [hs]
    | none =>
      rw [hk] at h
      simp only at h
      cases hd : getDefaultKey E with
      | error e => rw [hd] at h; cases h
      | ok key =>
        rw [hd] at h
        simp only [Except.ok.injEq] at h
        subst h
        simp [hs]
  · rw [if_neg hs] at h
    simp only [Except.ok.injEq] at h
    subst h
    simp [hs]

/-- C18: when `UpdateSharedRepo` finds or makes the prior repository `repo`
and accepts the settings, it saves a repository `repo1` in which origin,
label, description, codename and component are the supplied value when
their key is present and the prior value when it is absent; the sign flag
is the parsed value of `sign` when present and the prior flag when absent;
and the signing key is the prior key when the resulting sign flag is off
(whether or not `signing-key` is present), the value of `signing-key` when
the flag is on and the key is present, and the configured default key when
the flag is on and the key is absent. Name, index and registry are the
prior ones. -/
theorem updateSharedRepo_applies_settings (E : Env) (disk : Disk) (name : GoString)
    (settings : GoMap GoString) (repo repo1 : Repo)
    (hp : Repo.prior E disk name = .ok repo)
    (ha : Repo.applySettings E repo settings = .ok repo1) :
    UpdateSharedRepo E disk name settings =
      ((Repo.Save E repo1 disk).err, (Repo.Save E repo1 disk).disk) ∧
    repo1.Config.Origin = (GoMap.get settings (lit "origin")).getD repo.Config.Origin ∧
    repo1.Config.Label = (GoMap.get settings (lit "label")).getD repo.Config.Label ∧
    repo1.Config.Description =
      (GoMap.get settings (lit "description")).getD repo.Config.Description ∧
    repo1.Config.Codename = (GoMap.get settings (lit "codename")).getD repo.Config.Codename ∧
    repo1.Config.Component =
      (GoMap.get settings (lit "component")).getD repo.Config.Component ∧
    (GoMap.get settings (lit "sign") = none → repo1.Config.Sign = repo.Config.Sign) ∧
    (∀ v, GoMap.get settings (lit "sign") = some v → ParseBool v = .ok repo1.Config.Sign) ∧
    (repo1.Config.Sign = false → repo1.Config.GpgKey = repo.Config.GpgKey) ∧
    (repo1.Config.Sign = true →
      ∀ v, GoMap.get settings (lit "signing-key") = some v → repo1.Config.GpgKey = v) ∧
    (repo1.Config.Sign = true → GoMap.get settings (lit "signing-key") = none →
      getDefaultKey E = .ok repo1.Config.GpgKey) ∧
    repo1.Name = repo.Name ∧ repo1.Packages = repo.Packages ∧ repo1.Files = repo.Files := by
  obtain ⟨hN, hP, hF, hO, hL, hD, hC, hK, hS, hG⟩ := withStrings_fields repo settings
  have hu : UpdateSharedRepo E disk name settings =
      ((Repo.Save E repo1 disk).err, (Repo.Save E repo1 disk).disk) := by
    unfold UpdateSharedRepo
    simp only [hp, ha]
  rw [applySettings_eq] at ha
  cases hs : GoMap.get settings (lit "sign") with
  | none =>
    rw [hs] at ha
    simp only at ha
    obtain ⟨kN, kP, kF, kO, kL, kD, kC, kK, kS, kG1, kG2, kG3⟩ :=
      withKey_fields E settings _ repo1 ha
    refine ⟨hu, ?_, ?_, ?_, ?_, ?_, ?_, ?_, ?_, kG2, kG3, ?_, ?_, ?_⟩
    · rw [kO, hO]
    · rw [kL, hL]
    · rw [kD, hD]
    · rw [kC, hC]
    · rw [kK, hK]
    · intro _; rw [kS, hS]
    · intro v hv; cases hv
    · intro h; rw [kG1 h, hG]
    · rw [kN, hN]
    · rw [kP, hP]
    · rw [kF, hF]
  | some val =>
    rw [hs] at ha
    simp only at ha
    cases hb : ParseBool val with
    | error e => rw [hb] at ha; cases ha
    | ok b =>
      rw [hb] at ha
      simp only at ha
      obtain ⟨kN, kP, kF, kO, kL, kD, kC, kK, kS, kG1, kG2, kG3⟩ :=
        withKey_fields E settings _ repo1 ha
      simp only at kN kP kF kO kL kD kC kK kS kG1
      refine ⟨hu, ?_, ?_, ?_, ?_, ?_, ?_, ?_, ?_, kG2, kG3, ?_, ?_, ?_⟩
      · rw [kO, hO]
      · rw [kL, hL]
      · rw [kD, hD]
      · rw [kC, hC]
      · rw [kK, hK]
      · intro h; cases h
      · intro v hv
        simp only [Option.some.injEq] at hv
        subst hv
        rw [hb, kS]
      · intro h; rw [kG1 h, hG]
      · rw [kN, hN]
      · rw [kP, hP]
      · rw [kF, hF]

set_option maxRecDepth 100000 in
/-- C18, at a concrete input: a new repository `r` that is to sign with the
key `K`. -/
theorem updateSharedRepo_applies_settings_witness :
    Repo.prior updateEnv [] (lit "r") = .ok (newRepo (lit "r")) ∧
    Repo.applySettings updateEnv (newRepo (lit "r")) sampleSettings = .ok sampleUpdated ∧
    sampleUpdated.Config.Origin = lit "o" ∧
    (sampleUpdated.Config.Sign = true →
      ∀ v, GoMap.get sampleSettings (lit "signing-key") = some v →
        sampleUpdated.Config.GpgKey = v) :=
  ⟨by decide, by decide,
    (updateSharedRepo_applies_settings updateEnv [] (lit "r") sampleSettings
      (newRepo (lit "r")) sampleUpdated (by decide) (by decide)).2.1,
    (updateSharedRepo_applies_settings updateEnv [] (lit "r") sampleSettings
      (newRepo (lit "r")) sampleUpdated (by decide) (by decide)).2.2.2.2.2.2.2.2.2.1⟩

set_option maxRecDepth 100000 in
/-- C18, read to the letter, fails for the signing key. With `signing-key`
present and the sign flag off, the key saved is the prior one (empty for a
new repository), not the supplied `K`; with `signing-key` absent and `sign`
set to `true`, the key saved is the default key `DEF`, not the prior one. In
both runs `UpdateSharedRepo` returns no error and the saved state shows the
key. -/
theorem updateSharedRepo_signing_key_not_as_claimed :
    (Repo.prior updateEnv [] (lit "r") = .ok (newRepo (lit "r")) ∧
      (newRepo (lit "r")).Config.GpgKey = []) ∧
    (GoMap.get [(lit "signing-key", lit "K")] (lit "signing-key") = some (lit "K") ∧
      (Repo.applySettings updateEnv (newRepo (lit "r")) [(lit "signing-key", lit "K")]).map
        (fun r => r.Config.GpgKey) = .ok [] ∧
      (UpdateSharedRepo updateEnv [] (lit "r") [(lit "signing-key", lit "K")]).1 = none ∧
      GoMap.get (UpdateSharedRepo updateEnv [] (lit "r") [(lit "signing-key", lit "K")]).2
        (lit "repos/r/.meta") = some (lit "sign=false key=")) ∧
    (GoMap.get [(lit "sign", lit "true")] (lit "signing-key") = none ∧
      (Repo.applySettings updateEnv (newRepo (lit "r")) [(lit "sign", lit "true")]).map
        (fun r => r.Config.GpgKey) = .ok (lit "DEF") ∧
      (UpdateSharedRepo updateEnv [] (lit "r") [(lit "sign", lit "true")]).1 = none ∧
      GoMap.get (UpdateSharedRepo updateEnv [] (lit "r") [(lit "sign", lit "true")]).2
        (lit "repos/r/.meta") = some (lit "sign=true key=DEF")) := by
  decide

/-! ## The name generator -/

theorem alphabet_byte : ∀ m, m < 36 → nameByte (alphabet.getD m 0) := by
  unfold nameByte
  decide

theorem base36Loop_length (i n : Nat) (res : GoString) :
    (base36Loop i n res).length = res.length := by
  induction i generalizing n res with
  | zero => rfl
  | succ i ih =>
    unfold base36Loop
    split
    · rw [ih, List.length_set]
    · rfl

theorem base36Loop_bytes (i n : Nat) (res : GoString) (h : ∀ c ∈ res, nameByte c) :
    ∀ c ∈ base36Loop i n res, nameByte c := by
  induction i generalizing n res with
  | zero => exact h
  | succ i ih =>
    unfold base36Loop
    split
    · apply ih
      intro c hc
      rcases List.mem_or_eq_of_mem_set hc with hc | hc
      · exact h c hc
      · rw [hc]
        exact alphabet_byte _ (Nat.mod_lt _ (by decide))
    · exact h

theorem base36_length (n : Nat) : (base36 n).length = 10 := by
  unfold base36
  rw [base36Loop_length]
  rfl

theorem base36_bytes (n : Nat) : ∀ c ∈ base36 n, nameByte c := by
  unfold base36
  apply base36Loop_bytes
  unfold nameByte
  decide

theorem nameLoop_eq (used : List GoString) (draws : List Nat) :
    nameLoop used draws = (draws.map base36).filter fun name => decide (name ∉ used) := by
  induction draws with
  | nil => rfl
  | cons num rest ih =>
    unfold nameLoop
    by_cases h : base36 num ∈ used
    · rw [if_pos h, ih, List.map_cons, List.filter_cons]
      simp [h]
    · rw [if_neg h, ih, List.map_cons, List.filter_cons]
      simp [h]

theorem randNameGen_some (E : Env) (scanErr : Bool) (disk : Disk) (draws : List Nat)
    (run : NameRun) (h : randNameGen E scanErr disk draws = some run) :
    run.names = nameLoop (usedNames E disk) draws ∧
    run.disk = GoMap.set disk (namesPath E)
      ((GoMap.get disk (namesPath E)).getD [] ++
        ((nameLoop (usedNames E disk) draws).map fun name => name ++ [10]).flatten) := by
  unfold randNameGen at h
  simp only at h
  split at h
  · cases h
  · split at h
    · cases h
    · simp only [Option.some.injEq] at h
      subst h
      exact ⟨rfl, rfl⟩

theorem byteValue_alphabet : ∀ m, m < 36 → byteValue (alphabet.getD m 0) = m := by
  unfold byteValue
  decide

theorem foldl_value (l : GoString) (acc : Nat) :
    l.foldl (fun acc c => acc * 36 + byteValue c) acc = acc * 36 ^ l.length + nameValue l := by
  induction l generalizing acc with
  | nil => simp [nameValue]
  | cons c t ih =>
    unfold nameValue
    rw [List.foldl_cons, List.foldl_cons, ih, ih (0 * 36 + byteValue c)]
    simp only [List.length_cons, pow_succ]
    ring

theorem nameValue_cons (c : Nat) (t : GoString) :
    nameValue (c :: t) = byteValue c * 36 ^ t.length + nameValue t := by
  unfold nameValue
  rw [List.foldl_cons, foldl_value]
  simp [nameValue]

theorem nameValue_padding (i : Nat) (suf : GoString) :
    nameValue (List.replicate i 61 ++ suf) = nameValue suf := by
  induction i with
  | zero => rfl
  | succ i ih =>
    rw [List.replicate_succ, List.cons_append, nameValue_cons, ih]
    simp [byteValue]

theorem set_padding (i c d : Nat) (suf : GoString) :
    (List.replicate i 61 ++ c :: suf).set i d = List.replicate i 61 ++ d :: suf := by
  induction i with
  | zero => rfl
  | succ i ih =>
    rw [List.replicate_succ, List.cons_append, List.set_cons_succ, ih]
    rfl

theorem nameValue_base36Loop (i n : Nat) (suf : GoString) (h : n < 36 ^ i) :
    nameValue (base36Loop i n (List.replicate i 61 ++ suf)) =
      n * 36 ^ suf.length + nameValue suf := by
  induction i generalizing n suf with
  | zero =>
    have h0 : n = 0 := by simpa using h
    subst h0
    simp [base36Loop]
  | succ i ih =>
    unfold base36Loop
    by_cases hn : n > 0
    · rw [if_pos hn]
      have hrep : List.replicate (i + 1) 61 ++ suf = List.replicate i 61 ++ 61 :: suf := by
        rw [List.replicate_succ']
        simp
      rw [hrep, set_padding, ih (n / 36) _ (by
        rw [pow_succ] at h
        exact Nat.div_lt_of_lt_mul (by rw [Nat.mul_comm]; exact h))]
      rw [nameValue_cons, byteValue_alphabet _ (Nat.mod_lt _ (by decide)), List.length_cons,
        pow_succ]
      have := Nat.div_add_mod n 36
      calc n / 36 * (36 ^ suf.length * 36) + (n % 36 * 36 ^ suf.length + nameValue suf)
          = (36 * (n / 36) + n % 36) * 36 ^ suf.length + nameValue suf := by ring
        _ = n * 36 ^ suf.length + nameValue suf := by rw [this]
    · rw [if_neg hn]
      have h0 : n = 0 := by omega
      subst h0
      rw [nameValue_padding]
      simp

theorem nameValue_base36 (n : Nat) (h : n < maxNum) : nameValue (base36 n) = n := by
  unfold base36
  have hlit : lit "==========" = List.replicate 10 61 ++ [] := by decide
  rw [hlit, nameValue_base36Loop 10 n [] (by unfold maxNum at h; norm_num; exact h)]
  simp [nameValue]

theorem base36_injective (a b : Nat) (ha : a < maxNum) (hb : b < maxNum)
    (h : base36 a = base36 b) : a = b := by
  rw [← nameValue_base36 a ha, ← nameValue_base36 b hb, h]

/-- C19: in a run of `randNameGen` that does not exit, the names handed out
are, in order, the codes `base36` of the numbers drawn that are not lines of
the log as it was at the start: a number drawn twice is handed out twice,
because the set `used` is filled from the log only. Each name handed out
is not a line of the initial log, has ten bytes, each of them a lower-case
letter, a digit or the padding byte `=`, and is appended to the log as a
line. Two numbers below `maxNum` have the same code only if they are
equal. -/
theorem randNameGen_names (E : Env) (scanErr : Bool) (disk : Disk) (draws : List Nat)
    (run : NameRun) (h : randNameGen E scanErr disk draws = some run) :
    run.names = (draws.map base36).filter (fun name => decide (name ∉ usedNames E disk)) ∧
    (∀ name ∈ run.names,
      name ∉ usedNames E disk ∧ name.length = 10 ∧ ∀ c ∈ name, nameByte c) ∧
    GoMap.get run.disk (namesPath E) =
      some ((GoMap.get disk (namesPath E)).getD [] ++
        (run.names.map fun name => name ++ [10]).flatten) ∧
    (∀ a b, a < maxNum → b < maxNum → base36 a = base36 b → a = b) := by
  obtain ⟨hn, hd⟩ := randNameGen_some E scanErr disk draws run h
  rw [nameLoop_eq] at hn
  refine ⟨hn, ?_, ?_, base36_injective⟩
  · intro name hname
    rw [hn, List.mem_filter, List.mem_map] at hname
    obtain ⟨⟨num, _, rfl⟩, hu⟩ := hname
    exact ⟨by simpa using hu, base36_length num, base36_bytes num⟩
  · rw [hd, GoMap.get_set_self, hn, nameLoop_eq]

set_option maxRecDepth 100000 in
/-- C19 fails on an empty log when the number 5 is drawn twice: the name
`=========f` is handed out twice, and it is padded with `=`. -/
theorem randNameGen_names_witness :
    randNameGen (sampleEnv []) false [] [5, 5] =
      some ⟨[lit "=========f", lit "=========f"],
        [(lit "repos/names.dat", lit "=========f\n=========f\n")]⟩ ∧
    5 < maxNum ∧
    ¬ [lit "=========f", lit "=========f"].Nodup ∧
    [lit "=========f", lit "=========f"] =
      ([5, 5].map base36).filter (fun name => decide (name ∉ usedNames (sampleEnv []) [])) :=
  ⟨by decide, by decide, by decide,
    (randNameGen_names (sampleEnv []) false [] [5, 5]
      ⟨[lit "=========f", lit "=========f"],
        [(lit "repos/names.dat", lit "=========f\n=========f\n")]⟩ (by decide)).1⟩

/-! ## The registry after a save -/

theorem HasPrefix_dotdot_append_true (c rest : GoString)
    (h : HasPrefix c [46, 46] = true) :
    HasPrefix (c ++ 47 :: rest) [46, 46] = true := by
  cases c with
  | nil => simp [HasPrefix, List.isPrefixOf] at h
  | cons x t =>
    cases t with
    | nil => simp [HasPrefix, List.isPrefixOf] at h
    | cons y t' => simpa [HasPrefix, List.isPrefixOf] using h

theorem storeHashes_under_root_skip (E : Env) (r : Repo) (hw : HashWriter) (rt : Bool)
    (Es T : List GoString) (hk : keptStack rt Es.reverse)
    (hb : filepath.Join [E.repoPath, r.Name, lit "dists", r.Config.Codename] = render rt Es)
    (hT : T ≠ []) (hp : ∀ c ∈ T, plainElem c)
    (hdd : HasPrefix (joinSlash T) [46, 46] = true) :
    Repo.storeHashes E r (render rt (Es ++ T)) hw = r := by
  unfold Repo.storeHashes
  simp only [hb, Rel_render rt Es T hk hT hp]
  have : HasPrefix (joinSlash T) (lit "..") = true := hdd
  simp [this]

/-- Nothing is recorded for a file `f` of the directory of a group when the
component begins with two dots. -/
theorem storeHashes_groupFile_skip (E : Env) (r : Repo) (hw : HashWriter) (dir f : GoString)
    (hc : plainElem r.Config.Component) (hcp : HasPrefix r.Config.Component [46, 46] = true)
    (hd : plainElem dir) (hf : plainElem f) :
    Repo.storeHashes E r (filepath.Join [groupDir E r dir, f]) hw = r := by
  obtain ⟨rt, Es, hk, hb, hext⟩ := dist_root_normal E r
  have hcd : ∀ c ∈ [r.Config.Component, dir], plainElem c := by
    intro c hcm
    simp at hcm
    rcases hcm with h | h <;> (subst h; assumption)
  have h1 : groupDir E r dir = render rt (Es ++ [r.Config.Component, dir]) :=
    hext [r.Config.Component, dir] (by simp) hcd
  have hk1 := keptStack_append_plain rt Es _ hk hcd
  have h2 : filepath.Join [groupDir E r dir, f] =
      render rt (Es ++ [r.Config.Component, dir, f]) := by
    rw [h1, Join_render_plain rt _ f hk1 hf]
    simp
  rw [h2]
  have hall : ∀ c ∈ [r.Config.Component, dir, f], plainElem c := by
    intro c hcm
    simp at hcm
    rcases hcm with h | h | h <;> (subst h; assumption)
  exact storeHashes_under_root_skip E r hw rt Es _ hk hb (by simp) hall
    (HasPrefix_dotdot_append_true _ _ hcp)

theorem storeHashes_groupFile_suffix_skip (E : Env) (r : Repo) (hw : HashWriter)
    (dir f s : GoString)
    (hc : plainElem r.Config.Component) (hcp : HasPrefix r.Config.Component [46, 46] = true)
    (hd : plainElem dir) (hf : plainElem f) (hfs : plainElem (f ++ s)) :
    Repo.storeHashes E r (filepath.Join [groupDir E r dir, f] ++ s) hw = r := by
  obtain ⟨rt, Es, hk, hb, hext⟩ := dist_root_normal E r
  have hcd : ∀ c ∈ [r.Config.Component, dir], plainElem c := by
    intro c hcm
    simp at hcm
    rcases hcm with h | h <;> (subst h; assumption)
  have h1 : groupDir E r dir = render rt (Es ++ [r.Config.Component, dir]) :=
    hext [r.Config.Component, dir] (by simp) hcd
  have hk1 := keptStack_append_plain rt Es _ hk hcd
  have h2 : filepath.Join [groupDir E r dir, f] ++ s =
      render rt (Es ++ [r.Config.Component, dir, f ++ s]) := by
    rw [h1, Join_render_plain rt _ f hk1 hf, render_append_last]
    simp
  rw [h2]
  have hall : ∀ c ∈ [r.Config.Component, dir, f ++ s], plainElem c := by
    intro c hcm
    simp at hcm
    rcases hcm with h | h | h <;> (subst h; assumption)
  exact storeHashes_under_root_skip E r hw rt Es _ hk hb (by simp) hall
    (HasPrefix_dotdot_append_true _ _ hcp)

theorem writePackages_group_skip (E : Env) (pg : PackageGroup) (r : Repo) (disk : Disk)
    (name : GoString)
    (hc : plainElem r.Config.Component) (hcp : HasPrefix r.Config.Component [46, 46] = true)
    (hn : plainElem name) :
    (PackageGroup.writePackages E pg r disk name).repo = r := by
  have hpath : filepath.Join [E.repoPath, r.Name, lit "dists", r.Config.Codename,
      r.Config.Component, name] = groupDir E r name := rfl
  have hfile : (if name = lit "source" then lit "Sources" else lit "Packages") =
      indexFile name := rfl
  obtain ⟨hf, hfs⟩ := plainElem_indexFile name
  unfold PackageGroup.writePackages
  simp only [hpath, hfile]
  by_cases h1 : E.fails .mkdirAll (groupDir E r name) = true
  · rw [if_pos h1]
  rw [if_neg h1]
  by_cases h2 : E.fails .create (filepath.Join [groupDir E r name, indexFile name]) = true
  · rw [if_pos h2]
  rw [if_neg h2]
  by_cases h3 : E.fails .create
      (filepath.Join [groupDir E r name, indexFile name] ++ lit ".gz") = true
  · rw [if_pos h3]
  rw [if_neg h3]
  simp only
  rw [storeHashes_groupFile_skip E r _ name (indexFile name) hc hcp hn hf,
    storeHashes_groupFile_suffix_skip E r _ name (indexFile name) (lit ".gz") hc hcp hn hf hfs]

theorem writeDeepRelease_skip (E : Env) (r : Repo) (disk : Disk) (name arch : GoString)
    (hc : plainElem r.Config.Component) (hcp : HasPrefix r.Config.Component [46, 46] = true)
    (hn : plainElem name) :
    (Repo.writeDeepRelease E r disk name arch).repo = r := by
  have hpath : filepath.Join [E.repoPath, r.Name, lit "dists", r.Config.Codename,
      r.Config.Component, name] = groupDir E r name := rfl
  unfold Repo.writeDeepRelease
  simp only [hpath]
  by_cases h1 : E.fails .mkdirAll (groupDir E r name) = true
  · rw [if_pos h1]
  rw [if_neg h1]
  by_cases h2 : E.fails .create (filepath.Join [groupDir E r name, lit "Release"]) = true
  · rw [if_pos h2]
  rw [if_neg h2]
  simp only
  exact storeHashes_groupFile_skip E r _ name (lit "Release") hc hcp hn (by decide)

theorem repo_step {o : Outcome} {r : Repo} (next : Outcome) (h1 : o.repo = r)
    (h2 : o.repo = r → next.repo = r) :
    (if o.err.isSome = true then o else next).repo = r := by
  by_cases h : o.err.isSome = true
  · rw [if_pos h]; exact h1
  · rw [if_neg h]; exact h2 h1

theorem writePackages_skip (E : Env) (r : Repo) (disk : Disk)
    (hc : plainElem r.Config.Component) (hcp : HasPrefix r.Config.Component [46, 46] = true) :
    (Repo.writePackages E r disk).repo = r := by
  unfold Repo.writePackages
  simp only
  refine repo_step _ (writePackages_group_skip E _ r _ _ hc hcp (by decide)) fun h1 => ?_
  refine repo_step _ ((writeDeepRelease_skip E _ _ _ _ (h1.symm ▸ hc) (h1.symm ▸ hcp)
    (by decide)).trans h1) fun h2 => ?_
  refine repo_step _ ((writePackages_group_skip E _ _ _ _ (h2.symm ▸ hc) (h2.symm ▸ hcp)
    (by decide)).trans h2) fun h3 => ?_
  refine repo_step _ ((writeDeepRelease_skip E _ _ _ _ (h3.symm ▸ hc) (h3.symm ▸ hcp)
    (by decide)).trans h3) fun h4 => ?_
  refine repo_step _ ((writePackages_group_skip E _ _ _ _ (h4.symm ▸ hc) (h4.symm ▸ hcp)
    (by decide)).trans h4) fun h5 => ?_
  exact (writeDeepRelease_skip E _ _ _ _ (h5.symm ▸ hc) (h5.symm ▸ hcp) (by decide)).trans h5

theorem Save_skip (E : Env) (r : Repo) (disk : Disk)
    (hc : plainElem r.Config.Component) (hcp : HasPrefix r.Config.Component [46, 46] = true) :
    (Repo.Save E r disk).repo = r := by
  unfold Repo.Save
  simp only
  by_cases h1 : E.fails .mkdirAll (filepath.Join [E.repoPath, r.Name]) = true
  · rw [if_pos h1]
  rw [if_neg h1]
  by_cases h2 : E.fails .create
      (filepath.Join [filepath.Join [E.repoPath, r.Name], lit ".meta"]) = true
  · rw [if_pos h2]
  rw [if_neg h2]
  refine repo_step _ (writePackages_skip E r _ hc hcp) fun _ => ?_
  rw [writeRelease_repo]
  exact writePackages_skip E r _ hc hcp

/-- C2: `Save` is entered with the registry the state file holds, which is
empty, since `Save` encodes the state before it fills the registry. For such
a repository whose component is one path element, a `Save` that succeeds
leaves name, configuration and package index as they were. When the
component does not begin with two dots, the keys of the registry are then
exactly the keys of the nine regenerated metadata files. When the component
begins with two dots, as `..x` does, the nine files are written all the
same but `storeHashes` takes their relative paths to lie outside the
directory of the distribution, and the registry stays empty. -/
theorem save_registry_keys (E : Env) (r : Repo) (disk : Disk)
    (hc : plainElem r.Config.Component) (hempty : r.Files = GoMap.empty)
    (herr : (Repo.Save E r disk).err = none) :
    (HasPrefix r.Config.Component (lit "..") = false →
      ∀ k, (GoMap.get (Repo.Save E r disk).repo.Files k).isSome = true ↔
        k ∈ regenerated r.Config.Component) ∧
    (HasPrefix r.Config.Component (lit "..") = true →
      (Repo.Save E r disk).repo.Files = GoMap.empty) ∧
    (Repo.Save E r disk).repo.Name = r.Name ∧
    (Repo.Save E r disk).repo.Config = r.Config ∧
    (Repo.Save E r disk).repo.Packages = r.Packages := by
  obtain ⟨h1, h2, h3⟩ := Save_sameIndex E r disk
  refine ⟨?_, ?_, h1, h2, h3⟩
  · intro hcp k
    rw [(Save_extend E r disk hc hcp herr).2 k, hempty]
    simp [GoMap.empty, GoMap.get]
  · intro hcp
    rw [Save_skip E r disk hc hcp, hempty]

set_option maxRecDepth 100000 in
/-- C2 fails for the component `..x`: `Save` of the sample repository under
that component succeeds on an empty disk and writes the metadata files, as
the index of the group `binary-i386` and its Release stanza show, yet the
registry is empty afterwards and the top-level Release file lists no file.
`UpdateSharedRepo` saves this very repository for the settings that give
the codename `c` and the component `..x`. -/
theorem save_registry_keys_witness :
    plainElem dotdotRepo.Config.Component ∧
    dotdotRepo.Files = GoMap.empty ∧
    (Repo.Save (sampleEnv []) dotdotRepo []).err = none ∧
    HasPrefix dotdotRepo.Config.Component (lit "..") = true ∧
    (Repo.Save (sampleEnv []) dotdotRepo []).repo.Files = GoMap.empty ∧
    (GoMap.get (Repo.Save (sampleEnv []) dotdotRepo []).disk
      (lit "repos/r/dists/c/..x/binary-i386/Packages")).isSome = true ∧
    (GoMap.get (Repo.Save (sampleEnv []) dotdotRepo []).disk
      (lit "repos/r/dists/c/..x/binary-i386/Packages.gz")).isSome = true ∧
    (GoMap.get (Repo.Save (sampleEnv []) dotdotRepo []).disk
      (lit "repos/r/dists/c/..x/binary-i386/Release")).isSome = true ∧
    GoMap.get (Repo.Save (sampleEnv []) dotdotRepo []).disk (lit "repos/r/dists/c/Release") =
      some (releaseHeader (sampleEnv []) dotdotRepo ++ lit "MD5Sum:\nSHA1:\nSHA256:\n") ∧
    Repo.applySettings (sampleEnv []) (newRepo (lit "r"))
      [(lit "codename", lit "c"), (lit "component", lit "..x")] = .ok dotdotRepo ∧
    UpdateSharedRepo (sampleEnv []) [] (lit "r")
        [(lit "codename", lit "c"), (lit "component", lit "..x")] =
      (none, (Repo.Save (sampleEnv []) dotdotRepo []).disk) :=
  ⟨by decide, by decide, by decide, by decide,
    (save_registry_keys (sampleEnv []) dotdotRepo [] (by decide) (by decide) (by decide)).2.1
      (by decide),
    by decide, by decide, by decide, by decide, by decide, by decide⟩

end RepoServer
